import Mathlib

/-!
# A RESP client over a raw socket: wire codec and connection manager

Shallow embedding of `app/api/redisclient.go`, of the `do` of
`app/image-job/redisclient.go`, and of the pixel loops of
`app/image-job/imageproc.go`.

* Go strings and `[]byte` are both byte sequences; a byte is a natural number
  (a value below 256 in every real run).  The codec only compares bytes with
  constants and subtracts the digit base from digits, so nothing wraps around.
* Go `int`/`int64` values are `Int`; the range checks of `strconv` are explicit.
* `bufio.Reader` over the socket is a `Stream`: the bytes still to come, and the
  error every read returns once they are used up.
* `make` on a slice is `runtime.makeslice`: it panics on a negative length and
  on a size above `maxAlloc`, the limit of the allocator on 64-bit Linux.
  Running out of memory, a fatal error that depends on the machine, is not
  modelled: an allocation that `makeslice` accepts succeeds.
* Library functions whose tables are outside the repository (`strings.ToUpper`,
  `strings.ToLower`, `strconv.Quote`, `%q`) are fields of a `GoLib` parameter.
-/

namespace Redis

/-- A Go string or byte slice. -/
abbrev Bytes := List Nat

/-- The bytes of an ASCII literal. -/
def ascii (s : String) : Bytes := s.toList.map Char.toNat

/-- The two bytes `\r\n`. -/
def CRLF : Bytes := [13, 10]

/-! ## Errors -/

/-- A Go `error` value, as far as this client observes one: its `Error()` text,
which sentinels `errors.Is` finds in its chain, and whether `errors.As` finds a
`net.Error` whose `Timeout()` is true. -/
structure GoErr where
  msg : Bytes
  isEOF : Bool
  isUnexpectedEOF : Bool
  isDeadlineExceeded : Bool
  isNetClosed : Bool
  netTimeout : Bool
deriving DecidableEq, Repr

/-- The error made by `errors.New(text)` or `fmt.Errorf` without `%w`. -/
def GoErr.New (text : Bytes) : GoErr :=
  { msg := text, isEOF := false, isUnexpectedEOF := false, isDeadlineExceeded := false,
    isNetClosed := false, netTimeout := false }

/-- The sentinel `io.EOF`. -/
def GoErr.EOF : GoErr := { GoErr.New (ascii "EOF") with isEOF := true }

/-- The sentinel `ErrNil = errors.New("redis: nil")`. -/
def ErrNil : GoErr := GoErr.New (ascii "redis: nil")

/-- Library functions taken as parameters. -/
structure GoLib where
  /-- The function `strings.ToUpper`. -/
  ToUpper : Bytes → Bytes
  /-- The function `strings.ToLower`. -/
  ToLower : Bytes → Bytes
  /-- The function `strconv.Quote`. -/
  Quote : Bytes → Bytes
  /-- The verb `%q` of `fmt` applied to one byte. -/
  QuoteByte : Nat → Bytes

/-- Upper-case one ASCII byte. -/
def asciiUpperByte (b : Nat) : Nat := if 97 ≤ b ∧ b ≤ 122 then b - 32 else b

/-- Lower-case one ASCII byte. -/
def asciiLowerByte (b : Nat) : Nat := if 65 ≤ b ∧ b ≤ 90 then b + 32 else b

/-- The library functions on ASCII text without quotes, backslashes or control
bytes, where they are byte-wise maps and plain quoting. -/
def asciiLib : GoLib :=
  { ToUpper := fun s => s.map asciiUpperByte
    ToLower := fun s => s.map asciiLowerByte
    Quote := fun s => [34] ++ s ++ [34]
    QuoteByte := fun b => [39, b, 39] }

/-! ## strconv -/

/-- Most significant first decimal digits of `n`, pushed in front of `acc`. -/
def digitsAux : Nat → Nat → Bytes → Bytes
  | 0, _, acc => acc
  | fuel + 1, n, acc =>
    if n < 10 then (48 + n) :: acc else digitsAux fuel (n / 10) ((48 + n % 10) :: acc)

/-- Decimal text of a natural number. -/
def decimal (n : Nat) : Bytes := digitsAux (n + 1) n []

/-- The function `strconv.Itoa` (and `strconv.FormatInt(_, 10)`). -/
def Itoa (i : Int) : Bytes :=
  if i < 0 then 45 :: decimal (-i).toNat else decimal i.toNat

/-- The two failures of `strconv` number parsing. -/
inductive NumErrKind where
  | syntaxErr
  | rangeErr
deriving DecidableEq, Repr

/-- The largest `uint64`. -/
def maxUint64 : Nat := 2 ^ 64 - 1

/-- The digit loop of `strconv.ParseUint(s, 10, 64)`. -/
def parseUintLoop : Nat → Bytes → Except NumErrKind Nat
  | n, [] => .ok n
  | n, c :: cs =>
    if 48 ≤ c ∧ c ≤ 57 then
      if n ≥ maxUint64 / 10 + 1 then .error .rangeErr
      else if n * 10 + (c - 48) > maxUint64 then .error .rangeErr
      else parseUintLoop (n * 10 + (c - 48)) cs
    else .error .syntaxErr

/-- The function `strconv.ParseUint(s, 10, 64)`. -/
def ParseUint (s : Bytes) : Except NumErrKind Nat :=
  match s with
  | [] => .error .syntaxErr
  | _ => parseUintLoop 0 s

/-- Value part of `strconv.ParseInt(s, 10, 64)`: one optional sign, then
`ParseUint`, then the signed range check.  A range failure of `ParseUint` stays a
range failure. -/
def parseIntCore (s : Bytes) : Except NumErrKind Int :=
  match s with
  | [] => .error .syntaxErr
  | c :: tl =>
    let neg := decide (c = 45)
    let body := if c = 43 ∨ c = 45 then tl else s
    match ParseUint body with
    | .error k => .error k
    | .ok un =>
      if ¬ neg ∧ un ≥ 2 ^ 63 then .error .rangeErr
      else if neg ∧ un > 2 ^ 63 then .error .rangeErr
      else .ok (if neg then -(un : Int) else (un : Int))

/-- The `*strconv.NumError` text: `strconv.<fn>: parsing <quoted input>: <reason>`. -/
def numError (lib : GoLib) (fn : Bytes) (s : Bytes) (k : NumErrKind) : GoErr :=
  GoErr.New (ascii "strconv." ++ fn ++ ascii ": parsing " ++ lib.Quote s ++ ascii ": " ++
    (match k with
     | .syntaxErr => ascii "invalid syntax"
     | .rangeErr => ascii "value out of range"))

/-- The function `strconv.ParseInt(s, 10, 64)`. -/
def ParseInt (lib : GoLib) (s : Bytes) : Except GoErr Int :=
  match parseIntCore s with
  | .ok n => .ok n
  | .error k => .error (numError lib (ascii "ParseInt") s k)

/-- The function `strconv.Atoi` on a 64-bit platform: the same values as
`ParseInt(s, 10, 0)` on both its short-input path and its general path, with the
function name `Atoi` in the error. -/
def Atoi (lib : GoLib) (s : Bytes) : Except GoErr Int :=
  match parseIntCore s with
  | .ok n => .ok n
  | .error k => .error (numError lib (ascii "Atoi") s k)

/-! ## The buffered reader -/

/-- What is left to read: `data`, then every read fails with `fin`. -/
structure Stream where
  data : Bytes
  fin : GoErr
deriving DecidableEq, Repr

/-- Result of a read operation together with the stream left behind.
`panic` is a Go run-time panic; `outOfFuel` is the recursion bound of the model
being hit, which `readResp` never reports. -/
inductive Res (α : Type) where
  | ok (v : α) (rest : Stream)
  | err (e : GoErr) (rest : Stream)
  | panic (msg : String)
  | outOfFuel
deriving Repr

/-- Split after the first line feed: the text up to and including it, and the rest. -/
def splitLF : Bytes → Option (Bytes × Bytes)
  | [] => none
  | c :: cs =>
    if c = 10 then some ([c], cs)
    else match splitLF cs with
      | none => none
      | some (l, rest) => some (c :: l, rest)

/-- The method `bufio.Reader.ReadString('\n')`. -/
def ReadString (r : Stream) : Res Bytes :=
  match splitLF r.data with
  | some (l, rest) => .ok l { r with data := rest }
  | none => .err r.fin { r with data := [] }

/-- The function `strings.TrimSuffix`. -/
def TrimSuffix (s suffix : Bytes) : Bytes :=
  if suffix.isSuffixOf s then s.take (s.length - suffix.length) else s

/-- Source: `readLine`. -/
def readLine (r : Stream) : Res Bytes :=
  match ReadString r with
  | .ok s r1 => .ok (TrimSuffix (TrimSuffix s [10]) [13]) r1
  | .err e r1 => .err e r1
  | .panic m => .panic m
  | .outOfFuel => .outOfFuel

/-- Source: `ioReadFull` on a buffer of `n` bytes.  The loop adds up the chunks
`Read` hands out until the buffer is full or a read fails; the chunk sizes do
not change the outcome. -/
def ioReadFull (r : Stream) (n : Nat) : Res Bytes :=
  if n ≤ r.data.length then .ok (r.data.take n) { r with data := r.data.drop n }
  else .err r.fin { r with data := [] }

/-- The method `bufio.Reader.ReadByte`. -/
def ReadByte (r : Stream) : Res Nat :=
  match r.data with
  | b :: rest => .ok b { r with data := rest }
  | [] => .err r.fin r

/-! ## Reply values and `readResp` -/

/-- The dynamic value `readResp` returns: a Go `string`, an `int64`, a `[]byte`,
the untyped `nil`, or a `[]any` of such values. -/
inductive Resp where
  | str (s : Bytes)
  | int (n : Int)
  | bulk (b : Bytes)
  | nil
  | arr (items : List Resp)
deriving Repr

/-- The `for i := 0; i < n; i++` loop of the array case: `k` more elements are
read with `rd` and appended to `acc`. -/
def readElems (rd : Stream → Res Resp) : Nat → Stream → List Resp → Res (List Resp)
  | 0, r, acc => .ok acc r
  | k + 1, r, acc =>
    match rd r with
    | .ok v r1 => readElems rd k r1 (acc ++ [v])
    | .err e r1 => .err e r1
    | .panic m => .panic m
    | .outOfFuel => .outOfFuel

/-- The constant `runtime.maxAlloc` on 64-bit Linux (`heapAddrBits = 48`): the
largest number of bytes one allocation may ask for. -/
def maxAlloc : Nat := 2 ^ 48

/-- The conversion `uintptr(n)` of an `int` on a 64-bit machine. -/
def uintptr (n : Int) : Nat := (n % 2 ^ 64).toNat

/-- The checks of `runtime.makeslice` for elements of `size` bytes: `none` when
the slice is allocated, else the text of the run-time panic.  The product
`size * uintptr(cap)` is taken in the natural numbers, so that `overflow || mem >
maxAlloc` of the source is the one comparison with `maxAlloc`; when the test on
`cap` fails, the same test on `len` chooses between the two messages. -/
def makeslice (size : Nat) (len cap : Int) : Option String :=
  if size * uintptr cap > maxAlloc ∨ len < 0 ∨ len > cap then
    if size * uintptr len > maxAlloc ∨ len < 0 then
      some "runtime error: makeslice: len out of range"
    else some "runtime error: makeslice: cap out of range"
  else none

/-- The bulk-string case after the length line: `make([]byte, n)`, `ioReadFull`,
and two `ReadByte` calls whose bytes are dropped unchecked.  A `byte` takes one
byte of memory. -/
def readBulk (r : Stream) (n : Int) : Res Resp :=
  if n = -1 then .ok .nil r
  else
    match makeslice 1 n n with
    | some m => .panic m
    | none =>
      match ioReadFull r n.toNat with
      | .ok buf r1 =>
        match ReadByte r1 with
        | .ok _ r2 =>
          match ReadByte r2 with
          | .ok _ r3 => .ok (.bulk buf) r3
          | .err e r3 => .err e r3
          | .panic m => .panic m
          | .outOfFuel => .outOfFuel
        | .err e r2 => .err e r2
        | .panic m => .panic m
        | .outOfFuel => .outOfFuel
      | .err e r1 => .err e r1
      | .panic m => .panic m
      | .outOfFuel => .outOfFuel

/-- The array case after the count line: `make([]any, 0, n)` and the element
loop, whose `append` stays within the capacity.  An `any` takes two words, 16
bytes. -/
def readArray (rd : Stream → Res Resp) (r : Stream) (n : Int) : Res Resp :=
  if n = -1 then .ok .nil r
  else
    match makeslice 16 0 n with
    | some m => .panic m
    | none =>
      match readElems rd n.toNat r [] with
      | .ok items r1 => .ok (.arr items) r1
      | .err e r1 => .err e r1
      | .panic m => .panic m
      | .outOfFuel => .outOfFuel

/-- Body of `readResp`, with the recursive call on array elements passed in as `rd`. -/
def readRespBody (lib : GoLib) (rd : Stream → Res Resp) (r : Stream) : Res Resp :=
  match readLine r with
  | .err e r1 => .err e r1
  | .panic m => .panic m
  | .outOfFuel => .outOfFuel
  | .ok line r1 =>
    match line with
    | [] => .err (GoErr.New (ascii "empty redis response")) r1
    | c :: tl =>
      if c = 43 then .ok (.str tl) r1
      else if c = 45 then .err (GoErr.New tl) r1
      else if c = 58 then
        match ParseInt lib tl with
        | .error e => .err e r1
        | .ok n => .ok (.int n) r1
      else if c = 36 then
        match Atoi lib tl with
        | .error e => .err e r1
        | .ok n => readBulk r1 n
      else if c = 42 then
        match Atoi lib tl with
        | .error e => .err e r1
        | .ok n => readArray rd r1 n
      else .err (GoErr.New (ascii "unknown RESP type: " ++ lib.QuoteByte c)) r1

/-- Source: `readResp`, with the nesting depth bounded by `fuel`. -/
def readRespFuel (lib : GoLib) : Nat → Stream → Res Resp
  | 0, _ => .outOfFuel
  | fuel + 1, r => readRespBody lib (readRespFuel lib fuel) r

/-- Source: `readResp`.  Every nesting level consumes at least one byte, so the
number of unread bytes plus one bounds the depth. -/
def readResp (lib : GoLib) (r : Stream) : Res Resp :=
  readRespFuel lib (r.data.length + 1) r

/-! ## Commands and the socket -/

/-- One `any` argument of `do`: the dynamic types `toString` tells apart.  A
`float64` or a value of any other type is carried with the text that
`formatFloat`, respectively `fmt.Sprint`, renders for it. -/
inductive Arg where
  | str (s : Bytes)
  | bytes (b : Bytes)
  | int (n : Int)
  | int64 (n : Int)
  | bool (b : Bool)
  | other (text : Bytes)
deriving DecidableEq, Repr

/-- Source: `toString`. -/
def toString : Arg → Bytes
  | .str t => t
  | .bytes t => t
  | .int n => Itoa n
  | .int64 n => Itoa n
  | .bool b => if b then ascii "1" else ascii "0"
  | .other text => text

/-- The socket with its `bufio.ReadWriter`: unread reply bytes, unflushed
output, the writer's sticky error, how many more bytes the socket accepts before
writes fail (`none`: no failure), and the bytes delivered to the peer so far. -/
structure Conn where
  id : Nat
  inbound : Stream
  wbuf : Bytes
  werr : Option GoErr
  wlimit : Option (Nat × GoErr)
  sent : Bytes
deriving DecidableEq, Repr

/-- The methods `bufio.Writer.WriteString` and `bufio.Writer.Write`: refuse with
the sticky error, else buffer the bytes.  (A write that fills the buffer flushes
early; the bytes delivered and the error of the send attempt are the same.) -/
def Conn.Write (k : Conn) (b : Bytes) : Conn × Option GoErr :=
  match k.werr with
  | some e => (k, some e)
  | none => ({ k with wbuf := k.wbuf ++ b }, none)

/-- The method `bufio.Writer.Flush`: hand the buffered bytes to the socket. -/
def Conn.Flush (k : Conn) : Conn × Option GoErr :=
  match k.werr with
  | some e => (k, some e)
  | none =>
    match k.wlimit with
    | none => ({ k with sent := k.sent ++ k.wbuf, wbuf := [] }, none)
    | some (room, e) =>
      if k.wbuf.length ≤ room then
        ({ k with sent := k.sent ++ k.wbuf, wbuf := [],
                  wlimit := some (room - k.wbuf.length, e) }, none)
      else
        ({ k with sent := k.sent ++ k.wbuf.take room, wbuf := k.wbuf.drop room,
                  werr := some e, wlimit := some (0, e) }, some e)

/-- Source: `writeArrayHeader`. -/
def writeArrayHeader (w : Conn) (n : Int) : Conn × Option GoErr :=
  w.Write ([42] ++ Itoa n ++ CRLF)

/-- Source: `writeBulkBytes`. -/
def writeBulkBytes (w : Conn) (b : Bytes) : Conn × Option GoErr :=
  match w.Write ([36] ++ Itoa b.length ++ CRLF) with
  | (w1, some e) => (w1, some e)
  | (w1, none) =>
    match w1.Write b with
    | (w2, some e) => (w2, some e)
    | (w2, none) => w2.Write CRLF

/-- Source: `writeBulk`. -/
def writeBulk (w : Conn) (s : Bytes) : Conn × Option GoErr :=
  writeBulkBytes w s

/-- The type switch in the argument loop of `sendOnce`: a `[]byte` is written as
it is, anything else through `toString`. -/
def writeArg (w : Conn) : Arg → Conn × Option GoErr
  | .bytes v => writeBulkBytes w v
  | v => writeBulk w (toString v)

/-- The `for _, a := range args` loop of `sendOnce`. -/
def writeArgs : Conn → List Arg → Conn × Option GoErr
  | w, [] => (w, none)
  | w, a :: rest =>
    match writeArg w a with
    | (w1, some e) => (w1, some e)
    | (w1, none) => writeArgs w1 rest

/-- What a call hands back: the Go pair `(value, error)`, or a panic, or the
model's recursion bound. -/
inductive Call (α : Type) where
  | ret (v : α) (err : Option GoErr)
  | panic (msg : String)
  | outOfFuel
deriving Repr

/-- Observable steps of the connection manager. -/
inductive Event where
  | attempt
  | dialed (id : Nat)
  | dialFailed (e : GoErr)
  | closed (id : Nat)
deriving DecidableEq, Repr

/-- What a successful dial connects to. -/
structure Peer where
  inbound : Stream
  wlimit : Option (Nat × GoErr)
deriving DecidableEq, Repr

/-- The network: the outcome of the n-th dial, the dials made so far, and the
steps taken so far. -/
structure World where
  dialer : Nat → Except GoErr Peer
  dials : Nat
  log : List Event

/-- The client: `conn` and `rw` are set and cleared together. -/
structure RedisClient where
  conn : Option Conn
deriving DecidableEq, Repr

/-- Source: `connectLocked`. -/
def connectLocked (c : RedisClient) (w : World) : Option GoErr × RedisClient × World :=
  match w.dialer w.dials with
  | .error e => (some e, c, { w with dials := w.dials + 1, log := w.log ++ [.dialFailed e] })
  | .ok p =>
    (none,
     { conn := some { id := w.dials, inbound := p.inbound, wbuf := [], werr := none,
                      wlimit := p.wlimit, sent := [] } },
     { w with dials := w.dials + 1, log := w.log ++ [.dialed w.dials] })

/-- Source: `resetLocked`. -/
def resetLocked (c : RedisClient) (w : World) : RedisClient × World :=
  match c.conn with
  | some k => ({ conn := none }, { w with log := w.log ++ [.closed k.id] })
  | none => ({ conn := none }, w)

/-- Source: `strings.Contains`. -/
def Contains : Bytes → Bytes → Bool
  | [], sub => sub.isEmpty
  | c :: cs, sub => sub.isPrefixOf (c :: cs) || Contains cs sub

/-- Source: `isRetryableNetErr`. -/
def isRetryableNetErr (lib : GoLib) (err : Option GoErr) : Bool :=
  match err with
  | none => false
  | some e =>
    if e.isEOF || e.isUnexpectedEOF then true
    else if e.isDeadlineExceeded then true
    else if e.isNetClosed then true
    else if e.netTimeout then true
    else
      let msg := lib.ToLower e.msg
      if Contains msg (ascii "use of closed network connection") ||
         Contains msg (ascii "connection reset") ||
         Contains msg (ascii "broken pipe") then true
      else false

/-- The writes of `sendOnce`, up to but not including `Flush`: the array header,
the upper-cased command name, and the arguments. -/
def writeFrames (lib : GoLib) (cmd : Bytes) (args : List Arg) (k : Conn) : Conn × Option GoErr :=
  match writeArrayHeader k (1 + args.length) with
  | (k1, some e) => (k1, some e)
  | (k1, none) =>
    match writeBulk k1 (lib.ToUpper cmd) with
    | (k2, some e) => (k2, some e)
    | (k2, none) => writeArgs k2 args

/-- The part of `sendOnce` that runs on a live connection: write the command,
flush, read one reply. -/
def exchange (lib : GoLib) (cmd : Bytes) (args : List Arg) (k : Conn) (w : World) :
    Call Resp × RedisClient × World :=
  match writeFrames lib cmd args k with
  | (k3, some e) => (.ret .nil (some e), { conn := some k3 }, w)
  | (k3, none) =>
    match k3.Flush with
    | (k4, some e) => (.ret .nil (some e), { conn := some k4 }, w)
    | (k4, none) =>
      match readResp lib k4.inbound with
      | .ok v rest => (.ret v none, { conn := some { k4 with inbound := rest } }, w)
      | .err e rest => (.ret .nil (some e), { conn := some { k4 with inbound := rest } }, w)
      | .panic m => (.panic m, { conn := some k4 }, w)
      | .outOfFuel => (.outOfFuel, { conn := some k4 }, w)

/-- Source: the closure `sendOnce` of `do`.  The deadline set on the socket
shows only in the errors that reads and writes return, which the `Stream` and
the write limit of the connection carry. -/
def sendOnce (lib : GoLib) (cmd : Bytes) (args : List Arg) (c : RedisClient) (w : World) :
    Call Resp × RedisClient × World :=
  let w0 := { w with log := w.log ++ [.attempt] }
  match c.conn with
  | some k => exchange lib cmd args k w0
  | none =>
    match connectLocked c w0 with
    | (some e, c1, w1) => (.ret .nil (some e), c1, w1)
    | (none, c1, w1) =>
      match c1.conn with
      | some k => exchange lib cmd args k w1
      | none => (.panic "nil pointer dereference", c1, w1)

/-- Source: `RedisClient.do`. -/
def RedisClient.do (lib : GoLib) (cmd : Bytes) (args : List Arg) (c : RedisClient) (w : World) :
    Call Resp × RedisClient × World :=
  match sendOnce lib cmd args c w with
  | (.ret v err, c1, w1) =>
    if ¬ isRetryableNetErr lib err then (.ret v err, c1, w1)
    else
      let cw := resetLocked c1 w1
      match connectLocked cw.1 cw.2 with
      | (some recErr, c3, w3) =>
        (.ret .nil (some (match err with
                          | none => recErr
                          | some e => e)), c3, w3)
      | (none, c3, w3) => sendOnce lib cmd args c3 w3
  | other => other

/-- The verb `%T` of `fmt` on a reply value. -/
def typeName : Resp → Bytes
  | .str _ => ascii "string"
  | .int _ => ascii "int64"
  | .bulk _ => ascii "[]uint8"
  | .nil => ascii "<nil>"
  | .arr _ => ascii "[]interface \x7b\x7d"

/-- Source: `RedisClient.GetBytes`.  A nil `[]byte` result is `none`. -/
def RedisClient.GetBytes (lib : GoLib) (key : Bytes) (c : RedisClient) (w : World) :
    Call (Option Bytes) × RedisClient × World :=
  match RedisClient.do lib (ascii "GET") [.str key] c w with
  | (.ret _ (some e), c1, w1) => (.ret none (some e), c1, w1)
  | (.ret v none, c1, w1) =>
    match v with
    | .nil => (.ret none (some ErrNil), c1, w1)
    | .bulk b => (.ret (some b) none, c1, w1)
    | other => (.ret none (some (GoErr.New (ascii "GET: unexpected type " ++ typeName other))), c1, w1)
  | (.panic m, c1, w1) => (.panic m, c1, w1)
  | (.outOfFuel, c1, w1) => (.outOfFuel, c1, w1)

/-! ## Specification side: frames on the wire -/

/-- Value of a digit string read left to right, starting from `a`. -/
def valOf (a : Nat) (ds : Bytes) : Nat := ds.foldl (fun x c => x * 10 + (c - 48)) a

/-- A reader that never hands back more unread bytes than it was given. -/
def NonIncreasing (rd : Stream → Res Resp) : Prop :=
  ∀ s v s1, rd s = .ok v s1 → s1.data.length ≤ s.data.length

/-- Spec: the bulk frame of `b` is `$<byte length>\r\n<b>\r\n`. -/
def bulkFrame (b : Bytes) : Bytes := [36] ++ decimal b.length ++ CRLF ++ b ++ CRLF

/-- Spec: a command on the wire is `*<1 + number of arguments>\r\n`, the bulk
frame of the name, and the bulk frame of each argument in order. -/
def commandFrame (name : Bytes) (payloads : List Bytes) : Bytes :=
  [42] ++ decimal (1 + payloads.length) ++ CRLF ++ bulkFrame name ++
    (payloads.map bulkFrame).flatten

/-- A writer with nothing buffered and no error, on a socket that takes every byte. -/
def freshConn : Conn :=
  { id := 0, inbound := ⟨[], GoErr.EOF⟩, wbuf := [], werr := none, wlimit := none, sent := [] }

/-- The bytes the encoder (`writeArrayHeader`, `writeBulk`, `writeBulkBytes`, as
`sendOnce` calls them) leaves in an empty writer. -/
def encodeCommand (lib : GoLib) (cmd : Bytes) (args : List Arg) : Bytes :=
  (writeFrames lib cmd args freshConn).1.wbuf

/-- Spec: the reply shapes of the protocol. -/
inductive Frame where
  | simple (t : Bytes)
  | error (t : Bytes)
  | integer (i : Int)
  | bulk (b : Bytes)
  | nullBulk
  | nullArray
  | array (items : List Frame)
deriving Repr

mutual
/-- Spec: the standard wire serialization of a reply. -/
def Frame.wire : Frame → Bytes
  | .simple t => [43] ++ t ++ CRLF
  | .error t => [45] ++ t ++ CRLF
  | .integer i => [58] ++ Itoa i ++ CRLF
  | .bulk b => bulkFrame b
  | .nullBulk => [36, 45, 49] ++ CRLF
  | .nullArray => [42, 45, 49] ++ CRLF
  | .array items => [42] ++ decimal items.length ++ CRLF ++ Frame.wireAll items
/-- Spec: the serializations of the elements of an array, one after the other. -/
def Frame.wireAll : List Frame → Bytes
  | [] => []
  | f :: fs => f.wire ++ Frame.wireAll fs
end

mutual
/-- Spec: a frame the protocol allows and whose value a Go program can hold: no
line feed inside a line, integers in the signed 64-bit range, a bulk string of
at most `maxAlloc` bytes, an array whose elements, 16 bytes each, take at most
`maxAlloc` bytes. -/
def Frame.wellFormed : Frame → Bool
  | .simple t => decide ((10 : Nat) ∉ t)
  | .error t => decide ((10 : Nat) ∉ t)
  | .integer i => decide (-(2 : Int) ^ 63 ≤ i ∧ i < (2 : Int) ^ 63)
  | .bulk b => decide (b.length ≤ maxAlloc)
  | .nullBulk => true
  | .nullArray => true
  | .array items => decide (16 * items.length ≤ maxAlloc) && Frame.wellFormedAll items
/-- Spec: every frame of the list is well formed. -/
def Frame.wellFormedAll : List Frame → Bool
  | [] => true
  | f :: fs => f.wellFormed && Frame.wellFormedAll fs
end

mutual
/-- Spec: what a reply means to the caller: the value it carries, or the error
of the first error reply met in reading order. -/
def Frame.outcome : Frame → Except GoErr Resp
  | .simple t => .ok (.str t)
  | .error t => .error (GoErr.New t)
  | .integer i => .ok (.int i)
  | .bulk b => .ok (.bulk b)
  | .nullBulk => .ok .nil
  | .nullArray => .ok .nil
  | .array items =>
    match Frame.outcomeAll items with
    | .ok vs => .ok (.arr vs)
    | .error e => .error e
/-- Spec: the values of the elements, or the first error among them. -/
def Frame.outcomeAll : List Frame → Except GoErr (List Resp)
  | [] => .ok []
  | f :: fs =>
    match f.outcome with
    | .error e => .error e
    | .ok v =>
      match Frame.outcomeAll fs with
      | .ok vs => .ok (v :: vs)
      | .error e => .error e
end

/-! ## Concrete clients and networks -/

/-- Spec: an argument that is a Go string (`false`) or a `[]byte` (`true`) with
the given content. -/
def textOrBytes (p : Bool × Bytes) : Arg := if p.1 then .bytes p.2 else .str p.2

/-- A `net.Error` whose `Timeout()` is true. -/
def GoErr.timeout : GoErr := { GoErr.New (ascii "i/o timeout") with netTimeout := true }

/-- A connection with an empty writer on a socket that takes every byte. -/
def liveConn (id : Nat) (inbound : Stream) : Conn :=
  { id := id, inbound := inbound, wbuf := [], werr := none, wlimit := none, sent := [] }

/-- A network after one dial, in which every further dial has the outcome `d`. -/
def steadyWorld (d : Except GoErr Peer) : World :=
  { dialer := fun _ => d, dials := 1, log := [.dialed 0] }

/-- A peer that sends `bytes` and then closes, on a socket that takes every byte. -/
def closingPeer (bytes : Bytes) : Peer := { inbound := ⟨bytes, GoErr.EOF⟩, wlimit := none }

/-- A peer that sends nothing until the deadline passes. -/
def silentPeer : Peer := { inbound := ⟨[], GoErr.timeout⟩, wlimit := none }

/-- The state after the first `sendOnce` of a call. -/
def firstAttempt (lib : GoLib) (cmd : Bytes) (args : List Arg) (c : RedisClient) (w : World) :
    Call Resp × RedisClient × World :=
  sendOnce lib cmd args c w

/-- The state after `resetLocked` and `connectLocked` follow the first attempt. -/
def reconnect (lib : GoLib) (cmd : Bytes) (args : List Arg) (c : RedisClient) (w : World) :
    Option GoErr × RedisClient × World :=
  connectLocked (resetLocked (firstAttempt lib cmd args c w).2.1 (firstAttempt lib cmd args c w).2.2).1
    (resetLocked (firstAttempt lib cmd args c w).2.1 (firstAttempt lib cmd args c w).2.2).2

/-- The state after a second `sendOnce` follows the reconnect. -/
def secondAttempt (lib : GoLib) (cmd : Bytes) (args : List Arg) (c : RedisClient) (w : World) :
    Call Resp × RedisClient × World :=
  sendOnce lib cmd args (reconnect lib cmd args c w).2.1 (reconnect lib cmd args c w).2.2

/-- A client whose connection was closed by the peer. -/
def staleClient : RedisClient := { conn := some (liveConn 0 ⟨[], GoErr.EOF⟩) }

/-- The command `GET k` as an application passes it to `do`. -/
def getK : Bytes × List Arg := (ascii "get", [.str (ascii "k")])

/-! ## Counting the steps of a call -/

/-- Number of send attempts in a log. -/
def countAttempts (l : List Event) : Nat :=
  (l.filter (fun e => match e with
                      | .attempt => true
                      | _ => false)).length

/-- Number of connections closed in a log. -/
def countCloses (l : List Event) : Nat :=
  (l.filter (fun e => match e with
                      | .closed _ => true
                      | _ => false)).length

/-- Number of dials, successful or not, in a log. -/
def countDials (l : List Event) : Nat :=
  (l.filter (fun e => match e with
                      | .dialed _ => true
                      | .dialFailed _ => true
                      | _ => false)).length

/-- Source: `RedisClient.do` of `app/image-job/redisclient.go`: one exchange on
the connection `NewRedisClient` dialed, with no reset and no retry.  A client
value without a connection makes `c.conn.SetDeadline` panic. -/
def ImageJob.RedisClient.do (lib : GoLib) (cmd : Bytes) (args : List Arg) (c : RedisClient)
    (w : World) : Call Resp × RedisClient × World :=
  match c.conn with
  | some k => exchange lib cmd args k w
  | none => (.panic "nil pointer dereference", c, w)

/-- Spec: the command of one send attempt on `k` reaches the socket: no write of
the attempt fails, and neither does the flush. -/
def delivers (lib : GoLib) (cmd : Bytes) (args : List Arg) (k : Conn) : Bool :=
  match writeFrames lib cmd args k with
  | (_, some _) => false
  | (k3, none) =>
    match k3.Flush with
    | (_, some _) => false
    | (_, none) => true

/-- Spec: the bytes still unread on a connection after one send attempt, `s`
being those unread before it: what `readResp` left of `s` when the command was
delivered, and `s` itself when it was not, so that nothing was read. -/
def unreadAfter (lib : GoLib) (delivered : Bool) (s : Stream) : Stream :=
  if delivered then
    match readResp lib s with
    | .ok _ rest => rest
    | .err _ rest => rest
    | .panic _ => s
    | .outOfFuel => s
  else s

/-! ## Typed operations -/

/-- A Go `map[string]string`, as its entries with distinct keys. -/
abbrev GoMap := List (Bytes × Bytes)

/-- The assignment `m[k] = v`. -/
def GoMap.set (m : GoMap) (k v : Bytes) : GoMap := (k, v) :: m.filter (fun p => p.1 ≠ k)

/-- The lookup `m[k]`, `none` for a missing key. -/
def GoMap.get (m : GoMap) (k : Bytes) : Option Bytes := List.lookup k m

/-- The `for i := 0; i < len(arr); i += 2` loop of `HGetAll` on the elements
still to visit.  A lone last element cannot occur after the length check; there
`arr[i+1]` would panic. -/
def hgetallLoop : List Resp → GoMap → Call (Option GoMap)
  | [], out => .ret (some out) none
  | [_], _ => .panic "index out of range"
  | kb :: vb :: rest, out =>
    match kb, vb with
    | .bulk k, .bulk v => hgetallLoop rest (out.set k v)
    | _, _ => .ret none (some (GoErr.New (ascii "HGETALL: expected bulk strings")))

/-- Source: `RedisClient.HGetAll`.  A nil map is `none`. -/
def RedisClient.HGetAll (lib : GoLib) (key : Bytes) (c : RedisClient) (w : World) :
    Call (Option GoMap) × RedisClient × World :=
  match RedisClient.do lib (ascii "HGETALL") [.str key] c w with
  | (.ret _ (some e), c1, w1) => (.ret none (some e), c1, w1)
  | (.ret v none, c1, w1) =>
    match v with
    | .arr items =>
      if items.length % 2 ≠ 0 then
        (.ret none (some (GoErr.New (ascii "HGETALL: expected even array length, got " ++
          Itoa items.length))), c1, w1)
      else (hgetallLoop items [], c1, w1)
    | other =>
      (.ret none (some (GoErr.New (ascii "HGETALL: unexpected type " ++ typeName other))), c1, w1)
  | (.panic m, c1, w1) => (.panic m, c1, w1)
  | (.outOfFuel, c1, w1) => (.outOfFuel, c1, w1)

/-- The `for _, it := range arr` loop of `ZRevRange`. -/
def zrevrangeLoop : List Resp → List Bytes → Call (Option (List Bytes))
  | [], out => .ret (some out) none
  | it :: rest, out =>
    match it with
    | .bulk b => zrevrangeLoop rest (out ++ [b])
    | other =>
      .ret none (some (GoErr.New (ascii "ZREVRANGE: expected bulk string, got " ++ typeName other)))

/-- Source: `RedisClient.ZRevRange`.  A nil slice is `none`. -/
def RedisClient.ZRevRange (lib : GoLib) (key : Bytes) (start stop : Int) (c : RedisClient)
    (w : World) : Call (Option (List Bytes)) × RedisClient × World :=
  match RedisClient.do lib (ascii "ZREVRANGE") [.str key, .str (Itoa start), .str (Itoa stop)] c w with
  | (.ret _ (some e), c1, w1) => (.ret none (some e), c1, w1)
  | (.ret v none, c1, w1) =>
    match v with
    | .arr items => (zrevrangeLoop items [], c1, w1)
    | other =>
      (.ret none (some (GoErr.New (ascii "ZREVRANGE: unexpected type " ++ typeName other))), c1, w1)
  | (.panic m, c1, w1) => (.panic m, c1, w1)
  | (.outOfFuel, c1, w1) => (.outOfFuel, c1, w1)

/-- The statement `_, err := c.do(...); return err`: the value is dropped. -/
def errOnly (r : Call Resp × RedisClient × World) : Call Unit × RedisClient × World :=
  match r with
  | (.ret _ err, c1, w1) => (.ret () err, c1, w1)
  | (.panic m, c1, w1) => (.panic m, c1, w1)
  | (.outOfFuel, c1, w1) => (.outOfFuel, c1, w1)

/-- The argument list `Set` builds: `key`, the `[]byte` value, and the expiry
option when `ttlSeconds > 0`. -/
def setArgs (key value : Bytes) (ttlSeconds : Int) : List Arg :=
  [.str key, .bytes value] ++
    (if ttlSeconds > 0 then [.str (ascii "EX"), .str (Itoa ttlSeconds)] else [])

/-- Source: `RedisClient.Set`. -/
def RedisClient.Set (lib : GoLib) (key value : Bytes) (ttlSeconds : Int) (c : RedisClient)
    (w : World) : Call Unit × RedisClient × World :=
  errOnly (RedisClient.do lib (ascii "SET") (setArgs key value ttlSeconds) c w)

/-- Spec: the value of the last pair whose field is `f`. -/
def lastValue : List (Bytes × Bytes) → Bytes → Option Bytes
  | [], _ => none
  | p :: rest, f =>
    match lastValue rest f with
    | some v => some v
    | none => if p.1 = f then some p.2 else none

/-- Spec: the array reply that alternates the fields and values of `pairs`. -/
def pairsReply (pairs : List (Bytes × Bytes)) : List Resp :=
  (pairs.map (fun p => [Resp.bulk p.1, Resp.bulk p.2])).flatten

/-- Spec: the reply value is not a bulk string. -/
def notBulk : Resp → Bool
  | .bulk _ => false
  | _ => true

/-! ## Image transforms (`app/image-job/imageproc.go`) -/

/-- The type `image.Rectangle`: the points with `minX ≤ x < maxX`, `minY ≤ y < maxY`. -/
structure Rectangle where
  minX : Int
  minY : Int
  maxX : Int
  maxY : Int
deriving DecidableEq, Repr

/-- The type `image.NRGBA`: four `uint8` per pixel in `Pix`, rows `Stride` bytes
apart, `Pix[0]` the pixel at the minimum of `Rect`. -/
structure NRGBA where
  Pix : List Nat
  Stride : Int
  Rect : Rectangle
deriving DecidableEq, Repr

/-- The function `image.NewNRGBA`: a zeroed buffer of `4 * Dx * Dy` bytes, or a
panic (`none`) when a dimension is negative or the size does not fit an `int`.
The sides `Dx`, `Dy` and the stride are taken without wrap-around, which is what
the library computes for every rectangle with sides below `2 ^ 61`.  The limit
of the allocator is left out: `toGrayscale` and `invertColors` pass the bounds of
an image whose own buffer, allocated before, holds at least as many bytes. -/
def NewNRGBA (r : Rectangle) : Option NRGBA :=
  if r.maxX - r.minX < 0 ∨ r.maxY - r.minY < 0 ∨
      4 * (r.maxX - r.minX) * (r.maxY - r.minY) ≥ 2 ^ 63 then none
  else some { Pix := List.replicate (4 * (r.maxX - r.minX).toNat * (r.maxY - r.minY).toNat) 0,
              Stride := 4 * (r.maxX - r.minX), Rect := r }

/-- The read `p[i]`; an index out of range panics (`none`). -/
def getPix (p : List Nat) (i : Int) : Option Nat :=
  if 0 ≤ i then p[i.toNat]? else none

/-- The write `p[i] = v`; an index out of range panics (`none`). -/
def setPix (p : List Nat) (i : Int) (v : Nat) : Option (List Nat) :=
  if 0 ≤ i ∧ i.toNat < p.length then some (p.set i.toNat v) else none

/-- The body of the inner loop of `toGrayscale` and of `invertColors`: read the
four bytes at `i` from the source, write the four bytes `f r g bl a` at `i` to
the destination. -/
def pixelStep (f : Nat → Nat → Nat → Nat → Nat × Nat × Nat × Nat) (src dst : List Nat) (i : Int) :
    Option (List Nat) :=
  match getPix src i, getPix src (i + 1), getPix src (i + 2), getPix src (i + 3) with
  | some r, some g, some bl, some a =>
    match setPix dst i (f r g bl a).1 with
    | none => none
    | some d1 =>
      match setPix d1 (i + 1) (f r g bl a).2.1 with
      | none => none
      | some d2 =>
        match setPix d2 (i + 2) (f r g bl a).2.2.1 with
        | none => none
        | some d3 => setPix d3 (i + 3) (f r g bl a).2.2.2
  | _, _, _, _ => none

/-- The loop `for x := b.Min.X; x < b.Max.X; x++` with `i += 4`, for the columns
still to visit. -/
def rowLoop (f : Nat → Nat → Nat → Nat → Nat × Nat × Nat × Nat) (src : List Nat) :
    Nat → Int → List Nat → Option (List Nat)
  | 0, _, dst => some dst
  | n + 1, i, dst =>
    match pixelStep f src dst i with
    | none => none
    | some d => rowLoop f src n (i + 4) d

/-- The loop `for y := b.Min.Y; y < b.Max.Y; y++` with `i := (y - b.Min.Y) *
src.Stride`, for the rows still to visit, `row` being `y - b.Min.Y`. -/
def imageLoop (f : Nat → Nat → Nat → Nat → Nat × Nat × Nat × Nat) (src : List Nat) (stride : Int)
    (cols : Nat) : Nat → Nat → List Nat → Option (List Nat)
  | 0, _, dst => some dst
  | m + 1, row, dst =>
    match rowLoop f src cols ((row : Int) * stride) dst with
    | none => none
    | some d => imageLoop f src stride cols m (row + 1) d

/-- The bytes `toGrayscale` writes for one pixel: the `uint32` sum divided by
1000 and converted to `uint8`, three times, and the alpha. -/
def grayPixel (r g bl a : Nat) : Nat × Nat × Nat × Nat :=
  (((299 * r + 587 * g + 114 * bl + 500) % 2 ^ 32 / 1000) % 256,
   ((299 * r + 587 * g + 114 * bl + 500) % 2 ^ 32 / 1000) % 256,
   ((299 * r + 587 * g + 114 * bl + 500) % 2 ^ 32 / 1000) % 256, a)

/-- Source: `toGrayscale` on an `*image.NRGBA`, which `toNRGBA` hands back as it
is.  The result is `none` when the code panics. -/
def toGrayscale (src : NRGBA) : Option NRGBA :=
  match NewNRGBA src.Rect with
  | none => none
  | some gray =>
    match imageLoop grayPixel src.Pix src.Stride (src.Rect.maxX - src.Rect.minX).toNat
        (src.Rect.maxY - src.Rect.minY).toNat 0 gray.Pix with
    | none => none
    | some p => some { gray with Pix := p }

/-- The byte a pixel loop with transform `f` leaves at index `k` when it has
visited the pixel that holds `k`. -/
def expectedByte (f : Nat → Nat → Nat → Nat → Nat × Nat × Nat × Nat) (src : List Nat) (k : Nat) :
    Option Nat :=
  match src[k - k % 4]?, src[k - k % 4 + 1]?, src[k - k % 4 + 2]?, src[k - k % 4 + 3]? with
  | some r, some g, some bl, some a =>
    some (if k % 4 = 0 then (f r g bl a).1
          else if k % 4 = 1 then (f r g bl a).2.1
          else if k % 4 = 2 then (f r g bl a).2.2.1
          else (f r g bl a).2.2.2)
  | _, _, _, _ => none

/-- Spec: the grey level of a pixel. -/
def luma (r g bl : Nat) : Nat := (299 * r + 587 * g + 114 * bl + 500) / 1000

/-- The bytes `invertColors` writes for one pixel: `255 - c` in `uint8` for the
three colour channels, and the alpha. -/
def invertPixel (r g bl a : Nat) : Nat × Nat × Nat × Nat :=
  ((256 + 255 - r) % 256, (256 + 255 - g) % 256, (256 + 255 - bl) % 256, a)

/-- Source: `invertColors` on an `*image.NRGBA`, which `toNRGBA` hands back as it
is.  The result is `none` when the code panics. -/
def invertColors (src : NRGBA) : Option NRGBA :=
  match NewNRGBA src.Rect with
  | none => none
  | some dst =>
    match imageLoop invertPixel src.Pix src.Stride (src.Rect.maxX - src.Rect.minX).toNat
        (src.Rect.maxY - src.Rect.minY).toNat 0 dst.Pix with
    | none => none
    | some p => some { dst with Pix := p }

/-! # Properties -/

/-! ## Decimal text and number parsing -/

theorem valOf_nil (a : Nat) : valOf a [] = a := rfl

theorem valOf_cons (a c : Nat) (cs : Bytes) : valOf a (c :: cs) = valOf (a * 10 + (c - 48)) cs := rfl

theorem valOf_ge (ds : Bytes) : ∀ a, a ≤ valOf a ds := by
  induction ds with
  | nil => intro a; exact le_refl a
  | cons c cs ih =>
    intro a
    rw [valOf_cons]
    have := ih (a * 10 + (c - 48))
    omega

theorem valOf_digitsAux : ∀ fuel n acc, n < fuel → valOf 0 (digitsAux fuel n acc) = valOf n acc := by
  intro fuel
  induction fuel with
  | zero => intro n acc h; omega
  | succ f ih =>
    intro n acc h
    unfold digitsAux
    by_cases h10 : n < 10
    · rw [if_pos h10, valOf_cons]
      congr 1
      omega
    · rw [if_neg h10, ih (n / 10) _ (by omega), valOf_cons]
      congr 1
      omega

theorem valOf_decimal (n : Nat) : valOf 0 (decimal n) = n := by
  unfold decimal
  rw [valOf_digitsAux (n + 1) n [] (by omega)]
  rfl

theorem digitsAux_digits : ∀ fuel n acc, (∀ c ∈ acc, 48 ≤ c ∧ c ≤ 57) →
    ∀ c ∈ digitsAux fuel n acc, 48 ≤ c ∧ c ≤ 57 := by
  intro fuel
  induction fuel with
  | zero => intro n acc h; exact h
  | succ f ih =>
    intro n acc h
    unfold digitsAux
    by_cases h10 : n < 10
    · rw [if_pos h10]
      intro c hc
      rcases List.mem_cons.mp hc with rfl | hc
      · omega
      · exact h c hc
    · rw [if_neg h10]
      apply ih
      intro c hc
      rcases List.mem_cons.mp hc with rfl | hc
      · omega
      · exact h c hc

theorem decimal_digits (n : Nat) : ∀ c ∈ decimal n, 48 ≤ c ∧ c ≤ 57 :=
  digitsAux_digits (n + 1) n [] (by intro c hc; cases hc)

theorem digitsAux_ne_nil : ∀ fuel n acc, (0 < fuel ∨ acc ≠ []) → digitsAux fuel n acc ≠ [] := by
  intro fuel
  induction fuel with
  | zero =>
    intro n acc h
    rcases h with h | h
    · omega
    · exact h
  | succ f ih =>
    intro n acc _
    unfold digitsAux
    by_cases h10 : n < 10
    · rw [if_pos h10]; exact List.cons_ne_nil _ _
    · rw [if_neg h10]; exact ih _ _ (Or.inr (List.cons_ne_nil _ _))

theorem decimal_ne_nil (n : Nat) : decimal n ≠ [] :=
  digitsAux_ne_nil (n + 1) n [] (Or.inl (by omega))

theorem parseUintLoop_digits (ds : Bytes) : ∀ a, (∀ c ∈ ds, 48 ≤ c ∧ c ≤ 57) →
    valOf a ds ≤ maxUint64 → parseUintLoop a ds = .ok (valOf a ds) := by
  induction ds with
  | nil => intro a _ _; rfl
  | cons c cs ih =>
    intro a hd hv
    have hc := hd c (List.mem_cons_self _ _)
    rw [valOf_cons] at hv
    have hge := valOf_ge cs (a * 10 + (c - 48))
    have hmax : maxUint64 = 18446744073709551615 := by decide
    unfold parseUintLoop
    have hv2 : valOf (a * 10 + (c - 48)) cs ≤ 18446744073709551615 := hmax ▸ hv
    rw [if_pos hc, if_neg (by rw [hmax]; omega), if_neg (by rw [hmax]; omega), valOf_cons]
    exact ih _ (fun x hx => hd x (List.mem_cons_of_mem _ hx)) hv

theorem ParseUint_decimal (n : Nat) (h : n ≤ maxUint64) : ParseUint (decimal n) = .ok n := by
  have hne := decimal_ne_nil n
  have hp := parseUintLoop_digits (decimal n) 0 (decimal_digits n) (by rw [valOf_decimal]; exact h)
  rw [valOf_decimal] at hp
  unfold ParseUint
  split
  · rename_i heq; exact absurd heq hne
  · exact hp

theorem parseIntCore_Itoa (i : Int) (hlo : -(2 : Int) ^ 63 ≤ i) (hhi : i < (2 : Int) ^ 63) :
    parseIntCore (Itoa i) = .ok i := by
  have hmax : maxUint64 = 18446744073709551615 := by decide
  unfold Itoa
  by_cases hneg : i < 0
  · rw [if_pos hneg]
    have hm : (-i).toNat ≤ maxUint64 := by rw [hmax]; omega
    simp only [parseIntCore, decide_True, or_true, if_true, ParseUint_decimal _ hm]
    rw [if_neg (by simp), if_neg (by simp; omega)]
    simp
    omega
  · rw [if_neg hneg]
    have hm : i.toNat ≤ maxUint64 := by rw [hmax]; omega
    obtain ⟨c, tl, hct⟩ := List.exists_cons_of_ne_nil (decimal_ne_nil i.toNat)
    have hc : 48 ≤ c ∧ c ≤ 57 := decimal_digits i.toNat c (by rw [hct]; exact List.mem_cons_self _ _)
    have hp := ParseUint_decimal _ hm
    rw [hct] at hp ⊢
    have h45 : c ≠ 45 := by omega
    have h43 : c ≠ 43 := by omega
    simp only [parseIntCore, h45, h43, decide_False, or_self, if_false, hp]
    rw [if_neg (by simp; omega), if_neg (by simp)]
    simp
    omega

theorem Atoi_Itoa (lib : GoLib) (i : Int) (hlo : -(2 : Int) ^ 63 ≤ i) (hhi : i < (2 : Int) ^ 63) :
    Atoi lib (Itoa i) = .ok i := by
  unfold Atoi
  rw [parseIntCore_Itoa i hlo hhi]

theorem ParseInt_Itoa (lib : GoLib) (i : Int) (hlo : -(2 : Int) ^ 63 ≤ i) (hhi : i < (2 : Int) ^ 63) :
    ParseInt lib (Itoa i) = .ok i := by
  unfold ParseInt
  rw [parseIntCore_Itoa i hlo hhi]

theorem Itoa_no_LF (i : Int) : (10 : Nat) ∉ Itoa i := by
  unfold Itoa
  intro h
  split at h
  · rcases List.mem_cons.mp h with h | h
    · omega
    · have := decimal_digits _ _ h; omega
  · have := decimal_digits _ _ h; omega

/-! ## Lines -/

theorem splitLF_append (t rest : Bytes) (h : (10 : Nat) ∉ t) :
    splitLF (t ++ 10 :: rest) = some (t ++ [10], rest) := by
  induction t with
  | nil => simp [splitLF]
  | cons c cs ih =>
    have hc : c ≠ 10 := fun e => h (e ▸ List.mem_cons_self _ _)
    have hcs : (10 : Nat) ∉ cs := fun e => h (List.mem_cons_of_mem _ e)
    simp [splitLF, hc, ih hcs]

theorem splitLF_none (p : Bytes) (h : (10 : Nat) ∉ p) : splitLF p = none := by
  induction p with
  | nil => rfl
  | cons c cs ih =>
    have hc : c ≠ 10 := fun e => h (e ▸ List.mem_cons_self _ _)
    have hcs : (10 : Nat) ∉ cs := fun e => h (List.mem_cons_of_mem _ e)
    simp [splitLF, hc, ih hcs]

theorem splitLF_length (d : Bytes) : ∀ l rest, splitLF d = some (l, rest) →
    rest.length < d.length := by
  induction d with
  | nil => intro l rest h; simp [splitLF] at h
  | cons c cs ih =>
    intro l rest h
    unfold splitLF at h
    by_cases hc : c = 10
    · rw [if_pos hc] at h
      simp only [Option.some.injEq, Prod.mk.injEq] at h
      rw [← h.2]
      simp
    · rw [if_neg hc] at h
      cases hs : splitLF cs with
      | none => rw [hs] at h; simp at h
      | some p =>
        obtain ⟨l1, r1⟩ := p
        rw [hs] at h
        simp only [Option.some.injEq, Prod.mk.injEq] at h
        have := ih l1 r1 hs
        rw [← h.2]
        simp only [List.length_cons]
        omega

theorem TrimSuffix_append (a b : Bytes) : TrimSuffix (a ++ b) b = a := by
  unfold TrimSuffix
  have h : b.isSuffixOf (a ++ b) = true := by
    rw [List.isSuffixOf_iff_suffix]
    exact List.suffix_append a b
  rw [if_pos h]
  simp

theorem readLine_line (t rest : Bytes) (fin : GoErr) (h : (10 : Nat) ∉ t) :
    readLine ⟨t ++ CRLF ++ rest, fin⟩ = .ok t ⟨rest, fin⟩ := by
  have hs : splitLF (t ++ CRLF ++ rest) = some ((t ++ [13]) ++ [10], rest) := by
    have h13 : (10 : Nat) ∉ t ++ [13] := by simp [h]
    have := splitLF_append (t ++ [13]) rest h13
    simpa [CRLF] using this
  simp only [readLine, ReadString, hs, TrimSuffix_append]

theorem readLine_short (p : Bytes) (fin : GoErr) (h : (10 : Nat) ∉ p) :
    readLine ⟨p, fin⟩ = .err fin ⟨[], fin⟩ := by
  simp only [readLine, ReadString, splitLF_none p h]

theorem readLine_cases (r : Stream) :
    (∃ line r1, readLine r = .ok line r1 ∧ r1.data.length < r.data.length ∧ r1.fin = r.fin) ∨
    (∃ e r1, readLine r = .err e r1) := by
  unfold readLine ReadString
  cases hs : splitLF r.data with
  | none => right; exact ⟨_, _, rfl⟩
  | some p =>
    obtain ⟨l, rest⟩ := p
    left
    exact ⟨_, _, rfl, splitLF_length _ _ _ hs, rfl⟩

/-! ## Allocation -/

theorem uintptr_natCast (n : Nat) (h : n < 2 ^ 64) : uintptr (n : Int) = n := by
  unfold uintptr
  have h1 : (n : Int) % 2 ^ 64 = (n : Int) := Int.emod_eq_of_lt (by omega) (by omega)
  rw [h1]
  rfl

/-- A `[]byte` of at most `maxAlloc` bytes is allocated. -/
theorem makeslice_bytes (n : Nat) (h : n ≤ maxAlloc) : makeslice 1 (n : Int) (n : Int) = none := by
  have hm : maxAlloc = 2 ^ 48 := rfl
  rw [hm] at h
  unfold makeslice
  rw [uintptr_natCast n (by omega), hm, if_neg (by omega)]

/-- A `[]any` with room for `n` elements is allocated when `16 * n` is at most
`maxAlloc`. -/
theorem makeslice_anys (n : Nat) (h : 16 * n ≤ maxAlloc) : makeslice 16 0 (n : Int) = none := by
  have hm : maxAlloc = 2 ^ 48 := rfl
  rw [hm] at h
  unfold makeslice
  rw [uintptr_natCast n (by omega), hm, if_neg (by omega)]

/-- What `makeslice` refuses for a `[]byte`: a negative length and a length
above `maxAlloc`. -/
theorem makeslice_bytes_refused (n : Int) (h : n < 0 ∨ (maxAlloc : Int) < n) (h63 : n < 2 ^ 63)
    (hlo : -(2 : Int) ^ 63 ≤ n) :
    makeslice 1 n n = some "runtime error: makeslice: len out of range" := by
  have hm : maxAlloc = 2 ^ 48 := rfl
  rw [hm] at h
  have hbig : 1 * uintptr n > maxAlloc ∨ n < 0 := by
    rcases h with h | h
    · exact Or.inr h
    · left
      unfold uintptr
      rw [hm]
      have h1 : n % 2 ^ 64 = n := Int.emod_eq_of_lt (by omega) (by omega)
      rw [h1]
      omega
  unfold makeslice
  rw [if_pos (by rcases hbig with h1 | h1; exact Or.inl h1; exact Or.inr (Or.inl h1)), if_pos hbig]

/-- What `makeslice` refuses for the capacity of a `[]any`: a negative count and
a count above `maxAlloc / 16`. -/
theorem makeslice_anys_refused (n : Int) (h : n < 0 ∨ (maxAlloc : Int) < 16 * n) (h63 : n < 2 ^ 63)
    (hlo : -(2 : Int) ^ 63 ≤ n) :
    makeslice 16 0 n = some "runtime error: makeslice: cap out of range" := by
  have hm : maxAlloc = 2 ^ 48 := rfl
  rw [hm] at h
  have h0 : uintptr 0 = 0 := rfl
  have hbig : 16 * uintptr n > maxAlloc ∨ (0 : Int) < 0 ∨ (0 : Int) > n := by
    rcases h with h | h
    · exact Or.inr (Or.inr h)
    · left
      unfold uintptr
      rw [hm]
      have h1 : n % 2 ^ 64 = n := Int.emod_eq_of_lt (by omega) (by omega)
      rw [h1]
      omega
  unfold makeslice
  rw [if_pos hbig, h0, if_neg (by rw [hm]; omega)]

/-! ## Fuel does not matter -/

theorem readElems_length (rd : Stream → Res Resp) (hrd : NonIncreasing rd) :
    ∀ n s acc items s1, readElems rd n s acc = .ok items s1 →
      s1.data.length ≤ s.data.length := by
  intro n
  induction n with
  | zero =>
    intro s acc items s1 h
    simp only [readElems, Res.ok.injEq] at h
    rw [← h.2]
  | succ k ih =>
    intro s acc items s1 h
    unfold readElems at h
    cases hr : rd s with
    | ok v r1 =>
      rw [hr] at h
      have h1 := hrd s v r1 hr
      have h2 := ih _ _ _ _ h
      omega
    | err e r1 => rw [hr] at h; cases h
    | panic m => rw [hr] at h; cases h
    | outOfFuel => rw [hr] at h; cases h

theorem readElems_congr (rd rd2 : Stream → Res Resp) (hrd : NonIncreasing rd) (L : Nat)
    (hag : ∀ s, s.data.length ≤ L → rd s = rd2 s) :
    ∀ n s acc, s.data.length ≤ L → readElems rd n s acc = readElems rd2 n s acc := by
  intro n
  induction n with
  | zero => intro s acc _; rfl
  | succ k ih =>
    intro s acc hs
    unfold readElems
    rw [← hag s hs]
    cases hr : rd s with
    | ok v r1 =>
      have h1 := hrd s v r1 hr
      exact ih _ _ (by omega)
    | err e r1 => rfl
    | panic m => rfl
    | outOfFuel => rfl

theorem readBulk_length (r : Stream) (n : Int) (v : Resp) (s1 : Stream)
    (h : readBulk r n = .ok v s1) : s1.data.length ≤ r.data.length := by
  unfold readBulk at h
  by_cases h1 : n = -1
  · rw [if_pos h1] at h
    simp only [Res.ok.injEq] at h; rw [← h.2]
  · rw [if_neg h1] at h
    cases hm : makeslice 1 n n with
    | some m => rw [hm] at h; cases h
    | none =>
      rw [hm] at h
      simp only at h
      unfold ioReadFull at h
      by_cases h3 : n.toNat ≤ r.data.length
      · rw [if_pos h3] at h
        simp only [ReadByte] at h
        cases hd : r.data.drop n.toNat with
        | nil => rw [hd] at h; cases h
        | cons b t =>
          rw [hd] at h
          simp only at h
          cases t with
          | nil => cases h
          | cons b2 t2 =>
            simp only [Res.ok.injEq] at h
            rw [← h.2]
            have h4 : (r.data.drop n.toNat).length = (b :: b2 :: t2).length := by rw [hd]
            simp only [List.length_drop, List.length_cons] at h4
            simp only
            omega
      · rw [if_neg h3] at h; cases h

theorem readArray_length (rd : Stream → Res Resp) (hrd : NonIncreasing rd) (r : Stream) (n : Int)
    (v : Resp) (s1 : Stream) (h : readArray rd r n = .ok v s1) :
    s1.data.length ≤ r.data.length := by
  unfold readArray at h
  by_cases h1 : n = -1
  · rw [if_pos h1] at h
    simp only [Res.ok.injEq] at h; rw [← h.2]
  · rw [if_neg h1] at h
    cases hm : makeslice 16 0 n with
    | some m => rw [hm] at h; cases h
    | none =>
      rw [hm] at h
      simp only at h
      cases hr : readElems rd n.toNat r [] with
      | ok items r1 =>
        rw [hr] at h
        simp only [Res.ok.injEq] at h
        rw [← h.2]
        exact readElems_length rd hrd _ _ _ _ _ hr
      | err e r1 => rw [hr] at h; cases h
      | panic m => rw [hr] at h; cases h
      | outOfFuel => rw [hr] at h; cases h

theorem readRespBody_length (lib : GoLib) (rd : Stream → Res Resp) (hrd : NonIncreasing rd)
    (r : Stream) (v : Resp) (s1 : Stream) (h : readRespBody lib rd r = .ok v s1) :
    s1.data.length < r.data.length := by
  unfold readRespBody at h
  rcases readLine_cases r with ⟨line, r1, hl, hlen, _⟩ | ⟨e, r1, hl⟩
  · rw [hl] at h
    simp only at h
    cases line with
    | nil => cases h
    | cons c tl =>
      simp only at h
      split at h
      · simp only [Res.ok.injEq] at h; rw [← h.2]; exact hlen
      · split at h
        · cases h
        · split at h
          · split at h
            · cases h
            · simp only [Res.ok.injEq] at h; rw [← h.2]; exact hlen
          · split at h
            · split at h
              · cases h
              · have := readBulk_length _ _ _ _ h; omega
            · split at h
              · split at h
                · cases h
                · have := readArray_length rd hrd _ _ _ _ h; omega
              · cases h
  · rw [hl] at h; cases h

theorem readRespBody_congr (lib : GoLib) (rd rd2 : Stream → Res Resp) (hrd : NonIncreasing rd)
    (r : Stream) (hag : ∀ s, s.data.length < r.data.length → rd s = rd2 s) :
    readRespBody lib rd r = readRespBody lib rd2 r := by
  unfold readRespBody
  rcases readLine_cases r with ⟨line, r1, hl, hlen, _⟩ | ⟨e, r1, hl⟩
  · rw [hl]
    simp only
    cases line with
    | nil => rfl
    | cons c tl =>
      simp only
      have hE : ∀ n : Int, readArray rd r1 n = readArray rd2 r1 n := by
        intro n
        unfold readArray
        rw [readElems_congr rd rd2 hrd r1.data.length
          (fun s hs => hag s (by omega)) n.toNat r1 [] (le_refl _)]
      split
      · rfl
      · split
        · rfl
        · split
          · rfl
          · split
            · rfl
            · split
              · split
                · rfl
                · exact hE _
              · rfl
  · rw [hl]

theorem readRespFuel_nonIncreasing (lib : GoLib) : ∀ f, NonIncreasing (readRespFuel lib f) := by
  intro f
  induction f with
  | zero => intro s v s1 h; cases h
  | succ f ih =>
    intro s v s1 h
    exact Nat.le_of_lt (readRespBody_length lib _ ih s v s1 h)

theorem readRespFuel_irrelevant (lib : GoLib) : ∀ f f2 s, s.data.length < f → s.data.length < f2 →
    readRespFuel lib f s = readRespFuel lib f2 s := by
  intro f
  induction f with
  | zero => intro f2 s h; omega
  | succ f ih =>
    intro f2 s h h2
    cases f2 with
    | zero => omega
    | succ g =>
      show readRespBody lib (readRespFuel lib f) s = readRespBody lib (readRespFuel lib g) s
      exact readRespBody_congr lib _ _ (readRespFuel_nonIncreasing lib f) s
        (fun s1 hs1 => ih g s1 (by omega) (by omega))

/-- The equation of `readResp`: its body, with `readResp` itself reading the
elements of an array. -/
theorem readResp_eq (lib : GoLib) (r : Stream) :
    readResp lib r = readRespBody lib (readResp lib) r := by
  show readRespBody lib (readRespFuel lib r.data.length) r = readRespBody lib (readResp lib) r
  exact readRespBody_congr lib _ _ (readRespFuel_nonIncreasing lib _) r
    (fun s1 hs1 => readRespFuel_irrelevant lib _ _ s1 hs1 (by omega))

theorem readResp_nonIncreasing (lib : GoLib) : NonIncreasing (readResp lib) :=
  fun s v s1 h => readRespFuel_nonIncreasing lib _ s v s1 h

/-! ## The recursion bound is never hit -/

theorem readElems_ne_outOfFuel (rd : Stream → Res Resp) (hrd : NonIncreasing rd) (L : Nat)
    (h : ∀ s, s.data.length ≤ L → rd s ≠ .outOfFuel) :
    ∀ n s acc, s.data.length ≤ L → readElems rd n s acc ≠ .outOfFuel := by
  intro n
  induction n with
  | zero => intro s acc _ hc; cases hc
  | succ k ih =>
    intro s acc hs
    unfold readElems
    cases hr : rd s with
    | ok v r1 =>
      have h1 := hrd s v r1 hr
      exact ih _ _ (by omega)
    | err e r1 => intro hc; cases hc
    | panic m => intro hc; cases hc
    | outOfFuel => exact absurd hr (h s hs)

theorem readBulk_ne_outOfFuel (r : Stream) (n : Int) : readBulk r n ≠ .outOfFuel := by
  unfold readBulk
  by_cases h1 : n = -1
  · rw [if_pos h1]; intro hc; cases hc
  · rw [if_neg h1]
    cases hm : makeslice 1 n n with
    | some m => intro hc; cases hc
    | none =>
      simp only
      unfold ioReadFull
      by_cases h3 : n.toNat ≤ r.data.length
      · rw [if_pos h3]
        simp only [ReadByte]
        cases r.data.drop n.toNat with
        | nil => intro hc; cases hc
        | cons b t =>
          cases t with
          | nil => intro hc; cases hc
          | cons b2 t2 => intro hc; cases hc
      · rw [if_neg h3]; intro hc; cases hc

theorem readRespBody_ne_outOfFuel (lib : GoLib) (rd : Stream → Res Resp) (hrd : NonIncreasing rd)
    (r : Stream) (h : ∀ s, s.data.length < r.data.length → rd s ≠ .outOfFuel) :
    readRespBody lib rd r ≠ .outOfFuel := by
  unfold readRespBody
  rcases readLine_cases r with ⟨line, r1, hl, hlen, _⟩ | ⟨e, r1, hl⟩
  · rw [hl]
    simp only
    cases line with
    | nil => intro hc; cases hc
    | cons c tl =>
      simp only
      have hA : ∀ n : Int, readArray rd r1 n ≠ .outOfFuel := by
        intro n
        unfold readArray
        by_cases h1 : n = -1
        · rw [if_pos h1]; intro hc; cases hc
        · rw [if_neg h1]
          cases hm : makeslice 16 0 n with
          | some m => intro hc; cases hc
          | none =>
            simp only
            have he := readElems_ne_outOfFuel rd hrd r1.data.length
              (fun s hs => h s (by omega)) n.toNat r1 [] (le_refl _)
            cases hr : readElems rd n.toNat r1 [] with
            | ok items r2 => intro hc; cases hc
            | err e r2 => intro hc; cases hc
            | panic m => intro hc; cases hc
            | outOfFuel => exact absurd hr he
      split
      · intro hc; cases hc
      · split
        · intro hc; cases hc
        · split
          · split
            · intro hc; cases hc
            · intro hc; cases hc
          · split
            · split
              · intro hc; cases hc
              · exact readBulk_ne_outOfFuel _ _
            · split
              · split
                · intro hc; cases hc
                · exact hA _
              · intro hc; cases hc
  · rw [hl]; intro hc; cases hc

/-- The function `readResp` is total: it never reports the recursion bound. -/
theorem readResp_ne_outOfFuel (lib : GoLib) : ∀ (n : Nat) (r : Stream), r.data.length ≤ n →
    readResp lib r ≠ .outOfFuel := by
  intro n
  induction n with
  | zero =>
    intro r hr
    rw [readResp_eq]
    exact readRespBody_ne_outOfFuel lib _ (readResp_nonIncreasing lib) r (fun s hs => by omega)
  | succ m ih =>
    intro r hr
    rw [readResp_eq]
    exact readRespBody_ne_outOfFuel lib _ (readResp_nonIncreasing lib) r
      (fun s hs => ih s (by omega))

/-! ## One reply of each shape -/

theorem Itoa_natCast (n : Nat) : Itoa (n : Int) = decimal n := by
  unfold Itoa
  rw [if_neg (by omega)]
  simp

theorem decimal_no_LF (n : Nat) : (10 : Nat) ∉ decimal n := by
  intro h
  have := decimal_digits n 10 h
  omega

theorem Atoi_decimal (lib : GoLib) (n : Nat) (h : n < 2 ^ 63) : Atoi lib (decimal n) = .ok (n : Int) := by
  rw [← Itoa_natCast]
  exact Atoi_Itoa lib n (by omega) (by exact_mod_cast h)

theorem readResp_simple (lib : GoLib) (t rest : Bytes) (fin : GoErr) (h : (10 : Nat) ∉ t) :
    readResp lib ⟨[43] ++ t ++ CRLF ++ rest, fin⟩ = .ok (.str t) ⟨rest, fin⟩ := by
  have hl : (10 : Nat) ∉ [43] ++ t := by simp [h]
  rw [readResp_eq]
  unfold readRespBody
  rw [readLine_line _ _ _ hl]
  simp

theorem readResp_error (lib : GoLib) (t rest : Bytes) (fin : GoErr) (h : (10 : Nat) ∉ t) :
    readResp lib ⟨[45] ++ t ++ CRLF ++ rest, fin⟩ = .err (GoErr.New t) ⟨rest, fin⟩ := by
  have hl : (10 : Nat) ∉ [45] ++ t := by simp [h]
  rw [readResp_eq]
  unfold readRespBody
  rw [readLine_line _ _ _ hl]
  simp

theorem readResp_integer (lib : GoLib) (i : Int) (rest : Bytes) (fin : GoErr)
    (hlo : -(2 : Int) ^ 63 ≤ i) (hhi : i < (2 : Int) ^ 63) :
    readResp lib ⟨[58] ++ Itoa i ++ CRLF ++ rest, fin⟩ = .ok (.int i) ⟨rest, fin⟩ := by
  have hl : (10 : Nat) ∉ [58] ++ Itoa i := by simp [Itoa_no_LF]
  rw [readResp_eq]
  unfold readRespBody
  rw [readLine_line _ _ _ hl]
  simp [ParseInt_Itoa lib i hlo hhi]

theorem readBulk_payload (b rest : Bytes) (fin : GoErr) (h : b.length ≤ maxAlloc) :
    readBulk ⟨b ++ CRLF ++ rest, fin⟩ (b.length : Int) = .ok (.bulk b) ⟨rest, fin⟩ := by
  unfold readBulk
  rw [if_neg (by omega), makeslice_bytes _ h]
  simp [ioReadFull, ReadByte, CRLF]

theorem lt_of_le_maxAlloc (n : Nat) (h : n ≤ maxAlloc) : n < 2 ^ 63 := by
  have hm : maxAlloc = 2 ^ 48 := rfl
  omega

theorem readResp_bulk (lib : GoLib) (b rest : Bytes) (fin : GoErr) (h : b.length ≤ maxAlloc) :
    readResp lib ⟨bulkFrame b ++ rest, fin⟩ = .ok (.bulk b) ⟨rest, fin⟩ := by
  have hl : (10 : Nat) ∉ [36] ++ decimal b.length := by simp [decimal_no_LF]
  have hb := readBulk_payload b rest fin h
  have h := lt_of_le_maxAlloc _ h
  rw [readResp_eq]
  unfold readRespBody bulkFrame
  rw [show [36] ++ decimal b.length ++ CRLF ++ b ++ CRLF ++ rest
        = [36] ++ decimal b.length ++ CRLF ++ (b ++ CRLF ++ rest) by simp,
      readLine_line _ _ _ hl]
  simp only [List.append_assoc] at hb
  simp [Atoi_decimal lib _ h, hb]

theorem readResp_nullBulk (lib : GoLib) (rest : Bytes) (fin : GoErr) :
    readResp lib ⟨[36, 45, 49] ++ CRLF ++ rest, fin⟩ = .ok .nil ⟨rest, fin⟩ := by
  have hl : (10 : Nat) ∉ [36, 45, 49] := by decide
  have ha : Atoi lib [45, 49] = .ok (-1) := by
    unfold Atoi
    rw [show parseIntCore [45, 49] = .ok (-1) from rfl]
  rw [readResp_eq]
  unfold readRespBody
  rw [readLine_line _ _ _ hl]
  simp [ha, readBulk]

theorem readResp_nullArray (lib : GoLib) (rest : Bytes) (fin : GoErr) :
    readResp lib ⟨[42, 45, 49] ++ CRLF ++ rest, fin⟩ = .ok .nil ⟨rest, fin⟩ := by
  have hl : (10 : Nat) ∉ [42, 45, 49] := by decide
  have ha : Atoi lib [45, 49] = .ok (-1) := by
    unfold Atoi
    rw [show parseIntCore [45, 49] = .ok (-1) from rfl]
  rw [readResp_eq]
  unfold readRespBody
  rw [readLine_line _ _ _ hl]
  simp [ha, readArray]

theorem readResp_array (lib : GoLib) (n : Nat) (body : Bytes) (fin : GoErr) (h : n < 2 ^ 63) :
    readResp lib ⟨[42] ++ decimal n ++ CRLF ++ body, fin⟩
      = readArray (readResp lib) ⟨body, fin⟩ (n : Int) := by
  have hl : (10 : Nat) ∉ [42] ++ decimal n := by simp [decimal_no_LF]
  rw [readResp_eq]
  unfold readRespBody
  rw [readLine_line _ _ _ hl]
  simp [Atoi_decimal lib _ h]

theorem readArray_natCast (rd : Stream → Res Resp) (r : Stream) (n : Nat)
    (h : 16 * n ≤ maxAlloc) :
    readArray rd r (n : Int) =
      match readElems rd n r [] with
      | .ok items r1 => .ok (.arr items) r1
      | .err e r1 => .err e r1
      | .panic m => .panic m
      | .outOfFuel => .outOfFuel := by
  unfold readArray
  rw [if_neg (by omega), makeslice_anys _ h]
  simp

/-- A bulk header that declares more than `maxAlloc` bytes and an array header
that declares more elements than `maxAlloc` bytes hold make `readResp` panic in
`make`, whatever follows the header. -/
theorem readResp_panics_above_maxAlloc (lib : GoLib) (n : Nat) (rest : Bytes) (fin : GoErr)
    (h63 : n < 2 ^ 63) :
    (maxAlloc < n → readResp lib ⟨[36] ++ decimal n ++ CRLF ++ rest, fin⟩
      = .panic "runtime error: makeslice: len out of range") ∧
    (maxAlloc < 16 * n → readResp lib ⟨[42] ++ decimal n ++ CRLF ++ rest, fin⟩
      = .panic "runtime error: makeslice: cap out of range") := by
  have hm : maxAlloc = 2 ^ 48 := rfl
  constructor
  · intro h
    have hl : (10 : Nat) ∉ [36] ++ decimal n := by simp [decimal_no_LF]
    have hb := makeslice_bytes_refused (n : Int) (Or.inr (by exact_mod_cast h)) (by omega)
      (by omega)
    have h1 : ¬ ((n : Int) = -1) := by omega
    rw [readResp_eq]
    unfold readRespBody
    rw [readLine_line _ _ _ hl]
    simp [Atoi_decimal lib _ h63, readBulk, hb, h1]
  · intro h
    have hl : (10 : Nat) ∉ [42] ++ decimal n := by simp [decimal_no_LF]
    have hc := makeslice_anys_refused (n : Int) (Or.inr (by exact_mod_cast h)) (by omega)
      (by omega)
    have h1 : ¬ ((n : Int) = -1) := by omega
    rw [readResp_array lib n rest fin h63]
    unfold readArray
    rw [if_neg h1, hc]

/-! ## Decoding a complete frame -/

theorem readElems_cons_ok (rd : Stream → Res Resp) (k : Nat) (r r1 : Stream) (v : Resp)
    (acc : List Resp) (h : rd r = .ok v r1) :
    readElems rd (k + 1) r acc = readElems rd k r1 (acc ++ [v]) := by
  simp only [readElems, h]

theorem readElems_cons_err (rd : Stream → Res Resp) (k : Nat) (r r1 : Stream) (e : GoErr)
    (acc : List Resp) (h : rd r = .err e r1) :
    readElems rd (k + 1) r acc = .err e r1 := by
  simp only [readElems, h]

mutual
/-- A complete well-formed frame followed by `rest` decodes to its outcome: its
value with exactly `rest` left unread, or the error of its first error reply. -/
theorem readResp_frame (lib : GoLib) : ∀ f : Frame, f.wellFormed = true → ∀ rest fin,
    (match f.outcome with
     | .ok v => readResp lib ⟨f.wire ++ rest, fin⟩ = .ok v ⟨rest, fin⟩
     | .error e => ∃ s, readResp lib ⟨f.wire ++ rest, fin⟩ = .err e s)
  | .simple t, h, rest, fin => by
    simp only [Frame.wellFormed, decide_eq_true_eq] at h
    simp only [Frame.outcome, Frame.wire]
    exact readResp_simple lib t rest fin h
  | .error t, h, rest, fin => by
    simp only [Frame.wellFormed, decide_eq_true_eq] at h
    simp only [Frame.outcome, Frame.wire]
    exact ⟨_, readResp_error lib t rest fin h⟩
  | .integer i, h, rest, fin => by
    simp only [Frame.wellFormed, decide_eq_true_eq] at h
    simp only [Frame.outcome, Frame.wire]
    exact readResp_integer lib i rest fin h.1 h.2
  | .bulk b, h, rest, fin => by
    simp only [Frame.wellFormed, decide_eq_true_eq] at h
    simp only [Frame.outcome, Frame.wire]
    exact readResp_bulk lib b rest fin h
  | .nullBulk, _, rest, fin => by
    simp only [Frame.outcome, Frame.wire]
    exact readResp_nullBulk lib rest fin
  | .nullArray, _, rest, fin => by
    simp only [Frame.outcome, Frame.wire]
    exact readResp_nullArray lib rest fin
  | .array items, h, rest, fin => by
    simp only [Frame.wellFormed, Bool.and_eq_true, decide_eq_true_eq] at h
    have ih := readElems_frames lib items h.2 rest fin []
    simp only [Frame.outcome, Frame.wire]
    rw [List.append_assoc, readResp_array lib _ _ _ (lt_of_le_maxAlloc _ (by omega)),
      readArray_natCast _ _ _ h.1]
    cases ho : Frame.outcomeAll items with
    | ok vs =>
      rw [ho] at ih
      simp only at ih ⊢
      rw [ih]
      simp
    | error e =>
      rw [ho] at ih
      simp only at ih ⊢
      obtain ⟨s, hs⟩ := ih
      exact ⟨s, by rw [hs]⟩
/-- The element loop on the serializations of `fs` followed by `rest`. -/
theorem readElems_frames (lib : GoLib) : ∀ fs : List Frame, Frame.wellFormedAll fs = true →
    ∀ rest fin acc,
    (match Frame.outcomeAll fs with
     | .ok vs => readElems (readResp lib) fs.length ⟨Frame.wireAll fs ++ rest, fin⟩ acc
                  = .ok (acc ++ vs) ⟨rest, fin⟩
     | .error e => ∃ s, readElems (readResp lib) fs.length ⟨Frame.wireAll fs ++ rest, fin⟩ acc
                  = .err e s)
  | [], _, rest, fin, acc => by
    simp [Frame.outcomeAll, Frame.wireAll, readElems]
  | f :: fs, h, rest, fin, acc => by
    simp only [Frame.wellFormedAll, Bool.and_eq_true] at h
    have ih1 := readResp_frame lib f h.1 (Frame.wireAll fs ++ rest) fin
    simp only [Frame.outcomeAll, Frame.wireAll, List.length_cons, List.append_assoc]
    cases ho : f.outcome with
    | error e =>
      rw [ho] at ih1
      simp only at ih1 ⊢
      obtain ⟨s, hs⟩ := ih1
      exact ⟨s, readElems_cons_err _ _ _ _ _ _ hs⟩
    | ok v =>
      rw [ho] at ih1
      simp only at ih1 ⊢
      have ih2 := readElems_frames lib fs h.2 rest fin (acc ++ [v])
      rw [readElems_cons_ok _ _ _ _ _ _ ih1]
      cases ho2 : Frame.outcomeAll fs with
      | ok vs =>
        rw [ho2] at ih2
        simp only at ih2 ⊢
        rw [ih2]
        simp
      | error e =>
        rw [ho2] at ih2
        simp only at ih2 ⊢
        exact ih2
end

/-! ## Encoding a command -/

theorem Conn.Write_ok (k : Conn) (b : Bytes) (h : k.werr = none) :
    k.Write b = ({ k with wbuf := k.wbuf ++ b }, none) := by
  simp only [Conn.Write, h]

theorem writeBulkBytes_ok (k : Conn) (b : Bytes) (h : k.werr = none) :
    writeBulkBytes k b = ({ k with wbuf := k.wbuf ++ bulkFrame b }, none) := by
  unfold writeBulkBytes
  rw [Conn.Write_ok k _ h]
  simp only
  rw [Conn.Write_ok _ _ (by exact h)]
  simp only
  rw [Conn.Write_ok _ _ (by exact h)]
  simp [bulkFrame, Itoa_natCast]

theorem writeArgs_ok (args : List Arg) : ∀ k : Conn, k.werr = none →
    writeArgs k args = ({ k with wbuf := k.wbuf ++ ((args.map toString).map bulkFrame).flatten }, none) := by
  induction args with
  | nil => intro k _; simp [writeArgs]
  | cons a rest ih =>
    intro k h
    have h1 : writeArg k a = ({ k with wbuf := k.wbuf ++ bulkFrame (toString a) }, none) := by
      cases a <;> simp only [writeArg, writeBulk, toString] <;> exact writeBulkBytes_ok k _ h
    unfold writeArgs
    rw [h1]
    simp only
    rw [ih _ (by exact h)]
    simp

theorem writeFrames_ok (lib : GoLib) (cmd : Bytes) (args : List Arg) (k : Conn)
    (h : k.werr = none) :
    writeFrames lib cmd args k
      = ({ k with wbuf := k.wbuf ++ commandFrame (lib.ToUpper cmd) (args.map toString) }, none) := by
  have hn : Itoa (1 + (args.length : Int)) = decimal (1 + args.length) := by
    rw [← Itoa_natCast]
    congr 1
  unfold writeFrames writeArrayHeader
  rw [Conn.Write_ok k _ h]
  simp only [writeBulk]
  rw [writeBulkBytes_ok _ _ (by exact h)]
  simp only
  rw [writeArgs_ok _ _ (by exact h)]
  simp [commandFrame, hn]

theorem encodeCommand_eq (lib : GoLib) (cmd : Bytes) (args : List Arg) :
    encodeCommand lib cmd args = commandFrame (lib.ToUpper cmd) (args.map toString) := by
  unfold encodeCommand
  rw [writeFrames_ok lib cmd args freshConn rfl]
  rfl

theorem Conn.Flush_ok (k : Conn) (h : k.werr = none) (hl : k.wlimit = none) :
    k.Flush = ({ k with sent := k.sent ++ k.wbuf, wbuf := [] }, none) := by
  simp only [Conn.Flush, h, hl]

/-- On a connection whose writer has no error and whose socket takes every
byte, one exchange delivers the command frame and returns what `readResp`
makes of the unread reply bytes. -/
theorem exchange_ok (lib : GoLib) (cmd : Bytes) (args : List Arg) (k : Conn) (w : World)
    (h : k.werr = none) (hl : k.wlimit = none) :
    exchange lib cmd args k w =
      match readResp lib k.inbound with
      | .ok v rest =>
        (.ret v none,
         { conn := some { k with sent := k.sent ++ (k.wbuf ++ commandFrame (lib.ToUpper cmd) (args.map toString)),
                                 wbuf := [], inbound := rest } }, w)
      | .err e rest =>
        (.ret .nil (some e),
         { conn := some { k with sent := k.sent ++ (k.wbuf ++ commandFrame (lib.ToUpper cmd) (args.map toString)),
                                 wbuf := [], inbound := rest } }, w)
      | .panic m =>
        (.panic m,
         { conn := some { k with sent := k.sent ++ (k.wbuf ++ commandFrame (lib.ToUpper cmd) (args.map toString)),
                                 wbuf := [] } }, w)
      | .outOfFuel =>
        (.outOfFuel,
         { conn := some { k with sent := k.sent ++ (k.wbuf ++ commandFrame (lib.ToUpper cmd) (args.map toString)),
                                 wbuf := [] } }, w) := by
  unfold exchange
  rw [writeFrames_ok lib cmd args k h]
  simp only
  rw [Conn.Flush_ok _ (by exact h) (by exact hl)]

/-! ## Commands as frames -/

theorem wireAll_bulk (ps : List Bytes) :
    Frame.wireAll (ps.map Frame.bulk) = (ps.map bulkFrame).flatten := by
  induction ps with
  | nil => rfl
  | cons p ps ih => simp [Frame.wireAll, Frame.wire, ih]

theorem outcomeAll_bulk (ps : List Bytes) :
    Frame.outcomeAll (ps.map Frame.bulk) = .ok (ps.map Resp.bulk) := by
  induction ps with
  | nil => rfl
  | cons p ps ih => simp [Frame.outcomeAll, Frame.outcome, ih]

theorem wellFormedAll_bulk (ps : List Bytes) (h : ∀ p ∈ ps, p.length ≤ maxAlloc) :
    Frame.wellFormedAll (ps.map Frame.bulk) = true := by
  induction ps with
  | nil => rfl
  | cons p ps ih =>
    simp only [List.map_cons, Frame.wellFormedAll, Frame.wellFormed, Bool.and_eq_true,
      decide_eq_true_eq]
    exact ⟨h p (List.mem_cons_self _ _), ih (fun q hq => h q (List.mem_cons_of_mem _ hq))⟩

theorem commandFrame_eq_wire (name : Bytes) (ps : List Bytes) :
    commandFrame name ps = (Frame.array ((name :: ps).map Frame.bulk)).wire := by
  simp [commandFrame, Frame.wire, Frame.wireAll, wireAll_bulk, Nat.add_comm]

/-- A command frame followed by `rest` decodes to the array of its bulk strings. -/
theorem readResp_commandFrame (lib : GoLib) (name : Bytes) (ps : List Bytes) (rest : Bytes)
    (fin : GoErr) (hn : 16 * (1 + ps.length) ≤ maxAlloc) (hname : name.length ≤ maxAlloc)
    (hps : ∀ p ∈ ps, p.length ≤ maxAlloc) :
    readResp lib ⟨commandFrame name ps ++ rest, fin⟩
      = .ok (.arr (.bulk name :: ps.map Resp.bulk)) ⟨rest, fin⟩ := by
  have hwf : (Frame.array ((name :: ps).map Frame.bulk)).wellFormed = true := by
    simp only [Frame.wellFormed, Bool.and_eq_true, decide_eq_true_eq, List.length_map,
      List.length_cons]
    refine ⟨by omega, wellFormedAll_bulk _ ?_⟩
    intro p hp
    rcases List.mem_cons.mp hp with rfl | hp
    · exact hname
    · exact hps p hp
  have := readResp_frame lib _ hwf rest fin
  rw [← commandFrame_eq_wire] at this
  simp only [Frame.outcome, outcomeAll_bulk] at this
  simpa using this

/-! ## Streams that end inside a frame -/

theorem append_split (a b p : Bytes) (x : Nat) (xs : Bytes) (h : a ++ b = p ++ x :: xs) :
    (∃ y ys, a = p ++ y :: ys) ∨ (∃ q, p = a ++ q ∧ b = q ++ x :: xs) := by
  rcases List.append_eq_append_iff.mp h with ⟨q, hp, hb⟩ | ⟨c, ha, hc⟩
  · exact Or.inr ⟨q, hp, hb⟩
  · cases c with
    | nil =>
      refine Or.inr ⟨[], ?_, ?_⟩
      · simpa using ha.symm
      · simpa using hc.symm
    | cons y ys => exact Or.inl ⟨y, ys, ha⟩

theorem no_LF_of_truncated_line (line p : Bytes) (x : Nat) (xs : Bytes)
    (hl : (10 : Nat) ∉ line) (h : line ++ CRLF = p ++ x :: xs) : (10 : Nat) ∉ p := by
  have h2 : (line ++ [13]) ++ [10] = p ++ x :: xs := by simpa [CRLF] using h
  have h13 : (10 : Nat) ∉ line ++ [13] := by simp [hl]
  rcases append_split _ _ _ _ _ h2 with ⟨y, ys, ha⟩ | ⟨q, hp, hb⟩
  · intro hm
    apply h13
    rw [ha]
    exact List.mem_append_left _ hm
  · cases q with
    | nil =>
      rw [hp]
      simpa using h13
    | cons z zs =>
      have := congrArg List.length hb
      simp at this

theorem readResp_truncated_line (lib : GoLib) (line p : Bytes) (x : Nat) (xs : Bytes) (fin : GoErr)
    (hl : (10 : Nat) ∉ line) (h : line ++ CRLF = p ++ x :: xs) :
    readResp lib ⟨p, fin⟩ = .err fin ⟨[], fin⟩ := by
  rw [readResp_eq]
  unfold readRespBody
  rw [readLine_short p fin (no_LF_of_truncated_line line p x xs hl h)]

theorem readBulk_truncated (b q : Bytes) (x : Nat) (xs : Bytes) (fin : GoErr)
    (hb : b.length ≤ maxAlloc) (h : b ++ CRLF = q ++ x :: xs) :
    ∃ e s, readBulk ⟨q, fin⟩ (b.length : Int) = .err e s := by
  unfold readBulk
  rw [if_neg (by omega), makeslice_bytes _ hb]
  simp only
  rcases append_split _ _ _ _ _ h with ⟨y, ys, ha⟩ | ⟨t, hq, ht⟩
  · have hlen : ¬ (b.length ≤ q.length) := by
      have := congrArg List.length ha
      simp at this
      omega
    simp [ioReadFull, hlen]
  · subst hq
    cases t with
    | nil => simp [ioReadFull, ReadByte]
    | cons t1 t2 =>
      cases t2 with
      | nil => simp [ioReadFull, ReadByte]
      | cons t3 t4 =>
        have := congrArg List.length ht
        simp [CRLF] at this

theorem readArray_err (rd : Stream → Res Resp) (r : Stream) (n : Nat) (hn : 16 * n ≤ maxAlloc)
    (h : ∃ e s, readElems rd n r [] = .err e s) :
    ∃ e s, readArray rd r (n : Int) = .err e s := by
  obtain ⟨e, s, hs⟩ := h
  rw [readArray_natCast _ _ _ hn, hs]
  exact ⟨e, s, rfl⟩

mutual
/-- A stream that ends strictly inside a well-formed frame makes `readResp` fail. -/
theorem readResp_truncated (lib : GoLib) (fin : GoErr) : ∀ f : Frame, f.wellFormed = true →
    ∀ p x xs, f.wire = p ++ x :: xs → ∃ e s, readResp lib ⟨p, fin⟩ = .err e s
  | .simple t, h, p, x, xs, hp => by
    simp only [Frame.wellFormed, decide_eq_true_eq] at h
    simp only [Frame.wire] at hp
    exact ⟨_, _, readResp_truncated_line lib ([43] ++ t) p x xs fin (by simp [h]) hp⟩
  | .error t, h, p, x, xs, hp => by
    simp only [Frame.wellFormed, decide_eq_true_eq] at h
    simp only [Frame.wire] at hp
    exact ⟨_, _, readResp_truncated_line lib ([45] ++ t) p x xs fin (by simp [h]) hp⟩
  | .integer i, _, p, x, xs, hp => by
    simp only [Frame.wire] at hp
    exact ⟨_, _, readResp_truncated_line lib ([58] ++ Itoa i) p x xs fin
      (by simp [Itoa_no_LF]) hp⟩
  | .nullBulk, _, p, x, xs, hp => by
    simp only [Frame.wire] at hp
    exact ⟨_, _, readResp_truncated_line lib [36, 45, 49] p x xs fin (by decide) hp⟩
  | .nullArray, _, p, x, xs, hp => by
    simp only [Frame.wire] at hp
    exact ⟨_, _, readResp_truncated_line lib [42, 45, 49] p x xs fin (by decide) hp⟩
  | .bulk b, h, p, x, xs, hp => by
    simp only [Frame.wellFormed, decide_eq_true_eq] at h
    simp only [Frame.wire, bulkFrame] at hp
    have hp2 : ([36] ++ decimal b.length ++ CRLF) ++ (b ++ CRLF) = p ++ x :: xs := by
      simpa using hp
    rcases append_split _ _ _ _ _ hp2 with ⟨y, ys, ha⟩ | ⟨q, hq, hb⟩
    · exact ⟨_, _, readResp_truncated_line lib ([36] ++ decimal b.length) p y ys fin
        (by simp [decimal_no_LF]) ha⟩
    · obtain ⟨e, s, hs⟩ := readBulk_truncated b q x xs fin h hb
      refine ⟨e, s, ?_⟩
      have hl : (10 : Nat) ∉ [36] ++ decimal b.length := by simp [decimal_no_LF]
      rw [hq, readResp_eq]
      unfold readRespBody
      rw [readLine_line _ _ _ hl]
      simp [Atoi_decimal lib _ (lt_of_le_maxAlloc _ h), hs]
  | .array items, h, p, x, xs, hp => by
    simp only [Frame.wellFormed, Bool.and_eq_true, decide_eq_true_eq] at h
    simp only [Frame.wire] at hp
    rcases append_split _ _ _ _ _ hp with ⟨y, ys, ha⟩ | ⟨q, hq, hb⟩
    · exact ⟨_, _, readResp_truncated_line lib ([42] ++ decimal items.length) p y ys fin
        (by simp [decimal_no_LF]) ha⟩
    · have ih := readElems_truncated lib fin items h.2 q x xs hb []
      rw [hq, readResp_array lib _ _ _ (lt_of_le_maxAlloc _ (by omega))]
      exact readArray_err _ _ _ h.1 ih
/-- The element loop fails when the stream ends before the last element does. -/
theorem readElems_truncated (lib : GoLib) (fin : GoErr) : ∀ fs : List Frame,
    Frame.wellFormedAll fs = true → ∀ q x xs, Frame.wireAll fs = q ++ x :: xs →
    ∀ acc, ∃ e s, readElems (readResp lib) fs.length ⟨q, fin⟩ acc = .err e s
  | [], _, q, x, xs, hq, _ => by
    simp [Frame.wireAll] at hq
  | f :: fs, h, q, x, xs, hq, acc => by
    simp only [Frame.wellFormedAll, Bool.and_eq_true] at h
    simp only [Frame.wireAll] at hq
    simp only [List.length_cons]
    rcases append_split _ _ _ _ _ hq with ⟨y, ys, ha⟩ | ⟨t, ht, hb⟩
    · obtain ⟨e, s, hs⟩ := readResp_truncated lib fin f h.1 q y ys ha
      exact ⟨e, s, readElems_cons_err _ _ _ _ _ _ hs⟩
    · have hfull := readResp_frame lib f h.1 t fin
      rw [ht]
      cases ho : f.outcome with
      | error e =>
        rw [ho] at hfull
        simp only at hfull
        obtain ⟨s, hs⟩ := hfull
        exact ⟨e, s, readElems_cons_err _ _ _ _ _ _ hs⟩
      | ok v =>
        rw [ho] at hfull
        simp only at hfull
        rw [readElems_cons_ok _ _ _ _ _ _ hfull]
        exact readElems_truncated lib fin fs h.2 t x xs hb (acc ++ [v])
end

/-! ## The connection manager -/

theorem sendOnce_live (lib : GoLib) (cmd : Bytes) (args : List Arg) (c : RedisClient) (w : World)
    (k : Conn) (hc : c.conn = some k) :
    sendOnce lib cmd args c w = exchange lib cmd args k { w with log := w.log ++ [.attempt] } := by
  simp only [sendOnce, hc]

theorem Conn.Write_id (k : Conn) (b : Bytes) : (k.Write b).1.id = k.id := by
  unfold Conn.Write
  cases k.werr <;> rfl

theorem Conn.Flush_id (k : Conn) : k.Flush.1.id = k.id := by
  unfold Conn.Flush
  cases k.werr with
  | some e => rfl
  | none =>
    cases k.wlimit with
    | none => rfl
    | some p =>
      obtain ⟨room, e⟩ := p
      simp only
      split <;> rfl

theorem writeBulkBytes_id (k : Conn) (b : Bytes) : (writeBulkBytes k b).1.id = k.id := by
  unfold writeBulkBytes
  have h1 := Conn.Write_id k ([36] ++ Itoa b.length ++ CRLF)
  rcases hw1 : k.Write ([36] ++ Itoa b.length ++ CRLF) with ⟨k1, _ | e⟩
  · rw [hw1] at h1
    simp only at h1 ⊢
    have h2 := Conn.Write_id k1 b
    rcases hw2 : k1.Write b with ⟨k2, _ | e⟩
    · rw [hw2] at h2
      simp only at h2 ⊢
      rw [Conn.Write_id, h2, h1]
    · rw [hw2] at h2
      simp only at h2 ⊢
      rw [h2, h1]
  · rw [hw1] at h1
    exact h1

theorem writeArg_id (k : Conn) (a : Arg) : (writeArg k a).1.id = k.id := by
  cases a <;> simp only [writeArg, writeBulk] <;> exact writeBulkBytes_id k _

theorem writeArgs_id (args : List Arg) : ∀ k : Conn, (writeArgs k args).1.id = k.id := by
  induction args with
  | nil => intro k; rfl
  | cons a rest ih =>
    intro k
    unfold writeArgs
    have h1 := writeArg_id k a
    rcases hw : writeArg k a with ⟨k1, _ | e⟩
    · rw [hw] at h1
      simp only at h1 ⊢
      rw [ih k1, h1]
    · rw [hw] at h1
      exact h1

theorem writeFrames_id (lib : GoLib) (cmd : Bytes) (args : List Arg) (k : Conn) :
    (writeFrames lib cmd args k).1.id = k.id := by
  unfold writeFrames writeArrayHeader writeBulk
  have h1 := Conn.Write_id k ([42] ++ Itoa (1 + (args.length : Int)) ++ CRLF)
  rcases hw1 : k.Write ([42] ++ Itoa (1 + (args.length : Int)) ++ CRLF) with ⟨k1, _ | e⟩
  · rw [hw1] at h1
    simp only at h1 ⊢
    have h2 := writeBulkBytes_id k1 (lib.ToUpper cmd)
    rcases hw2 : writeBulkBytes k1 (lib.ToUpper cmd) with ⟨k2, _ | e⟩
    · rw [hw2] at h2
      simp only at h2 ⊢
      rw [writeArgs_id, h2, h1]
    · rw [hw2] at h2
      simp only at h2 ⊢
      rw [h2, h1]
  · rw [hw1] at h1
    exact h1

/-- One exchange leaves the network untouched and the client holding the same
socket it used. -/
theorem exchange_frame (lib : GoLib) (cmd : Bytes) (args : List Arg) (k : Conn) (w : World) :
    (exchange lib cmd args k w).2.2 = w ∧
    ∃ k1, (exchange lib cmd args k w).2.1.conn = some k1 ∧ k1.id = k.id := by
  unfold exchange
  have h1 := writeFrames_id lib cmd args k
  split
  · rename_i k3 e hw1
    rw [hw1] at h1
    exact ⟨rfl, _, rfl, h1⟩
  · rename_i k3 hw1
    rw [hw1] at h1
    have h2 := Conn.Flush_id k3
    split
    · rename_i k4 e hw2
      rw [hw2] at h2
      exact ⟨rfl, _, rfl, by rw [h2, h1]⟩
    · rename_i k4 hw2
      rw [hw2] at h2
      have h3 : k4.id = k.id := by rw [h2, h1]
      split <;> exact ⟨rfl, _, rfl, h3⟩

theorem resetLocked_conn (c : RedisClient) (w : World) : (resetLocked c w).1.conn = none := by
  unfold resetLocked
  cases c.conn <;> rfl

theorem resetLocked_log (c : RedisClient) (w : World) :
    (resetLocked c w).2.log = w.log ++ (match c.conn with
                                         | some k => [Event.closed k.id]
                                         | none => []) := by
  unfold resetLocked
  cases c.conn <;> simp

theorem resetLocked_dials (c : RedisClient) (w : World) : (resetLocked c w).2.dials = w.dials := by
  unfold resetLocked
  cases c.conn <;> rfl

theorem connectLocked_ok (c c2 : RedisClient) (w w2 : World)
    (h : connectLocked c w = (none, c2, w2)) :
    (∃ k, c2.conn = some k ∧ k.id = w.dials) ∧ w2.log = w.log ++ [.dialed w.dials] ∧
      w2.dials = w.dials + 1 := by
  unfold connectLocked at h
  cases hd : w.dialer w.dials with
  | error e => rw [hd] at h; simp at h
  | ok p =>
    rw [hd] at h
    simp only [Prod.mk.injEq, true_and] at h
    obtain ⟨hc, hw⟩ := h
    subst hc hw
    exact ⟨⟨_, rfl, rfl⟩, rfl, rfl⟩

theorem connectLocked_fail (c c2 : RedisClient) (w w2 : World) (e : GoErr)
    (h : connectLocked c w = (some e, c2, w2)) :
    c2 = c ∧ w2.log = w.log ++ [.dialFailed e] := by
  unfold connectLocked at h
  cases hd : w.dialer w.dials with
  | error e1 =>
    rw [hd] at h
    simp only [Prod.mk.injEq, Option.some.injEq] at h
    obtain ⟨he, hc, hw⟩ := h
    subst he hc hw
    exact ⟨rfl, rfl⟩
  | ok p => rw [hd] at h; simp at h

theorem Conn.Write_inbound (k : Conn) (b : Bytes) : (k.Write b).1.inbound = k.inbound := by
  unfold Conn.Write
  cases k.werr <;> rfl

theorem Conn.Flush_inbound (k : Conn) : k.Flush.1.inbound = k.inbound := by
  unfold Conn.Flush
  cases k.werr with
  | some e => rfl
  | none =>
    cases k.wlimit with
    | none => rfl
    | some p =>
      obtain ⟨room, e⟩ := p
      simp only
      split <;> rfl

theorem writeBulkBytes_inbound (k : Conn) (b : Bytes) :
    (writeBulkBytes k b).1.inbound = k.inbound := by
  unfold writeBulkBytes
  have h1 := Conn.Write_inbound k ([36] ++ Itoa b.length ++ CRLF)
  rcases hw1 : k.Write ([36] ++ Itoa b.length ++ CRLF) with ⟨k1, _ | e⟩
  · rw [hw1] at h1
    simp only at h1 ⊢
    have h2 := Conn.Write_inbound k1 b
    rcases hw2 : k1.Write b with ⟨k2, _ | e⟩
    · rw [hw2] at h2
      simp only at h2 ⊢
      rw [Conn.Write_inbound, h2, h1]
    · rw [hw2] at h2
      simp only at h2 ⊢
      rw [h2, h1]
  · rw [hw1] at h1
    exact h1

theorem writeArg_inbound (k : Conn) (a : Arg) : (writeArg k a).1.inbound = k.inbound := by
  cases a <;> simp only [writeArg, writeBulk] <;> exact writeBulkBytes_inbound k _

theorem writeArgs_inbound (args : List Arg) :
    ∀ k : Conn, (writeArgs k args).1.inbound = k.inbound := by
  induction args with
  | nil => intro k; rfl
  | cons a rest ih =>
    intro k
    unfold writeArgs
    have h1 := writeArg_inbound k a
    rcases hw : writeArg k a with ⟨k1, _ | e⟩
    · rw [hw] at h1
      simp only at h1 ⊢
      rw [ih k1, h1]
    · rw [hw] at h1
      exact h1

theorem writeFrames_inbound (lib : GoLib) (cmd : Bytes) (args : List Arg) (k : Conn) :
    (writeFrames lib cmd args k).1.inbound = k.inbound := by
  unfold writeFrames writeArrayHeader writeBulk
  have h1 := Conn.Write_inbound k ([42] ++ Itoa (1 + (args.length : Int)) ++ CRLF)
  rcases hw1 : k.Write ([42] ++ Itoa (1 + (args.length : Int)) ++ CRLF) with ⟨k1, _ | e⟩
  · rw [hw1] at h1
    simp only at h1 ⊢
    have h2 := writeBulkBytes_inbound k1 (lib.ToUpper cmd)
    rcases hw2 : writeBulkBytes k1 (lib.ToUpper cmd) with ⟨k2, _ | e⟩
    · rw [hw2] at h2
      simp only at h2 ⊢
      rw [writeArgs_inbound, h2, h1]
    · rw [hw2] at h2
      simp only at h2 ⊢
      rw [h2, h1]
  · rw [hw1] at h1
    exact h1

/-- One exchange leaves the client holding the socket it used, with the bytes
the exchange did not read: what `readResp` left when the command was delivered,
everything when it was not. -/
theorem exchange_unread (lib : GoLib) (cmd : Bytes) (args : List Arg) (k : Conn) (w : World) :
    ∃ k1, (exchange lib cmd args k w).2.1.conn = some k1 ∧ k1.id = k.id ∧
      k1.inbound = unreadAfter lib (delivers lib cmd args k) k.inbound := by
  have h1 := writeFrames_id lib cmd args k
  have i1 := writeFrames_inbound lib cmd args k
  rcases hw1 : writeFrames lib cmd args k with ⟨k3, _ | e⟩
  · rw [hw1] at h1 i1
    simp only at h1 i1
    have h2 := Conn.Flush_id k3
    have i2 := Conn.Flush_inbound k3
    rcases hw2 : k3.Flush with ⟨k4, _ | e⟩
    · rw [hw2] at h2 i2
      simp only at h2 i2
      have h3 : k4.id = k.id := by rw [h2, h1]
      have i3 : k4.inbound = k.inbound := by rw [i2, i1]
      have hd : delivers lib cmd args k = true := by simp only [delivers, hw1, hw2]
      simp only [exchange, hw1, hw2, unreadAfter, hd, if_true, i3]
      cases readResp lib k.inbound with
      | ok v rest => exact ⟨_, rfl, h3, rfl⟩
      | err e rest => exact ⟨_, rfl, h3, rfl⟩
      | panic m => exact ⟨_, rfl, h3, i3⟩
      | outOfFuel => exact ⟨_, rfl, h3, i3⟩
    · rw [hw2] at h2 i2
      simp only at h2 i2
      have hd : delivers lib cmd args k = false := by simp only [delivers, hw1, hw2]
      simp only [exchange, hw1, hw2, unreadAfter, hd]
      exact ⟨_, rfl, by rw [h2, h1], by rw [i2, i1]; rfl⟩
  · rw [hw1] at h1 i1
    simp only at h1 i1
    have hd : delivers lib cmd args k = false := by simp only [delivers, hw1]
    simp only [exchange, hw1, unreadAfter, hd]
    exact ⟨_, rfl, h1, by rw [i1]; rfl⟩

/-- One send attempt on the connection `k`, which the client holds or, holding
none, has just dialed, leaves the client holding that connection, with the bytes
the attempt did not read. -/
theorem sendOnce_unread (lib : GoLib) (cmd : Bytes) (args : List Arg) (c : RedisClient)
    (w : World) (k : Conn)
    (hc : c.conn = some k ∨ (c.conn = none ∧
      (connectLocked c { w with log := w.log ++ [.attempt] }).2.1.conn = some k)) :
    ∃ k1, (sendOnce lib cmd args c w).2.1.conn = some k1 ∧ k1.id = k.id ∧
      k1.inbound = unreadAfter lib (delivers lib cmd args k) k.inbound := by
  rcases hc with hc | ⟨hc, hd⟩
  · rw [sendOnce_live lib cmd args c w k hc]
    exact exchange_unread lib cmd args k _
  · simp only [sendOnce, hc]
    rcases hcl : connectLocked c { w with log := w.log ++ [.attempt] } with ⟨_ | e, c1, w1⟩
    · rw [hcl] at hd
      simp only at hd
      simp only [hd]
      exact exchange_unread lib cmd args k _
    · obtain ⟨hc1, _⟩ := connectLocked_fail _ _ _ _ _ hcl
      rw [hcl] at hd
      simp only at hd
      rw [hc1, hc] at hd
      cases hd

theorem do_no_retry (lib : GoLib) (cmd : Bytes) (args : List Arg) (c c1 : RedisClient)
    (w w1 : World) (v : Resp) (err : Option GoErr)
    (h1 : sendOnce lib cmd args c w = (.ret v err, c1, w1))
    (hr : isRetryableNetErr lib err = false) :
    RedisClient.do lib cmd args c w = (.ret v err, c1, w1) := by
  simp [RedisClient.do, h1, hr]

theorem do_retry (lib : GoLib) (cmd : Bytes) (args : List Arg) (c c1 : RedisClient)
    (w w1 : World) (v : Resp) (e : GoErr)
    (h1 : sendOnce lib cmd args c w = (.ret v (some e), c1, w1))
    (hr : isRetryableNetErr lib (some e) = true) :
    RedisClient.do lib cmd args c w =
      match connectLocked (resetLocked c1 w1).1 (resetLocked c1 w1).2 with
      | (some _, c3, w3) => (.ret .nil (some e), c3, w3)
      | (none, c3, w3) => sendOnce lib cmd args c3 w3 := by
  simp only [RedisClient.do, h1, hr, not_true_eq_false, if_false]

/-! ## The claims -/

theorem map_toString_textOrBytes (ps : List (Bool × Bytes)) :
    (ps.map textOrBytes).map toString = ps.map Prod.snd := by
  induction ps with
  | nil => rfl
  | cons p ps ih =>
    obtain ⟨b, x⟩ := p
    cases b <;> simp [textOrBytes, toString, ih]

/-- C1: one send attempt on a connection that takes the bytes delivers exactly
`*<1 + number of arguments>\r\n`, then the bulk frame of the upper-cased command
name, then the bulk frame of each string or byte-slice argument in order, where
the bulk frame of `b` is `$<length of b>\r\n<b>\r\n`. -/
theorem C1_sendOnce_writes_command_frame (lib : GoLib) (cmd : Bytes) (ps : List (Bool × Bytes))
    (k : Conn) (w : World) (hw : k.werr = none) (hl : k.wlimit = none) (hb : k.wbuf = []) :
    (sendOnce lib cmd (ps.map textOrBytes) ⟨some k⟩ w).2.1.conn.map Conn.sent
      = some (k.sent ++ ([42] ++ decimal (1 + ps.length) ++ CRLF ++ bulkFrame (lib.ToUpper cmd) ++
          (ps.map (fun p => bulkFrame p.2)).flatten))
    ∧ ∀ b : Bytes, bulkFrame b = [36] ++ decimal b.length ++ CRLF ++ b ++ CRLF := by
  refine ⟨?_, fun b => rfl⟩
  rw [sendOnce_live lib cmd _ ⟨some k⟩ w k rfl, exchange_ok lib cmd _ k _ hw hl,
    map_toString_textOrBytes]
  cases readResp lib k.inbound <;>
    simp [hb, commandFrame, List.map_map, Function.comp_def]

theorem C1_witness :
    (liveConn 0 ⟨[], GoErr.EOF⟩).werr = none ∧ (liveConn 0 ⟨[], GoErr.EOF⟩).wlimit = none ∧
    (liveConn 0 ⟨[], GoErr.EOF⟩).wbuf = [] ∧
    ((sendOnce asciiLib (ascii "set") ([(false, ascii "k"), (true, [0, 13, 10])].map textOrBytes)
        ⟨some (liveConn 0 ⟨[], GoErr.EOF⟩)⟩ (steadyWorld (.ok silentPeer))).2.1.conn.map Conn.sent
      = some ((liveConn 0 ⟨[], GoErr.EOF⟩).sent ++ ([42] ++ decimal (1 + 2) ++ CRLF ++
          bulkFrame (asciiLib.ToUpper (ascii "set")) ++
          ([(false, ascii "k"), (true, [0, 13, 10])].map (fun p => bulkFrame p.2)).flatten))
    ∧ ∀ b : Bytes, bulkFrame b = [36] ++ decimal b.length ++ CRLF ++ b ++ CRLF) :=
  ⟨rfl, rfl, rfl,
   C1_sendOnce_writes_command_frame asciiLib (ascii "set") [(false, ascii "k"), (true, [0, 13, 10])]
     (liveConn 0 ⟨[], GoErr.EOF⟩) (steadyWorld (.ok silentPeer)) rfl rfl rfl⟩

/-- C2: reading back what the encoder wrote for a command gives, without error,
the array of `1 + number of arguments` bulk strings: the upper-cased name, then
the arguments byte for byte and in order, with nothing left unread.  The bounds
are those of the allocator: the name and every argument take at most `maxAlloc`
bytes, and so do the `1 + number of arguments` elements of the array, 16 bytes
each. -/
theorem C2_decode_encoded_command (lib : GoLib) (cmd : Bytes) (ps : List (Bool × Bytes))
    (fin : GoErr) (hn : 16 * (1 + ps.length) ≤ maxAlloc)
    (hcmd : (lib.ToUpper cmd).length ≤ maxAlloc) (hps : ∀ p ∈ ps, p.2.length ≤ maxAlloc) :
    readResp lib ⟨encodeCommand lib cmd (ps.map textOrBytes), fin⟩
      = .ok (.arr (.bulk (lib.ToUpper cmd) :: ps.map (fun p => Resp.bulk p.2))) ⟨[], fin⟩ := by
  have h := readResp_commandFrame lib (lib.ToUpper cmd) (ps.map Prod.snd) [] fin
    (by simpa using hn) hcmd
    (by
      intro b hb
      obtain ⟨p, hp, rfl⟩ := List.mem_map.mp hb
      exact hps p hp)
  rw [encodeCommand_eq, map_toString_textOrBytes]
  simpa [List.map_map, Function.comp_def] using h

theorem C2_witness :
    16 * (1 + [(true, [13, 10, 0, 36]), (false, [10, 13])].length) ≤ maxAlloc ∧
    (asciiLib.ToUpper (ascii "hset")).length ≤ maxAlloc ∧
    (∀ p ∈ [(true, [13, 10, 0, 36]), (false, [10, 13])], p.2.length ≤ maxAlloc) ∧
    readResp asciiLib
        ⟨encodeCommand asciiLib (ascii "hset")
          ([(true, [13, 10, 0, 36]), (false, [10, 13])].map textOrBytes), GoErr.EOF⟩
      = .ok (.arr (.bulk (asciiLib.ToUpper (ascii "hset")) ::
          [(true, [13, 10, 0, 36]), (false, [10, 13])].map (fun p => Resp.bulk p.2)))
          ⟨[], GoErr.EOF⟩ :=
  ⟨by decide, by decide, by decide,
   C2_decode_encoded_command asciiLib (ascii "hset") [(true, [13, 10, 0, 36]), (false, [10, 13])]
     GoErr.EOF (by decide) (by decide) (by decide)⟩

/-- C3: for every well-formed reply frame that carries a value `v` (a simple
string without line feed, a 64-bit integer, a bulk string, a null, or an array of
such, nested to any depth, every bulk string and every array being one that
`make` allocates: at most `maxAlloc` bytes, respectively elements of 16 bytes
that take at most `maxAlloc` bytes) and every `rest`, `readResp` on the frame's
bytes followed by `rest` returns `v` and leaves exactly `rest` unread. -/
theorem C3_readResp_returns_value_and_rest (lib : GoLib) (f : Frame) (v : Resp) (rest : Bytes)
    (fin : GoErr) (hwf : f.wellFormed = true) (hv : f.outcome = .ok v) :
    readResp lib ⟨f.wire ++ rest, fin⟩ = .ok v ⟨rest, fin⟩ := by
  have h := readResp_frame lib f hwf rest fin
  rw [hv] at h
  exact h

theorem C3_witness :
    (Frame.array [.bulk [99, 13, 10], .integer (-12), .nullBulk,
        .array [.simple (ascii "OK"), .nullArray]]).wellFormed = true ∧
    (Frame.array [.bulk [99, 13, 10], .integer (-12), .nullBulk,
        .array [.simple (ascii "OK"), .nullArray]]).outcome
      = .ok (.arr [.bulk [99, 13, 10], .int (-12), .nil, .arr [.str (ascii "OK"), .nil]]) ∧
    readResp asciiLib
        ⟨(Frame.array [.bulk [99, 13, 10], .integer (-12), .nullBulk,
            .array [.simple (ascii "OK"), .nullArray]]).wire ++ ascii "+next", GoErr.EOF⟩
      = .ok (.arr [.bulk [99, 13, 10], .int (-12), .nil, .arr [.str (ascii "OK"), .nil]])
          ⟨ascii "+next", GoErr.EOF⟩ :=
  ⟨by decide, rfl,
   C3_readResp_returns_value_and_rest asciiLib _ _ (ascii "+next") GoErr.EOF (by decide) rfl⟩

/-- C4: for every text `t` without line feed, `readResp` on `-t\r\n` returns no
value and fails with the error whose message is exactly `t`. -/
theorem C4_error_reply_becomes_error (lib : GoLib) (t rest : Bytes) (fin : GoErr)
    (h : (10 : Nat) ∉ t) :
    ∃ e, readResp lib ⟨[45] ++ t ++ CRLF ++ rest, fin⟩ = .err e ⟨rest, fin⟩ ∧ e.msg = t :=
  ⟨GoErr.New t, readResp_error lib t rest fin h, rfl⟩

theorem C4_witness :
    (10 : Nat) ∉ ascii "ERR unknown command" ∧
    ∃ e, readResp asciiLib ⟨[45] ++ ascii "ERR unknown command" ++ CRLF ++ [], GoErr.EOF⟩
        = .err e ⟨[], GoErr.EOF⟩ ∧ e.msg = ascii "ERR unknown command" :=
  ⟨by decide, C4_error_reply_becomes_error asciiLib (ascii "ERR unknown command") [] GoErr.EOF
    (by decide)⟩

/-- C5: on a connection that takes the command, `GetBytes` returns `ErrNil` and
no bytes when the reply is the null bulk string `$-1\r\n`, and returns the empty
byte sequence with no error when the reply is `$0\r\n\r\n`. -/
theorem C5_GetBytes_null_versus_empty (lib : GoLib) (key rest : Bytes) (fin : GoErr) (k : Conn)
    (w : World) (hw : k.werr = none) (hl : k.wlimit = none) :
    (RedisClient.GetBytes lib key
        ⟨some { k with inbound := ⟨[36, 45, 49] ++ CRLF ++ rest, fin⟩ }⟩ w).1
      = .ret none (some ErrNil) ∧
    (RedisClient.GetBytes lib key
        ⟨some { k with inbound := ⟨[36, 48] ++ CRLF ++ CRLF ++ rest, fin⟩ }⟩ w).1
      = .ret (some []) none := by
  have hempty : readResp lib ⟨[36, 48] ++ CRLF ++ CRLF ++ rest, fin⟩ = .ok (.bulk []) ⟨rest, fin⟩ := by
    have := readResp_bulk lib [] rest fin (Nat.zero_le _)
    simpa [bulkFrame, decimal, digitsAux] using this
  constructor
  · have hs := sendOnce_live lib (ascii "GET") [.str key]
      ⟨some { k with inbound := ⟨[36, 45, 49] ++ CRLF ++ rest, fin⟩ }⟩ w _ rfl
    rw [exchange_ok lib _ _ _ _ (by exact hw) (by exact hl)] at hs
    simp only [readResp_nullBulk] at hs
    have hd := do_no_retry lib _ _ _ _ _ _ _ _ hs rfl
    simp only [RedisClient.GetBytes, hd]
  · have hs := sendOnce_live lib (ascii "GET") [.str key]
      ⟨some { k with inbound := ⟨[36, 48] ++ CRLF ++ CRLF ++ rest, fin⟩ }⟩ w _ rfl
    rw [exchange_ok lib _ _ _ _ (by exact hw) (by exact hl)] at hs
    simp only [hempty] at hs
    have hd := do_no_retry lib _ _ _ _ _ _ _ _ hs rfl
    simp only [RedisClient.GetBytes, hd]

theorem C5_witness :
    (liveConn 0 ⟨[], GoErr.EOF⟩).werr = none ∧ (liveConn 0 ⟨[], GoErr.EOF⟩).wlimit = none ∧
    (RedisClient.GetBytes asciiLib (ascii "img:1")
        ⟨some { liveConn 0 ⟨[], GoErr.EOF⟩ with
                inbound := ⟨[36, 45, 49] ++ CRLF ++ [], GoErr.EOF⟩ }⟩ (steadyWorld (.ok silentPeer))).1
      = .ret none (some ErrNil) ∧
    (RedisClient.GetBytes asciiLib (ascii "img:1")
        ⟨some { liveConn 0 ⟨[], GoErr.EOF⟩ with
                inbound := ⟨[36, 48] ++ CRLF ++ CRLF ++ [], GoErr.EOF⟩ }⟩ (steadyWorld (.ok silentPeer))).1
      = .ret (some []) none :=
  ⟨rfl, rfl, C5_GetBytes_null_versus_empty asciiLib (ascii "img:1") [] GoErr.EOF
    (liveConn 0 ⟨[], GoErr.EOF⟩) (steadyWorld (.ok silentPeer)) rfl rfl⟩

/-- C6: for every well-formed reply frame (simple string, error, integer, bulk
string, null, or nested array, every bulk string and every array being one that
`make` allocates: at most `maxAlloc` bytes, respectively elements of 16 bytes
that take at most `maxAlloc` bytes) and every strict prefix `p` of its bytes,
the empty one included, `readResp` on a stream that ends after `p` fails with an
error and returns no value. -/
theorem C6_truncated_frame_is_an_error (lib : GoLib) (fin : GoErr) (f : Frame) (p : Bytes)
    (x : Nat) (xs : Bytes) (hwf : f.wellFormed = true) (hp : f.wire = p ++ x :: xs) :
    ∃ e s, readResp lib ⟨p, fin⟩ = .err e s :=
  readResp_truncated lib fin f hwf p x xs hp

theorem C6_witness :
    (Frame.array [.bulk (ascii "ab"), .simple (ascii "OK")]).wellFormed = true ∧
    (Frame.array [.bulk (ascii "ab"), .simple (ascii "OK")]).wire
      = ascii "*2\r\n$2\r\nab\r" ++ 10 :: ascii "+OK\r\n" ∧
    ∃ e s, readResp asciiLib ⟨ascii "*2\r\n$2\r\nab\r", GoErr.EOF⟩ = .err e s :=
  ⟨by decide, by decide,
   C6_truncated_frame_is_an_error asciiLib GoErr.EOF
     (Frame.array [.bulk (ascii "ab"), .simple (ascii "OK")]) (ascii "*2\r\n$2\r\nab\r") 10
     (ascii "+OK\r\n") (by decide) (by decide)⟩

/-- C7: when the first send attempt fails with a retryable error, the reconnect
succeeds and the second attempt succeeds, `do` returns the second attempt's
reply with no error.  After the failed attempt the call closes the connection
the client holds, dials once, and makes one more attempt on the connection that
dial made; for a client that held a connection at the start these are all the
steps of the call besides the first attempt. -/
theorem C7_retry_succeeds_after_one_reconnect (lib : GoLib) (cmd : Bytes) (args : List Arg)
    (c c1 c2 c3 : RedisClient) (w w1 w2 w3 : World) (v1 v : Resp) (e1 : GoErr)
    (h1 : sendOnce lib cmd args c w = (.ret v1 (some e1), c1, w1))
    (hr : isRetryableNetErr lib (some e1) = true)
    (h2 : connectLocked (resetLocked c1 w1).1 (resetLocked c1 w1).2 = (none, c2, w2))
    (h3 : sendOnce lib cmd args c2 w2 = (.ret v none, c3, w3)) :
    RedisClient.do lib cmd args c w = (.ret v none, c3, w3) ∧
    w3.log = w1.log ++ (match c1.conn with
                        | some k => [Event.closed k.id]
                        | none => []) ++ [.dialed w1.dials, .attempt] ∧
    (∃ k3, c3.conn = some k3 ∧ k3.id = w1.dials) ∧
    (∀ k, c.conn = some k →
      w3.log = w.log ++ [.attempt, .closed k.id, .dialed w.dials, .attempt]) := by
  have hdo : RedisClient.do lib cmd args c w = (.ret v none, c3, w3) := by
    rw [do_retry lib cmd args c c1 w w1 v1 e1 h1 hr, h2]
    exact h3
  obtain ⟨⟨k2, hk2, hid2⟩, hlog2, _⟩ := connectLocked_ok _ _ _ _ h2
  rw [resetLocked_log] at hlog2
  rw [resetLocked_dials] at hid2
  have h3x := sendOnce_live lib cmd args c2 w2 k2 hk2
  rw [h3] at h3x
  obtain ⟨hw3, k3, hk3, hid3⟩ := exchange_frame lib cmd args k2 { w2 with log := w2.log ++ [.attempt] }
  rw [← h3x] at hw3 hk3
  simp only at hw3 hk3
  have hlog3 : w3.log = w1.log ++ (match c1.conn with
                        | some k => [Event.closed k.id]
                        | none => []) ++ [.dialed w1.dials, .attempt] := by
    rw [hw3]
    simp only
    rw [hlog2, resetLocked_dials]
    simp
  refine ⟨hdo, hlog3, ⟨k3, hk3, by rw [hid3, hid2]⟩, ?_⟩
  intro k hk
  have h1x := sendOnce_live lib cmd args c w k hk
  rw [h1] at h1x
  obtain ⟨hw1, k1, hk1, hid1⟩ := exchange_frame lib cmd args k { w with log := w.log ++ [.attempt] }
  rw [← h1x] at hw1 hk1
  simp only at hw1 hk1
  rw [hlog3, hk1, hw1]
  simp [hid1]

theorem C7_witness :
    sendOnce asciiLib getK.1 getK.2 staleClient (steadyWorld (.ok (closingPeer (ascii "+OK\r\n"))))
      = (.ret .nil (some GoErr.EOF),
         (firstAttempt asciiLib getK.1 getK.2 staleClient
            (steadyWorld (.ok (closingPeer (ascii "+OK\r\n"))))).2.1,
         (firstAttempt asciiLib getK.1 getK.2 staleClient
            (steadyWorld (.ok (closingPeer (ascii "+OK\r\n"))))).2.2) ∧
    isRetryableNetErr asciiLib (some GoErr.EOF) = true ∧
    (RedisClient.do asciiLib getK.1 getK.2 staleClient
        (steadyWorld (.ok (closingPeer (ascii "+OK\r\n"))))).1 = .ret (.str (ascii "OK")) none ∧
    (RedisClient.do asciiLib getK.1 getK.2 staleClient
        (steadyWorld (.ok (closingPeer (ascii "+OK\r\n"))))).2.2.log
      = [.dialed 0, .attempt, .closed 0, .dialed 1, .attempt] :=
  have h := C7_retry_succeeds_after_one_reconnect asciiLib getK.1 getK.2 staleClient
    (firstAttempt asciiLib getK.1 getK.2 staleClient
      (steadyWorld (.ok (closingPeer (ascii "+OK\r\n"))))).2.1
    (reconnect asciiLib getK.1 getK.2 staleClient
      (steadyWorld (.ok (closingPeer (ascii "+OK\r\n"))))).2.1
    (secondAttempt asciiLib getK.1 getK.2 staleClient
      (steadyWorld (.ok (closingPeer (ascii "+OK\r\n"))))).2.1
    (steadyWorld (.ok (closingPeer (ascii "+OK\r\n"))))
    (firstAttempt asciiLib getK.1 getK.2 staleClient
      (steadyWorld (.ok (closingPeer (ascii "+OK\r\n"))))).2.2
    (reconnect asciiLib getK.1 getK.2 staleClient
      (steadyWorld (.ok (closingPeer (ascii "+OK\r\n"))))).2.2
    (secondAttempt asciiLib getK.1 getK.2 staleClient
      (steadyWorld (.ok (closingPeer (ascii "+OK\r\n"))))).2.2
    .nil (.str (ascii "OK")) GoErr.EOF rfl rfl rfl rfl
  ⟨rfl, rfl, congrArg Prod.fst h.1, (congrArg (fun r => r.2.2.log) h.1).trans (h.2.2.2 _ rfl)⟩

/-- C8 as stated fails: the first attempt ends with end-of-stream (retryable), the
reconnect succeeds, the second attempt times out, and `do` returns the timeout,
not the end-of-stream of the first attempt. -/
theorem C8_counterexample :
    (firstAttempt asciiLib getK.1 getK.2 staleClient (steadyWorld (.ok silentPeer))).1
      = .ret .nil (some GoErr.EOF) ∧
    isRetryableNetErr asciiLib (some GoErr.EOF) = true ∧
    (reconnect asciiLib getK.1 getK.2 staleClient (steadyWorld (.ok silentPeer))).1 = none ∧
    (secondAttempt asciiLib getK.1 getK.2 staleClient (steadyWorld (.ok silentPeer))).1
      = .ret .nil (some GoErr.timeout) ∧
    (RedisClient.do asciiLib getK.1 getK.2 staleClient (steadyWorld (.ok silentPeer))).1
      = .ret .nil (some GoErr.timeout) ∧
    (RedisClient.do asciiLib getK.1 getK.2 staleClient (steadyWorld (.ok silentPeer))).1
      ≠ .ret .nil (some GoErr.EOF) := by
  refine ⟨rfl, rfl, rfl, rfl, rfl, ?_⟩
  intro h
  have h2 : (RedisClient.do asciiLib getK.1 getK.2 staleClient (steadyWorld (.ok silentPeer))).1
      = .ret .nil (some GoErr.timeout) := rfl
  rw [h2] at h
  have h3 : GoErr.timeout = GoErr.EOF := by
    injection h with _ h4
    injection h4
  exact absurd h3 (by decide)

/-- C8, amended: when the first send attempt fails with a retryable error, the
reconnect succeeds and the second attempt also fails, `do` fails with the second
attempt's error. -/
theorem C8_second_failure_is_returned (lib : GoLib) (cmd : Bytes) (args : List Arg)
    (c c1 c2 c3 : RedisClient) (w w1 w2 w3 : World) (v1 v2 : Resp) (e1 e2 : GoErr)
    (h1 : sendOnce lib cmd args c w = (.ret v1 (some e1), c1, w1))
    (hr : isRetryableNetErr lib (some e1) = true)
    (h2 : connectLocked (resetLocked c1 w1).1 (resetLocked c1 w1).2 = (none, c2, w2))
    (h3 : sendOnce lib cmd args c2 w2 = (.ret v2 (some e2), c3, w3)) :
    RedisClient.do lib cmd args c w = (.ret v2 (some e2), c3, w3) := by
  rw [do_retry lib cmd args c c1 w w1 v1 e1 h1 hr, h2]
  exact h3

theorem C8_witness :
    sendOnce asciiLib getK.1 getK.2 staleClient (steadyWorld (.ok silentPeer))
      = (.ret .nil (some GoErr.EOF),
         (firstAttempt asciiLib getK.1 getK.2 staleClient (steadyWorld (.ok silentPeer))).2.1,
         (firstAttempt asciiLib getK.1 getK.2 staleClient (steadyWorld (.ok silentPeer))).2.2) ∧
    isRetryableNetErr asciiLib (some GoErr.EOF) = true ∧
    RedisClient.do asciiLib getK.1 getK.2 staleClient (steadyWorld (.ok silentPeer))
      = (.ret .nil (some GoErr.timeout),
         (secondAttempt asciiLib getK.1 getK.2 staleClient (steadyWorld (.ok silentPeer))).2.1,
         (secondAttempt asciiLib getK.1 getK.2 staleClient (steadyWorld (.ok silentPeer))).2.2) :=
  ⟨rfl, rfl,
   C8_second_failure_is_returned asciiLib getK.1 getK.2 staleClient
     (firstAttempt asciiLib getK.1 getK.2 staleClient (steadyWorld (.ok silentPeer))).2.1
     (reconnect asciiLib getK.1 getK.2 staleClient (steadyWorld (.ok silentPeer))).2.1
     (secondAttempt asciiLib getK.1 getK.2 staleClient (steadyWorld (.ok silentPeer))).2.1
     (steadyWorld (.ok silentPeer))
     (firstAttempt asciiLib getK.1 getK.2 staleClient (steadyWorld (.ok silentPeer))).2.2
     (reconnect asciiLib getK.1 getK.2 staleClient (steadyWorld (.ok silentPeer))).2.2
     (secondAttempt asciiLib getK.1 getK.2 staleClient (steadyWorld (.ok silentPeer))).2.2
     .nil .nil GoErr.EOF GoErr.timeout rfl rfl rfl rfl⟩

/-- C9: when the first send attempt fails with a retryable error `e1` and the
reconnect fails with `e2`, `do` returns no value and the error `e1`, and the
client is left holding no connection. -/
theorem C9_failed_reconnect_returns_first_error (lib : GoLib) (cmd : Bytes) (args : List Arg)
    (c c1 c2 : RedisClient) (w w1 w2 : World) (v1 : Resp) (e1 e2 : GoErr)
    (h1 : sendOnce lib cmd args c w = (.ret v1 (some e1), c1, w1))
    (hr : isRetryableNetErr lib (some e1) = true)
    (h2 : connectLocked (resetLocked c1 w1).1 (resetLocked c1 w1).2 = (some e2, c2, w2)) :
    RedisClient.do lib cmd args c w = (.ret .nil (some e1), c2, w2) ∧ c2.conn = none := by
  constructor
  · rw [do_retry lib cmd args c c1 w w1 v1 e1 h1 hr, h2]
  · rw [(connectLocked_fail _ _ _ _ _ h2).1]
    exact resetLocked_conn c1 w1

theorem C9_witness :
    sendOnce asciiLib getK.1 getK.2 staleClient
        (steadyWorld (.error (GoErr.New (ascii "connect: connection refused"))))
      = (.ret .nil (some GoErr.EOF),
         (firstAttempt asciiLib getK.1 getK.2 staleClient
            (steadyWorld (.error (GoErr.New (ascii "connect: connection refused"))))).2.1,
         (firstAttempt asciiLib getK.1 getK.2 staleClient
            (steadyWorld (.error (GoErr.New (ascii "connect: connection refused"))))).2.2) ∧
    isRetryableNetErr asciiLib (some GoErr.EOF) = true ∧
    (RedisClient.do asciiLib getK.1 getK.2 staleClient
        (steadyWorld (.error (GoErr.New (ascii "connect: connection refused")))))
      = (.ret .nil (some GoErr.EOF),
         (reconnect asciiLib getK.1 getK.2 staleClient
            (steadyWorld (.error (GoErr.New (ascii "connect: connection refused"))))).2.1,
         (reconnect asciiLib getK.1 getK.2 staleClient
            (steadyWorld (.error (GoErr.New (ascii "connect: connection refused"))))).2.2) ∧
    (reconnect asciiLib getK.1 getK.2 staleClient
        (steadyWorld (.error (GoErr.New (ascii "connect: connection refused"))))).2.1.conn = none :=
  ⟨rfl, rfl,
   C9_failed_reconnect_returns_first_error asciiLib getK.1 getK.2 staleClient
     (firstAttempt asciiLib getK.1 getK.2 staleClient
        (steadyWorld (.error (GoErr.New (ascii "connect: connection refused"))))).2.1
     (reconnect asciiLib getK.1 getK.2 staleClient
        (steadyWorld (.error (GoErr.New (ascii "connect: connection refused"))))).2.1
     (steadyWorld (.error (GoErr.New (ascii "connect: connection refused"))))
     (firstAttempt asciiLib getK.1 getK.2 staleClient
        (steadyWorld (.error (GoErr.New (ascii "connect: connection refused"))))).2.2
     (reconnect asciiLib getK.1 getK.2 staleClient
        (steadyWorld (.error (GoErr.New (ascii "connect: connection refused"))))).2.2
     .nil GoErr.EOF (GoErr.New (ascii "connect: connection refused")) rfl rfl rfl⟩

/-- C10 as stated fails: the error reply `-broken pipe\r\n` is classified as
retryable, so `do` closes the connection, dials again and makes a second
attempt, whose reply `+OK` it returns with no error; and of the error reply
`-a\nb\r\n` only the text before the line feed becomes the message. -/
theorem C10_counterexample :
    (RedisClient.do asciiLib getK.1 getK.2
        ⟨some (liveConn 0 ⟨ascii "-broken pipe\r\n", GoErr.EOF⟩)⟩
        (steadyWorld (.ok (closingPeer (ascii "+OK\r\n"))))).1 = .ret (.str (ascii "OK")) none ∧
    (RedisClient.do asciiLib getK.1 getK.2
        ⟨some (liveConn 0 ⟨ascii "-broken pipe\r\n", GoErr.EOF⟩)⟩
        (steadyWorld (.ok (closingPeer (ascii "+OK\r\n"))))).2.2.log
      = [.dialed 0, .attempt, .closed 0, .dialed 1, .attempt] ∧
    readResp asciiLib ⟨[45] ++ ascii "a\nb" ++ CRLF, GoErr.EOF⟩
      = .err (GoErr.New (ascii "a")) ⟨ascii "b\r\n", GoErr.EOF⟩ :=
  ⟨rfl, rfl, rfl⟩

/-- C10, amended: for every error reply `-t\r\n` whose text `t` has no line feed
and, lower-cased, contains none of `use of closed network connection`,
`connection reset`, `broken pipe`, `do` on a connection that takes the command
makes exactly one send attempt, performs no reconnect, keeps the connection, and
returns the error whose message is `t`. -/
theorem C10_store_error_is_not_retried (lib : GoLib) (cmd : Bytes) (args : List Arg)
    (t rest : Bytes) (fin : GoErr) (k : Conn) (w : World)
    (hw : k.werr = none) (hl : k.wlimit = none) (hLF : (10 : Nat) ∉ t)
    (hc : Contains (lib.ToLower t) (ascii "use of closed network connection") = false)
    (hr : Contains (lib.ToLower t) (ascii "connection reset") = false)
    (hb : Contains (lib.ToLower t) (ascii "broken pipe") = false) :
    RedisClient.do lib cmd args ⟨some { k with inbound := ⟨[45] ++ t ++ CRLF ++ rest, fin⟩ }⟩ w
      = (.ret .nil (some (GoErr.New t)),
         ⟨some { k with inbound := ⟨rest, fin⟩, wbuf := [],
                        sent := k.sent ++ (k.wbuf ++ commandFrame (lib.ToUpper cmd) (args.map toString)) }⟩,
         { w with log := w.log ++ [.attempt] }) ∧
    (GoErr.New t).msg = t := by
  refine ⟨?_, rfl⟩
  have hs := sendOnce_live lib cmd args
    ⟨some { k with inbound := ⟨[45] ++ t ++ CRLF ++ rest, fin⟩ }⟩ w _ rfl
  rw [exchange_ok lib _ _ _ _ (by exact hw) (by exact hl)] at hs
  simp only [readResp_error lib t rest fin hLF] at hs
  have hnr : isRetryableNetErr lib (some (GoErr.New t)) = false := by
    simp [isRetryableNetErr, GoErr.New, hc, hr, hb]
  exact do_no_retry lib _ _ _ _ _ _ _ _ hs hnr

theorem C10_witness :
    (liveConn 0 ⟨[], GoErr.EOF⟩).werr = none ∧ (liveConn 0 ⟨[], GoErr.EOF⟩).wlimit = none ∧
    (10 : Nat) ∉ ascii "WRONGTYPE bad value" ∧
    Contains (asciiLib.ToLower (ascii "WRONGTYPE bad value"))
      (ascii "use of closed network connection") = false ∧
    Contains (asciiLib.ToLower (ascii "WRONGTYPE bad value")) (ascii "connection reset") = false ∧
    Contains (asciiLib.ToLower (ascii "WRONGTYPE bad value")) (ascii "broken pipe") = false ∧
    (RedisClient.do asciiLib getK.1 getK.2
        ⟨some { liveConn 0 ⟨[], GoErr.EOF⟩ with
                inbound := ⟨[45] ++ ascii "WRONGTYPE bad value" ++ CRLF ++ [], GoErr.EOF⟩ }⟩
        (steadyWorld (.ok silentPeer))
      = (.ret .nil (some (GoErr.New (ascii "WRONGTYPE bad value"))),
         ⟨some { liveConn 0 ⟨[], GoErr.EOF⟩ with
                 inbound := ⟨[], GoErr.EOF⟩, wbuf := [],
                 sent := (liveConn 0 ⟨[], GoErr.EOF⟩).sent ++ ((liveConn 0 ⟨[], GoErr.EOF⟩).wbuf ++
                   commandFrame (asciiLib.ToUpper getK.1) (getK.2.map toString)) }⟩,
         { steadyWorld (.ok silentPeer) with
           log := (steadyWorld (.ok silentPeer)).log ++ [.attempt] }) ∧
     (GoErr.New (ascii "WRONGTYPE bad value")).msg = ascii "WRONGTYPE bad value") :=
  ⟨rfl, rfl, by decide, by decide, by decide, by decide,
   C10_store_error_is_not_retried asciiLib getK.1 getK.2 (ascii "WRONGTYPE bad value") []
     GoErr.EOF (liveConn 0 ⟨[], GoErr.EOF⟩) (steadyWorld (.ok silentPeer)) rfl rfl
     (by decide) (by decide) (by decide) (by decide)⟩

/-! ## Steps of one call -/

theorem countAttempts_append (a b : List Event) :
    countAttempts (a ++ b) = countAttempts a + countAttempts b := by
  simp [countAttempts]

theorem countCloses_append (a b : List Event) :
    countCloses (a ++ b) = countCloses a + countCloses b := by
  simp [countCloses]

theorem countDials_append (a b : List Event) :
    countDials (a ++ b) = countDials a + countDials b := by
  simp [countDials]

/-- What one `sendOnce` adds to the log: the attempt, and the dial it makes when
the client holds no connection. -/
theorem sendOnce_log (lib : GoLib) (cmd : Bytes) (args : List Arg) (c : RedisClient) (w : World) :
    ∃ d, (sendOnce lib cmd args c w).2.2.log = w.log ++ .attempt :: d ∧
      countAttempts d = 0 ∧ countCloses d = 0 ∧ countDials d ≤ 1 ∧ (c.conn ≠ none → d = []) := by
  cases hc : c.conn with
  | some k =>
    refine ⟨[], ?_, rfl, rfl, Nat.zero_le _, fun _ => rfl⟩
    rw [sendOnce_live lib cmd args c w k hc, (exchange_frame lib cmd args k _).1]
  | none =>
    simp only [sendOnce, hc]
    rcases hcl : connectLocked c { w with log := w.log ++ [.attempt] } with ⟨_ | e, c1, w1⟩
    · obtain ⟨⟨k, hk, _⟩, hlog, _⟩ := connectLocked_ok _ _ _ _ hcl
      simp only [hk]
      refine ⟨[.dialed w.dials], ?_, rfl, rfl, Nat.le_refl _, fun h => absurd rfl h⟩
      rw [(exchange_frame lib cmd args k w1).1, hlog]
      simp
    · obtain ⟨_, hlog⟩ := connectLocked_fail _ _ _ _ _ hcl
      simp only
      refine ⟨[.dialFailed e], ?_, rfl, rfl, Nat.le_refl _, fun h => absurd rfl h⟩
      rw [hlog]
      simp

/-- The three ways a call to `do` ends: with the first attempt, with a failed
reconnect, or with the second attempt. -/
theorem do_cases (lib : GoLib) (cmd : Bytes) (args : List Arg) (c : RedisClient) (w : World) :
    (RedisClient.do lib cmd args c w = sendOnce lib cmd args c w ∧
      ∀ v err, (sendOnce lib cmd args c w).1 = .ret v err → isRetryableNetErr lib err = false) ∨
    (∃ v e e2, (sendOnce lib cmd args c w).1 = .ret v (some e) ∧
      isRetryableNetErr lib (some e) = true ∧
      (reconnect lib cmd args c w).1 = some e2 ∧
      RedisClient.do lib cmd args c w
        = (.ret .nil (some e), (reconnect lib cmd args c w).2.1, (reconnect lib cmd args c w).2.2)) ∨
    (∃ v e, (sendOnce lib cmd args c w).1 = .ret v (some e) ∧
      isRetryableNetErr lib (some e) = true ∧
      (reconnect lib cmd args c w).1 = none ∧
      RedisClient.do lib cmd args c w = secondAttempt lib cmd args c w) := by
  rcases hs : sendOnce lib cmd args c w with ⟨call, c1, w1⟩
  cases call with
  | panic m =>
    left
    refine ⟨by simp only [RedisClient.do, hs], ?_⟩
    intro v err h
    cases h
  | outOfFuel =>
    left
    refine ⟨by simp only [RedisClient.do, hs], ?_⟩
    intro v err h
    cases h
  | ret v err =>
    cases hr : isRetryableNetErr lib err with
    | false =>
      left
      refine ⟨do_no_retry lib cmd args c c1 w w1 v err hs hr, ?_⟩
      intro v2 err2 h
      simp only [Call.ret.injEq] at h
      rw [← h.2]
      exact hr
    | true =>
      cases err with
      | none => simp [isRetryableNetErr] at hr
      | some e =>
        have hd := do_retry lib cmd args c c1 w w1 v e hs hr
        have hrec : reconnect lib cmd args c w
            = connectLocked (resetLocked c1 w1).1 (resetLocked c1 w1).2 := by
          simp only [reconnect, firstAttempt, hs]
        rcases hcl : connectLocked (resetLocked c1 w1).1 (resetLocked c1 w1).2 with ⟨_ | e2, c3, w3⟩
        · right; right
          refine ⟨v, e, rfl, hr, by rw [hrec, hcl], ?_⟩
          rw [hd, hcl]
          simp only [secondAttempt, hrec, hcl]
        · right; left
          refine ⟨v, e, e2, rfl, hr, by rw [hrec, hcl], ?_⟩
          rw [hd, hcl, hrec, hcl]

/-- What the reconnect adds to the log: the close of the connection held, and
one dial. -/
theorem reconnect_log (lib : GoLib) (cmd : Bytes) (args : List Arg) (c : RedisClient) (w : World) :
    ∃ t, (reconnect lib cmd args c w).2.2.log = (sendOnce lib cmd args c w).2.2.log ++ t ∧
      countAttempts t = 0 ∧ countCloses t ≤ 1 ∧ countDials t = 1 ∧
      ((reconnect lib cmd args c w).1 = none →
        ∃ k, (reconnect lib cmd args c w).2.1.conn = some k) ∧
      ((reconnect lib cmd args c w).1 ≠ none →
        (reconnect lib cmd args c w).2.1.conn = none ∧
        ∃ e, ((reconnect lib cmd args c w).2.2.log).getLast? = some (.dialFailed e)) := by
  rcases hs : sendOnce lib cmd args c w with ⟨call, c1, w1⟩
  have hrec : reconnect lib cmd args c w
      = connectLocked (resetLocked c1 w1).1 (resetLocked c1 w1).2 := by
    simp only [reconnect, firstAttempt, hs]
  have hcl0 : countCloses (match c1.conn with
                          | some k => [Event.closed k.id]
                          | none => []) ≤ 1 := by
    cases c1.conn <;> simp [countCloses]
  have hca0 : countAttempts (match c1.conn with
                          | some k => [Event.closed k.id]
                          | none => []) = 0 := by
    cases c1.conn <;> rfl
  have hcd0 : countDials (match c1.conn with
                          | some k => [Event.closed k.id]
                          | none => []) = 0 := by
    cases c1.conn <;> rfl
  rw [hrec]
  rcases hcl : connectLocked (resetLocked c1 w1).1 (resetLocked c1 w1).2 with ⟨_ | e2, c3, w3⟩
  · obtain ⟨⟨k, hk, _⟩, hlog, _⟩ := connectLocked_ok _ _ _ _ hcl
    rw [resetLocked_log] at hlog
    refine ⟨_, hlog.trans (List.append_assoc _ _ _), ?_, ?_, ?_, fun _ => ⟨k, hk⟩,
      fun h => absurd rfl h⟩
    · rw [countAttempts_append, hca0]; rfl
    · rw [countCloses_append]
      have : countCloses [Event.dialed (resetLocked c1 w1).2.dials] = 0 := rfl
      omega
    · rw [countDials_append, hcd0]; rfl
  · obtain ⟨hc3, hlog⟩ := connectLocked_fail _ _ _ _ _ hcl
    have hlog2 := hlog
    rw [resetLocked_log] at hlog
    refine ⟨_, hlog.trans (List.append_assoc _ _ _), ?_, ?_, ?_, (fun h => by cases h),
      fun _ => ⟨?_, e2, ?_⟩⟩
    · rw [countAttempts_append, hca0]; rfl
    · rw [countCloses_append]
      have : countCloses [Event.dialFailed e2] = 0 := rfl
      omega
    · rw [countDials_append, hcd0]; rfl
    · show c3.conn = none
      rw [hc3]
      exact resetLocked_conn c1 w1
    · show w3.log.getLast? = some (.dialFailed e2)
      rw [hlog2]
      simp

/-- After one `sendOnce`, the client holds no connection exactly when the last
step was a failed dial. -/
theorem sendOnce_conn (lib : GoLib) (cmd : Bytes) (args : List Arg) (c : RedisClient) (w : World) :
    (sendOnce lib cmd args c w).2.1.conn = none ↔
      ∃ e, (sendOnce lib cmd args c w).2.2.log.getLast? = some (.dialFailed e) := by
  cases hc : c.conn with
  | some k =>
    rw [sendOnce_live lib cmd args c w k hc]
    obtain ⟨hw, k1, hk1, _⟩ := exchange_frame lib cmd args k { w with log := w.log ++ [.attempt] }
    rw [hw, hk1]
    simp
  | none =>
    simp only [sendOnce, hc]
    rcases hcl : connectLocked c { w with log := w.log ++ [.attempt] } with ⟨_ | e, c1, w1⟩
    · obtain ⟨⟨k, hk, _⟩, hlog, _⟩ := connectLocked_ok _ _ _ _ hcl
      simp only [hk]
      obtain ⟨hw, k1, hk1, _⟩ := exchange_frame lib cmd args k w1
      rw [hw, hk1, hlog]
      simp
    · obtain ⟨hc1, hlog⟩ := connectLocked_fail _ _ _ _ _ hcl
      simp only
      rw [hc1, hc, hlog]
      simp

/-- After a call to `do`, the client holds no connection exactly when the last
step of the call was a failed dial. -/
theorem do_conn (lib : GoLib) (cmd : Bytes) (args : List Arg) (c : RedisClient) (w : World) :
    (RedisClient.do lib cmd args c w).2.1.conn = none ↔
      ∃ e, (RedisClient.do lib cmd args c w).2.2.log.getLast? = some (.dialFailed e) := by
  rcases do_cases lib cmd args c w with ⟨hd, _⟩ | ⟨v, e, e2, _, _, hrec, hd⟩ | ⟨v, e, _, _, _, hd⟩
  · rw [hd]
    exact sendOnce_conn lib cmd args c w
  · obtain ⟨t, _, _, _, _, _, hfail⟩ := reconnect_log lib cmd args c w
    have h := hfail (by rw [hrec]; simp)
    rw [hd]
    simp only
    exact ⟨fun _ => h.2, fun _ => h.1⟩
  · rw [hd]
    exact sendOnce_conn lib cmd args _ _

theorem Contains_iff (s sub : Bytes) : Contains s sub = true ↔ ∃ a b, s = a ++ sub ++ b := by
  induction s with
  | nil =>
    simp only [Contains, List.isEmpty_iff]
    constructor
    · intro h
      exact ⟨[], [], by simp [h]⟩
    · rintro ⟨a, b, h⟩
      have := congrArg List.length h
      simp at this
      exact List.length_eq_zero.mp (by omega)
  | cons c cs ih =>
    simp only [Contains, Bool.or_eq_true, List.isPrefixOf_iff_prefix, ih]
    constructor
    · rintro (⟨b, hb⟩ | ⟨a, b, h⟩)
      · exact ⟨[], b, by simpa using hb.symm⟩
      · exact ⟨c :: a, b, by simp [h]⟩
    · rintro ⟨a, b, h⟩
      cases a with
      | nil => exact Or.inl ⟨b, by simpa using h.symm⟩
      | cons x a2 =>
        simp only [List.cons_append, List.cons.injEq] at h
        exact Or.inr ⟨a2, b, h.2⟩

/-- C11: when the first send attempt ends with no error, or with an error that
`isRetryableNetErr` classifies as not retryable, `do` returns that attempt's
value and error unchanged, with the client and the network as the attempt left
them: exactly one attempt, nothing closed; a client that held a connection
holds the same one, and no dial was made. -/
theorem C11_no_retry_returns_first_attempt (lib : GoLib) (cmd : Bytes) (args : List Arg)
    (c c1 : RedisClient) (w w1 : World) (v : Resp) (err : Option GoErr)
    (h1 : sendOnce lib cmd args c w = (.ret v err, c1, w1))
    (hr : isRetryableNetErr lib err = false) :
    RedisClient.do lib cmd args c w = (.ret v err, c1, w1) ∧
    countAttempts (RedisClient.do lib cmd args c w).2.2.log = countAttempts w.log + 1 ∧
    countCloses (RedisClient.do lib cmd args c w).2.2.log = countCloses w.log ∧
    (∀ k, c.conn = some k →
      (∃ k1, (RedisClient.do lib cmd args c w).2.1.conn = some k1 ∧ k1.id = k.id) ∧
      (RedisClient.do lib cmd args c w).2.2.log = w.log ++ [.attempt] ∧
      (RedisClient.do lib cmd args c w).2.2.dials = w.dials) := by
  have hd := do_no_retry lib cmd args c c1 w w1 v err h1 hr
  obtain ⟨d, hlog, ha, hcl, _, _⟩ := sendOnce_log lib cmd args c w
  rw [h1] at hlog
  simp only at hlog
  refine ⟨hd, ?_, ?_, ?_⟩
  · rw [hd]
    simp only
    rw [hlog, countAttempts_append, show Event.attempt :: d = [Event.attempt] ++ d from rfl,
      countAttempts_append, ha]
    rfl
  · rw [hd]
    simp only
    rw [hlog, countCloses_append, show Event.attempt :: d = [Event.attempt] ++ d from rfl,
      countCloses_append, hcl]
    rfl
  · intro k hk
    have hs := sendOnce_live lib cmd args c w k hk
    obtain ⟨hw, k1, hk1, hid⟩ := exchange_frame lib cmd args k { w with log := w.log ++ [.attempt] }
    rw [← hs, h1] at hw hk1
    simp only at hw hk1
    rw [hd]
    simp only
    exact ⟨⟨k1, hk1, hid⟩, by rw [hw], by rw [hw]⟩

theorem C11_witness :
    sendOnce asciiLib getK.1 getK.2 ⟨some (liveConn 0 ⟨ascii "-ERR no\r\n", GoErr.EOF⟩)⟩
        (steadyWorld (.ok silentPeer))
      = (.ret .nil (some (GoErr.New (ascii "ERR no"))),
         (firstAttempt asciiLib getK.1 getK.2
            ⟨some (liveConn 0 ⟨ascii "-ERR no\r\n", GoErr.EOF⟩)⟩ (steadyWorld (.ok silentPeer))).2.1,
         (firstAttempt asciiLib getK.1 getK.2
            ⟨some (liveConn 0 ⟨ascii "-ERR no\r\n", GoErr.EOF⟩)⟩ (steadyWorld (.ok silentPeer))).2.2) ∧
    isRetryableNetErr asciiLib (some (GoErr.New (ascii "ERR no"))) = false ∧
    (RedisClient.do asciiLib getK.1 getK.2 ⟨some (liveConn 0 ⟨ascii "-ERR no\r\n", GoErr.EOF⟩)⟩
        (steadyWorld (.ok silentPeer))).1 = .ret .nil (some (GoErr.New (ascii "ERR no"))) ∧
    (RedisClient.do asciiLib getK.1 getK.2 ⟨some (liveConn 0 ⟨ascii "-ERR no\r\n", GoErr.EOF⟩)⟩
        (steadyWorld (.ok silentPeer))).2.2.log = [.dialed 0, .attempt] :=
  have h := C11_no_retry_returns_first_attempt asciiLib getK.1 getK.2
    ⟨some (liveConn 0 ⟨ascii "-ERR no\r\n", GoErr.EOF⟩)⟩
    (firstAttempt asciiLib getK.1 getK.2
      ⟨some (liveConn 0 ⟨ascii "-ERR no\r\n", GoErr.EOF⟩)⟩ (steadyWorld (.ok silentPeer))).2.1
    (steadyWorld (.ok silentPeer))
    (firstAttempt asciiLib getK.1 getK.2
      ⟨some (liveConn 0 ⟨ascii "-ERR no\r\n", GoErr.EOF⟩)⟩ (steadyWorld (.ok silentPeer))).2.2
    .nil (some (GoErr.New (ascii "ERR no"))) rfl rfl
  ⟨rfl, rfl, congrArg Prod.fst h.1, (h.2.2.2 _ rfl).2.1⟩

/-- C12 as stated fails: the reply `$x\r\nstale\r\n` makes `do` return the error
of `strconv.Atoi`, which is not retryable, and the client still holds the same
connection with `stale\r\n` unread; the `do` of the image job behaves alike. -/
theorem C12_counterexample :
    (RedisClient.do asciiLib getK.1 getK.2
        ⟨some (liveConn 0 ⟨ascii "$x\r\nstale\r\n", GoErr.EOF⟩)⟩ (steadyWorld (.ok silentPeer))).1
      = .ret .nil (some (GoErr.New (ascii "strconv.Atoi: parsing \"x\": invalid syntax"))) ∧
    (RedisClient.do asciiLib getK.1 getK.2
        ⟨some (liveConn 0 ⟨ascii "$x\r\nstale\r\n", GoErr.EOF⟩)⟩
        (steadyWorld (.ok silentPeer))).2.1.conn.map (fun k => (k.id, k.inbound.data))
      = some (0, ascii "stale\r\n") ∧
    (RedisClient.do asciiLib getK.1 getK.2
        ⟨some (liveConn 0 ⟨ascii "$x\r\nstale\r\n", GoErr.EOF⟩)⟩
        (steadyWorld (.ok silentPeer))).2.2.log = [.dialed 0, .attempt] ∧
    (ImageJob.RedisClient.do asciiLib getK.1 getK.2
        ⟨some (liveConn 0 ⟨ascii "$x\r\nstale\r\n", GoErr.EOF⟩)⟩ (steadyWorld (.ok silentPeer))).1
      = .ret .nil (some (GoErr.New (ascii "strconv.Atoi: parsing \"x\": invalid syntax"))) ∧
    (ImageJob.RedisClient.do asciiLib getK.1 getK.2
        ⟨some (liveConn 0 ⟨ascii "$x\r\nstale\r\n", GoErr.EOF⟩)⟩
        (steadyWorld (.ok silentPeer))).2.1.conn.map (fun k => (k.id, k.inbound.data))
      = some (0, ascii "stale\r\n") :=
  ⟨rfl, rfl, rfl, rfl, rfl⟩

/-- C12, amended: after a call to `do`, in particular one that returns an
error, the client holds no connection exactly when the call ended with a failed
dial (the reconnect, or the first dial of a client without a connection).
Otherwise it keeps the connection its last attempt used, unread bytes included:
when the first attempt, on the connection `k` the client held or had just dialed,
ends with a result that is not retryable, `do` returns that result and the client
holds `k` with the bytes the attempt left unread, those `readResp` did not
consume, or all of them when the command could not be delivered; when the call
retries on the connection `k2` of the reconnect, the client holds `k2` with the
bytes the second attempt left unread, whatever that attempt returns.  The `do` of
the image job always leaves the client holding the connection it used, with the
bytes its one attempt left unread. -/
theorem C12_connection_after_a_call (lib : GoLib) (cmd : Bytes) (args : List Arg)
    (c : RedisClient) (w : World) :
    ((RedisClient.do lib cmd args c w).2.1.conn = none ↔
      ∃ e2, (RedisClient.do lib cmd args c w).2.2.log.getLast? = some (.dialFailed e2)) ∧
    (∀ k v err,
      (c.conn = some k ∨ (c.conn = none ∧
        (connectLocked c { w with log := w.log ++ [.attempt] }).2.1.conn = some k)) →
      (sendOnce lib cmd args c w).1 = .ret v err → isRetryableNetErr lib err = false →
      (RedisClient.do lib cmd args c w).1 = .ret v err ∧
      ∃ k1, (RedisClient.do lib cmd args c w).2.1.conn = some k1 ∧ k1.id = k.id ∧
        k1.inbound = unreadAfter lib (delivers lib cmd args k) k.inbound) ∧
    (∀ k2 v e, (sendOnce lib cmd args c w).1 = .ret v (some e) →
      isRetryableNetErr lib (some e) = true →
      (reconnect lib cmd args c w).2.1.conn = some k2 →
      ∃ k1, (RedisClient.do lib cmd args c w).2.1.conn = some k1 ∧ k1.id = k2.id ∧
        k1.inbound = unreadAfter lib (delivers lib cmd args k2) k2.inbound) ∧
    (∀ k, c.conn = some k →
      ∃ k1, (ImageJob.RedisClient.do lib cmd args c w).2.1.conn = some k1 ∧ k1.id = k.id ∧
        k1.inbound = unreadAfter lib (delivers lib cmd args k) k.inbound) := by
  refine ⟨do_conn lib cmd args c w, ?_, ?_, ?_⟩
  · intro k v err hk hs hr
    rcases hsend : sendOnce lib cmd args c w with ⟨call, c1, w1⟩
    rw [hsend] at hs
    simp only at hs
    subst hs
    have hd := do_no_retry lib cmd args c c1 w w1 v err hsend hr
    obtain ⟨k1, h1, h2, h3⟩ := sendOnce_unread lib cmd args c w k hk
    rw [hsend] at h1
    rw [hd]
    exact ⟨rfl, k1, h1, h2, h3⟩
  · intro k2 v e hs hr hk2
    rcases do_cases lib cmd args c w with ⟨_, hno⟩ | ⟨_, _, e2, _, _, hrec, _⟩ | ⟨_, _, _, _, _, hd⟩
    · have h := hno v (some e) hs
      rw [hr] at h
      cases h
    · obtain ⟨_, _, _, _, _, _, hfail⟩ := reconnect_log lib cmd args c w
      have h := (hfail (by rw [hrec]; simp)).1
      rw [hk2] at h
      cases h
    · rw [hd]
      exact sendOnce_unread lib cmd args _ _ k2 (Or.inl hk2)
  · intro k hk
    simp only [ImageJob.RedisClient.do, hk]
    exact exchange_unread lib cmd args k w

theorem C12_witness :
    staleClient.conn = some (liveConn 0 ⟨[], GoErr.EOF⟩) ∧
    (RedisClient.do asciiLib getK.1 getK.2 staleClient
        (steadyWorld (.error (GoErr.New (ascii "connect: connection refused"))))).1
      = .ret .nil (some GoErr.EOF) ∧
    (RedisClient.do asciiLib getK.1 getK.2 staleClient
        (steadyWorld (.error (GoErr.New (ascii "connect: connection refused"))))).2.1.conn = none ∧
    ((RedisClient.do asciiLib getK.1 getK.2
        ⟨some (liveConn 0 ⟨ascii "$x\r\nstale\r\n", GoErr.EOF⟩)⟩ (steadyWorld (.ok silentPeer))).1
      = .ret .nil (some (GoErr.New (ascii "strconv.Atoi: parsing \"x\": invalid syntax"))) ∧
     ∃ k1, (RedisClient.do asciiLib getK.1 getK.2
        ⟨some (liveConn 0 ⟨ascii "$x\r\nstale\r\n", GoErr.EOF⟩)⟩
        (steadyWorld (.ok silentPeer))).2.1.conn = some k1 ∧ k1.id = 0 ∧
      k1.inbound = ⟨ascii "stale\r\n", GoErr.EOF⟩) ∧
    (∃ k1, (RedisClient.do asciiLib getK.1 getK.2 staleClient
        (steadyWorld (.ok (closingPeer (ascii "$x\r\nstale\r\n"))))).2.1.conn = some k1 ∧
      k1.id = 1 ∧ k1.inbound = ⟨ascii "stale\r\n", GoErr.EOF⟩) ∧
    (∃ k1, (ImageJob.RedisClient.do asciiLib getK.1 getK.2
        ⟨some (liveConn 0 ⟨ascii "$x\r\nstale\r\n", GoErr.EOF⟩)⟩
        (steadyWorld (.ok silentPeer))).2.1.conn = some k1 ∧ k1.id = 0 ∧
      k1.inbound = ⟨ascii "stale\r\n", GoErr.EOF⟩) :=
  have h := C12_connection_after_a_call asciiLib getK.1 getK.2 staleClient
    (steadyWorld (.error (GoErr.New (ascii "connect: connection refused"))))
  have g := C12_connection_after_a_call asciiLib getK.1 getK.2
    ⟨some (liveConn 0 ⟨ascii "$x\r\nstale\r\n", GoErr.EOF⟩)⟩ (steadyWorld (.ok silentPeer))
  have r := C12_connection_after_a_call asciiLib getK.1 getK.2 staleClient
    (steadyWorld (.ok (closingPeer (ascii "$x\r\nstale\r\n"))))
  ⟨rfl, rfl, h.1.mpr ⟨_, rfl⟩,
   g.2.1 (liveConn 0 ⟨ascii "$x\r\nstale\r\n", GoErr.EOF⟩) .nil
     (some (GoErr.New (ascii "strconv.Atoi: parsing \"x\": invalid syntax"))) (Or.inl rfl) rfl rfl,
   r.2.2.1 ⟨1, ⟨ascii "$x\r\nstale\r\n", GoErr.EOF⟩, [], none, none, []⟩ .nil GoErr.EOF rfl rfl rfl,
   g.2.2.2 (liveConn 0 ⟨ascii "$x\r\nstale\r\n", GoErr.EOF⟩) rfl⟩

/-- C13: whatever the transport does, one call to `do` makes at most two send
attempts, closes at most one connection and dials at most once after its first
attempt; when there is a second attempt, the call returns exactly what that
attempt returns. -/
theorem C13_at_most_two_attempts (lib : GoLib) (cmd : Bytes) (args : List Arg) (c : RedisClient)
    (w : World) :
    ∃ t1 t2, (sendOnce lib cmd args c w).2.2.log = w.log ++ t1 ∧
      (RedisClient.do lib cmd args c w).2.2.log = w.log ++ t1 ++ t2 ∧
      countAttempts t1 = 1 ∧ countCloses t1 = 0 ∧
      countAttempts t2 ≤ 1 ∧ countCloses t2 ≤ 1 ∧ countDials t2 ≤ 1 ∧
      (countAttempts t2 = 1 →
        RedisClient.do lib cmd args c w = secondAttempt lib cmd args c w) ∧
      (countAttempts t2 = 0 → countDials t2 = 0 →
        RedisClient.do lib cmd args c w = sendOnce lib cmd args c w) := by
  obtain ⟨d, hlog, ha, hcl, _, _⟩ := sendOnce_log lib cmd args c w
  have ha1 : countAttempts (Event.attempt :: d) = 1 := by
    rw [show Event.attempt :: d = [Event.attempt] ++ d from rfl, countAttempts_append, ha]
    rfl
  have hc1 : countCloses (Event.attempt :: d) = 0 := by
    rw [show Event.attempt :: d = [Event.attempt] ++ d from rfl, countCloses_append, hcl]
    rfl
  obtain ⟨t, hrlog, hra, hrc, hrd, hrok, _⟩ := reconnect_log lib cmd args c w
  rcases do_cases lib cmd args c w with ⟨hd, _⟩ | ⟨v, e, e2, _, _, _, hd⟩ | ⟨v, e, _, _, hrec, hd⟩
  · refine ⟨_, [], hlog, by rw [hd, hlog]; simp, ha1, hc1, Nat.zero_le _, Nat.zero_le _,
      Nat.zero_le _, ?_, fun _ _ => hd⟩
    intro h
    exact absurd h (by decide)
  · refine ⟨_, t, hlog, ?_, ha1, hc1, by omega, hrc, by omega, ?_, ?_⟩
    · rw [hd]
      simp only
      rw [hrlog, hlog]
    · intro h; omega
    · intro _ h; omega
  · obtain ⟨k, hk⟩ := hrok hrec
    have h2 : (secondAttempt lib cmd args c w).2.2.log
        = (reconnect lib cmd args c w).2.2.log ++ [.attempt] := by
      show (sendOnce lib cmd args _ _).2.2.log = _
      rw [sendOnce_live lib cmd args _ _ k hk, (exchange_frame lib cmd args k _).1]
    refine ⟨_, t ++ [.attempt], hlog, ?_, ha1, hc1, ?_, ?_, ?_, fun _ => hd, ?_⟩
    · rw [hd, h2, hrlog, hlog]
      simp
    · rw [countAttempts_append, hra]
      exact Nat.le_refl _
    · rw [countCloses_append]
      have : countCloses [Event.attempt] = 0 := rfl
      omega
    · rw [countDials_append, hrd]
      exact Nat.le_refl _
    · intro _ h
      rw [countDials_append, hrd] at h
      have : countDials [Event.attempt] = 0 := rfl
      omega

/-- C14: `isRetryableNetErr` is false for the nil error; for a present error it
is true exactly when the error is or wraps end-of-stream, unexpected
end-of-stream, deadline-exceeded or closed-socket, or is a network error
reporting a timeout, or its lower-cased message has `use of closed network
connection`, `connection reset` or `broken pipe` as a substring. -/
theorem C14_isRetryableNetErr_classification (lib : GoLib) :
    isRetryableNetErr lib none = false ∧
    ∀ e : GoErr, (isRetryableNetErr lib (some e) = true ↔
      (e.isEOF = true ∨ e.isUnexpectedEOF = true ∨ e.isDeadlineExceeded = true ∨
       e.isNetClosed = true ∨ e.netTimeout = true ∨
       (∃ a b, lib.ToLower e.msg = a ++ ascii "use of closed network connection" ++ b) ∨
       (∃ a b, lib.ToLower e.msg = a ++ ascii "connection reset" ++ b) ∨
       (∃ a b, lib.ToLower e.msg = a ++ ascii "broken pipe" ++ b))) := by
  refine ⟨rfl, ?_⟩
  intro e
  rw [← Contains_iff, ← Contains_iff, ← Contains_iff]
  obtain ⟨msg, f1, f2, f3, f4, f5⟩ := e
  cases f1 <;> cases f2 <;> cases f3 <;> cases f4 <;> cases f5 <;>
    simp [isRetryableNetErr, or_assoc]

/-! ## Typed operations -/

theorem lookup_filter_ne (m : GoMap) (k f : Bytes) (h : f ≠ k) :
    List.lookup f (m.filter (fun p => p.1 ≠ k)) = List.lookup f m := by
  induction m with
  | nil => rfl
  | cons p rest ih =>
    obtain ⟨a, b⟩ := p
    have hfk : (f == k) = false := beq_false_of_ne h
    by_cases hak : a = k
    · subst hak
      simp only [List.filter, ne_eq, not_true_eq_false, decide_False, List.lookup, hfk]
      exact ih
    · simp only [List.filter, hak, ne_eq, not_false_eq_true, decide_True, List.lookup]
      rw [ih]

theorem GoMap.get_set (m : GoMap) (k v f : Bytes) :
    (m.set k v).get f = if f = k then some v else m.get f := by
  unfold GoMap.get GoMap.set
  by_cases h : f = k
  · simp [List.lookup, h]
  · have hb : (f == k) = false := beq_false_of_ne h
    simp only [List.lookup, hb, h, if_false]
    exact lookup_filter_ne m k f h

theorem hgetallLoop_pairs (pairs : List (Bytes × Bytes)) : ∀ out : GoMap,
    ∃ m, hgetallLoop (pairsReply pairs) out = .ret (some m) none ∧
      ∀ f, m.get f = (match lastValue pairs f with
                      | some v => some v
                      | none => out.get f) := by
  induction pairs with
  | nil =>
    intro out
    exact ⟨out, rfl, fun f => rfl⟩
  | cons p rest ih =>
    intro out
    obtain ⟨m, hm, hget⟩ := ih (out.set p.1 p.2)
    refine ⟨m, ?_, ?_⟩
    · simpa [pairsReply, hgetallLoop] using hm
    · intro f
      rw [hget f, GoMap.get_set]
      simp only [lastValue]
      cases lastValue rest f with
      | some v => rfl
      | none =>
        by_cases h : f = p.1
        · simp [h]
        · have h2 : ¬ p.1 = f := fun e => h e.symm
          simp [h, h2]

theorem pairsReply_length (pairs : List (Bytes × Bytes)) :
    (pairsReply pairs).length = 2 * pairs.length := by
  induction pairs with
  | nil => rfl
  | cons p rest ih =>
    simp only [pairsReply, List.map_cons, List.flatten_cons, List.length_append,
      List.length_cons, List.length_nil] at ih ⊢
    omega

theorem hgetallLoop_notBulk : ∀ (n : Nat) (items : List Resp) (out : GoMap),
    items.length = 2 * n → (∃ x ∈ items, notBulk x = true) →
    ∃ e, hgetallLoop items out = .ret none (some e) := by
  intro n
  induction n with
  | zero =>
    intro items out hlen hx
    have : items = [] := List.length_eq_zero.mp (by omega)
    obtain ⟨x, hx, _⟩ := hx
    rw [this] at hx
    cases hx
  | succ n ih =>
    intro items out hlen hx
    match items, hlen, hx with
    | [], hlen, _ => simp at hlen
    | [_], hlen, _ => simp at hlen; omega
    | kb :: vb :: rest, hlen, hx =>
      have hrest : rest.length = 2 * n := by
        simp only [List.length_cons] at hlen
        omega
      cases kb with
      | bulk k =>
        cases vb with
        | bulk v =>
          obtain ⟨x, hmem, hnb⟩ := hx
          have hx2 : ∃ x ∈ rest, notBulk x = true := by
            rcases List.mem_cons.mp hmem with rfl | hmem
            · simp [notBulk] at hnb
            · rcases List.mem_cons.mp hmem with rfl | hmem
              · simp [notBulk] at hnb
              · exact ⟨x, hmem, hnb⟩
          simp only [hgetallLoop]
          exact ih rest _ hrest hx2
        | str _ => exact ⟨_, rfl⟩
        | int _ => exact ⟨_, rfl⟩
        | nil => exact ⟨_, rfl⟩
        | arr _ => exact ⟨_, rfl⟩
      | str _ => exact ⟨_, rfl⟩
      | int _ => exact ⟨_, rfl⟩
      | nil => exact ⟨_, rfl⟩
      | arr _ => exact ⟨_, rfl⟩

theorem zrevrangeLoop_bulk (bs : List Bytes) : ∀ out : List Bytes,
    zrevrangeLoop (bs.map Resp.bulk) out = .ret (some (out ++ bs)) none := by
  induction bs with
  | nil => intro out; simp [zrevrangeLoop]
  | cons b rest ih =>
    intro out
    simp only [List.map_cons, zrevrangeLoop]
    rw [ih]
    simp

theorem zrevrangeLoop_notBulk (items : List Resp) : ∀ out : List Bytes,
    (∃ x ∈ items, notBulk x = true) → ∃ e, zrevrangeLoop items out = .ret none (some e) := by
  induction items with
  | nil =>
    intro out hx
    obtain ⟨x, hx, _⟩ := hx
    cases hx
  | cons it rest ih =>
    intro out hx
    cases it with
    | bulk b =>
      obtain ⟨x, hmem, hnb⟩ := hx
      have hx2 : ∃ x ∈ rest, notBulk x = true := by
        rcases List.mem_cons.mp hmem with rfl | hmem
        · simp [notBulk] at hnb
        · exact ⟨x, hmem, hnb⟩
      simp only [zrevrangeLoop]
      exact ih _ hx2
    | str _ => exact ⟨_, rfl⟩
    | int _ => exact ⟨_, rfl⟩
    | nil => exact ⟨_, rfl⟩
    | arr _ => exact ⟨_, rfl⟩

theorem pairsReply_of_all_bulk : ∀ (n : Nat) (items : List Resp), items.length = 2 * n →
    (∀ x ∈ items, notBulk x = false) → ∃ pairs, items = pairsReply pairs := by
  intro n
  induction n with
  | zero =>
    intro items hlen _
    exact ⟨[], List.length_eq_zero.mp (by omega)⟩
  | succ n ih =>
    intro items hlen hb
    match items, hlen, hb with
    | [], hlen, _ => simp at hlen
    | [_], hlen, _ => simp at hlen; omega
    | kb :: vb :: rest, hlen, hb =>
      have hrest : rest.length = 2 * n := by
        simp only [List.length_cons] at hlen
        omega
      obtain ⟨pairs, hp⟩ := ih rest hrest
        (fun x hx => hb x (List.mem_cons_of_mem _ (List.mem_cons_of_mem _ hx)))
      have hk := hb kb (List.mem_cons_self _ _)
      have hv := hb vb (List.mem_cons_of_mem _ (List.mem_cons_self _ _))
      cases kb <;> simp [notBulk] at hk
      cases vb <;> simp [notBulk] at hv
      rename_i k v
      exact ⟨(k, v) :: pairs, by simp [pairsReply, hp]⟩

theorem pairsReply_getElem (pairs : List (Bytes × Bytes)) : ∀ (i : Nat) (p : Bytes × Bytes),
    pairs[i]? = some p →
    (pairsReply pairs)[2 * i]? = some (.bulk p.1) ∧
    (pairsReply pairs)[2 * i + 1]? = some (.bulk p.2) := by
  induction pairs with
  | nil => intro i p h; simp at h
  | cons q rest ih =>
    intro i p h
    cases i with
    | zero =>
      simp only [List.getElem?_cons_zero, Option.some.injEq] at h
      subst h
      simp [pairsReply]
    | succ j =>
      simp only [List.getElem?_cons_succ] at h
      have := ih j p h
      have e1 : 2 * (j + 1) = (2 * j) + 1 + 1 := by omega
      rw [e1]
      simpa [pairsReply] using this

/-- C15: for every array reply with an odd number of elements, `HGetAll` returns
an error and no mapping. -/
theorem C15_HGetAll_odd_array_is_an_error (lib : GoLib) (key : Bytes) (c c1 : RedisClient)
    (w w1 : World) (items : List Resp)
    (hd : RedisClient.do lib (ascii "HGETALL") [.str key] c w = (.ret (.arr items) none, c1, w1))
    (hodd : items.length % 2 = 1) :
    ∃ e, RedisClient.HGetAll lib key c w = (.ret none (some e), c1, w1) ∧
      e.msg = ascii "HGETALL: expected even array length, got " ++ decimal items.length := by
  refine ⟨GoErr.New (ascii "HGETALL: expected even array length, got " ++ Itoa items.length),
    ?_, ?_⟩
  · simp only [RedisClient.HGetAll, hd]
    rw [if_pos (by omega)]
  · simp [GoErr.New, Itoa_natCast]

theorem C15_witness :
    RedisClient.do asciiLib (ascii "HGETALL") [.str (ascii "h")]
        ⟨some (liveConn 0 ⟨ascii "*3\r\n$1\r\na\r\n$1\r\n1\r\n$1\r\nb\r\n", GoErr.EOF⟩)⟩
        (steadyWorld (.ok silentPeer))
      = (.ret (.arr [.bulk (ascii "a"), .bulk (ascii "1"), .bulk (ascii "b")]) none,
         (RedisClient.do asciiLib (ascii "HGETALL") [.str (ascii "h")]
            ⟨some (liveConn 0 ⟨ascii "*3\r\n$1\r\na\r\n$1\r\n1\r\n$1\r\nb\r\n", GoErr.EOF⟩)⟩
            (steadyWorld (.ok silentPeer))).2.1,
         (RedisClient.do asciiLib (ascii "HGETALL") [.str (ascii "h")]
            ⟨some (liveConn 0 ⟨ascii "*3\r\n$1\r\na\r\n$1\r\n1\r\n$1\r\nb\r\n", GoErr.EOF⟩)⟩
            (steadyWorld (.ok silentPeer))).2.2) ∧
    [Resp.bulk (ascii "a"), .bulk (ascii "1"), .bulk (ascii "b")].length % 2 = 1 ∧
    ∃ e, RedisClient.HGetAll asciiLib (ascii "h")
        ⟨some (liveConn 0 ⟨ascii "*3\r\n$1\r\na\r\n$1\r\n1\r\n$1\r\nb\r\n", GoErr.EOF⟩)⟩
        (steadyWorld (.ok silentPeer))
      = (.ret none (some e),
         (RedisClient.do asciiLib (ascii "HGETALL") [.str (ascii "h")]
            ⟨some (liveConn 0 ⟨ascii "*3\r\n$1\r\na\r\n$1\r\n1\r\n$1\r\nb\r\n", GoErr.EOF⟩)⟩
            (steadyWorld (.ok silentPeer))).2.1,
         (RedisClient.do asciiLib (ascii "HGETALL") [.str (ascii "h")]
            ⟨some (liveConn 0 ⟨ascii "*3\r\n$1\r\na\r\n$1\r\n1\r\n$1\r\nb\r\n", GoErr.EOF⟩)⟩
            (steadyWorld (.ok silentPeer))).2.2) ∧
      e.msg = ascii "HGETALL: expected even array length, got " ++
        decimal [Resp.bulk (ascii "a"), .bulk (ascii "1"), .bulk (ascii "b")].length :=
  ⟨rfl, rfl,
   C15_HGetAll_odd_array_is_an_error asciiLib (ascii "h")
     ⟨some (liveConn 0 ⟨ascii "*3\r\n$1\r\na\r\n$1\r\n1\r\n$1\r\nb\r\n", GoErr.EOF⟩)⟩ _
     (steadyWorld (.ok silentPeer)) _ [.bulk (ascii "a"), .bulk (ascii "1"), .bulk (ascii "b")]
     rfl rfl⟩

/-- C16: when the reply is the array that alternates the fields and values of
`pairs` (element `2i` the field, element `2i+1` the value of pair `i`), `HGetAll`
returns without error the mapping that gives every field the value of the last
pair with that field and holds no other field; every array of even length whose
elements are all bulk strings is such a reply; and when some element of the
array is not a bulk string the call fails. -/
theorem C16_HGetAll_builds_the_mapping (lib : GoLib) (key : Bytes) (c c1 : RedisClient)
    (w w1 : World) (items : List Resp)
    (hd : RedisClient.do lib (ascii "HGETALL") [.str key] c w = (.ret (.arr items) none, c1, w1)) :
    (∀ pairs, items = pairsReply pairs →
      (∃ m, RedisClient.HGetAll lib key c w = (.ret (some m) none, c1, w1) ∧
        ∀ f, m.get f = lastValue pairs f) ∧
      items.length = 2 * pairs.length ∧
      ∀ i p, pairs[i]? = some p →
        items[2 * i]? = some (.bulk p.1) ∧ items[2 * i + 1]? = some (.bulk p.2)) ∧
    (items.length % 2 = 0 → (∀ x ∈ items, notBulk x = false) →
      ∃ pairs, items = pairsReply pairs) ∧
    ((∃ x ∈ items, notBulk x = true) →
      ∃ e, RedisClient.HGetAll lib key c w = (.ret none (some e), c1, w1)) := by
  refine ⟨?_, ?_, ?_⟩
  · intro pairs hp
    subst hp
    refine ⟨?_, pairsReply_length pairs, pairsReply_getElem pairs⟩
    obtain ⟨m, hm, hget⟩ := hgetallLoop_pairs pairs []
    refine ⟨m, ?_, ?_⟩
    · simp only [RedisClient.HGetAll, hd]
      rw [if_neg (by rw [pairsReply_length]; omega), hm]
    · intro f
      rw [hget f]
      cases lastValue pairs f <;> rfl
  · intro heven hb
    exact pairsReply_of_all_bulk (items.length / 2) items (by omega) hb
  · intro hx
    simp only [RedisClient.HGetAll, hd]
    by_cases hodd : items.length % 2 ≠ 0
    · rw [if_pos hodd]
      exact ⟨_, rfl⟩
    · rw [if_neg hodd]
      obtain ⟨e, he⟩ := hgetallLoop_notBulk (items.length / 2) items [] (by omega) hx
      exact ⟨e, by rw [he]⟩

theorem C16_witness :
    RedisClient.do asciiLib (ascii "HGETALL") [.str (ascii "h")]
        ⟨some (liveConn 0 ⟨ascii "*4\r\n$1\r\na\r\n$1\r\n1\r\n$1\r\na\r\n$1\r\n2\r\n", GoErr.EOF⟩)⟩
        (steadyWorld (.ok silentPeer))
      = (.ret (.arr (pairsReply [(ascii "a", ascii "1"), (ascii "a", ascii "2")])) none,
         (RedisClient.do asciiLib (ascii "HGETALL") [.str (ascii "h")]
            ⟨some (liveConn 0 ⟨ascii "*4\r\n$1\r\na\r\n$1\r\n1\r\n$1\r\na\r\n$1\r\n2\r\n", GoErr.EOF⟩)⟩
            (steadyWorld (.ok silentPeer))).2.1,
         (RedisClient.do asciiLib (ascii "HGETALL") [.str (ascii "h")]
            ⟨some (liveConn 0 ⟨ascii "*4\r\n$1\r\na\r\n$1\r\n1\r\n$1\r\na\r\n$1\r\n2\r\n", GoErr.EOF⟩)⟩
            (steadyWorld (.ok silentPeer))).2.2) ∧
    (RedisClient.HGetAll asciiLib (ascii "h")
        ⟨some (liveConn 0 ⟨ascii "*4\r\n$1\r\na\r\n$1\r\n1\r\n$1\r\na\r\n$1\r\n2\r\n", GoErr.EOF⟩)⟩
        (steadyWorld (.ok silentPeer))).1 = .ret (some [(ascii "a", ascii "2")]) none ∧
    lastValue [(ascii "a", ascii "1"), (ascii "a", ascii "2")] (ascii "a") = some (ascii "2") ∧
    ∃ m, RedisClient.HGetAll asciiLib (ascii "h")
        ⟨some (liveConn 0 ⟨ascii "*4\r\n$1\r\na\r\n$1\r\n1\r\n$1\r\na\r\n$1\r\n2\r\n", GoErr.EOF⟩)⟩
        (steadyWorld (.ok silentPeer))
      = (.ret (some m) none,
         (RedisClient.do asciiLib (ascii "HGETALL") [.str (ascii "h")]
            ⟨some (liveConn 0 ⟨ascii "*4\r\n$1\r\na\r\n$1\r\n1\r\n$1\r\na\r\n$1\r\n2\r\n", GoErr.EOF⟩)⟩
            (steadyWorld (.ok silentPeer))).2.1,
         (RedisClient.do asciiLib (ascii "HGETALL") [.str (ascii "h")]
            ⟨some (liveConn 0 ⟨ascii "*4\r\n$1\r\na\r\n$1\r\n1\r\n$1\r\na\r\n$1\r\n2\r\n", GoErr.EOF⟩)⟩
            (steadyWorld (.ok silentPeer))).2.2) ∧
      ∀ f, m.get f = lastValue [(ascii "a", ascii "1"), (ascii "a", ascii "2")] f :=
  ⟨rfl, rfl, rfl,
   ((C16_HGetAll_builds_the_mapping asciiLib (ascii "h")
     ⟨some (liveConn 0 ⟨ascii "*4\r\n$1\r\na\r\n$1\r\n1\r\n$1\r\na\r\n$1\r\n2\r\n", GoErr.EOF⟩)⟩ _
     (steadyWorld (.ok silentPeer)) _
     (pairsReply [(ascii "a", ascii "1"), (ascii "a", ascii "2")]) rfl).1 _ rfl).1⟩

/-- C17: when the reply is an array whose elements are all bulk strings,
`ZRevRange` returns without error those elements, as many and in the reply's
order; when some element of the array is not a bulk string, or the reply is not
an array, the call fails. -/
theorem C17_ZRevRange_returns_members_in_order (lib : GoLib) (key : Bytes) (start stop : Int)
    (c c1 : RedisClient) (w w1 : World) (v : Resp)
    (hd : RedisClient.do lib (ascii "ZREVRANGE") [.str key, .str (Itoa start), .str (Itoa stop)] c w
      = (.ret v none, c1, w1)) :
    (∀ bs : List Bytes, v = .arr (bs.map Resp.bulk) →
      RedisClient.ZRevRange lib key start stop c w = (.ret (some bs) none, c1, w1)) ∧
    (∀ items, v = .arr items → (∃ x ∈ items, notBulk x = true) →
      ∃ e, RedisClient.ZRevRange lib key start stop c w = (.ret none (some e), c1, w1)) ∧
    ((∀ items, v ≠ .arr items) →
      ∃ e, RedisClient.ZRevRange lib key start stop c w = (.ret none (some e), c1, w1)) := by
  refine ⟨?_, ?_, ?_⟩
  · intro bs hv
    subst hv
    simp only [RedisClient.ZRevRange, hd]
    rw [zrevrangeLoop_bulk]
    simp
  · intro items hv hx
    subst hv
    simp only [RedisClient.ZRevRange, hd]
    obtain ⟨e, he⟩ := zrevrangeLoop_notBulk items [] hx
    exact ⟨e, by rw [he]⟩
  · intro hv
    simp only [RedisClient.ZRevRange, hd]
    cases v with
    | arr items => exact absurd rfl (hv items)
    | str _ => exact ⟨_, rfl⟩
    | int _ => exact ⟨_, rfl⟩
    | bulk _ => exact ⟨_, rfl⟩
    | nil => exact ⟨_, rfl⟩

theorem C17_witness :
    RedisClient.do asciiLib (ascii "ZREVRANGE") [.str (ascii "z"), .str (Itoa 0), .str (Itoa 2)]
        ⟨some (liveConn 0 ⟨ascii "*3\r\n$1\r\nc\r\n$1\r\nb\r\n$1\r\na\r\n", GoErr.EOF⟩)⟩
        (steadyWorld (.ok silentPeer))
      = (.ret (.arr ([ascii "c", ascii "b", ascii "a"].map Resp.bulk)) none,
         (RedisClient.do asciiLib (ascii "ZREVRANGE") [.str (ascii "z"), .str (Itoa 0), .str (Itoa 2)]
            ⟨some (liveConn 0 ⟨ascii "*3\r\n$1\r\nc\r\n$1\r\nb\r\n$1\r\na\r\n", GoErr.EOF⟩)⟩
            (steadyWorld (.ok silentPeer))).2.1,
         (RedisClient.do asciiLib (ascii "ZREVRANGE") [.str (ascii "z"), .str (Itoa 0), .str (Itoa 2)]
            ⟨some (liveConn 0 ⟨ascii "*3\r\n$1\r\nc\r\n$1\r\nb\r\n$1\r\na\r\n", GoErr.EOF⟩)⟩
            (steadyWorld (.ok silentPeer))).2.2) ∧
    RedisClient.ZRevRange asciiLib (ascii "z") 0 2
        ⟨some (liveConn 0 ⟨ascii "*3\r\n$1\r\nc\r\n$1\r\nb\r\n$1\r\na\r\n", GoErr.EOF⟩)⟩
        (steadyWorld (.ok silentPeer))
      = (.ret (some [ascii "c", ascii "b", ascii "a"]) none,
         (RedisClient.do asciiLib (ascii "ZREVRANGE") [.str (ascii "z"), .str (Itoa 0), .str (Itoa 2)]
            ⟨some (liveConn 0 ⟨ascii "*3\r\n$1\r\nc\r\n$1\r\nb\r\n$1\r\na\r\n", GoErr.EOF⟩)⟩
            (steadyWorld (.ok silentPeer))).2.1,
         (RedisClient.do asciiLib (ascii "ZREVRANGE") [.str (ascii "z"), .str (Itoa 0), .str (Itoa 2)]
            ⟨some (liveConn 0 ⟨ascii "*3\r\n$1\r\nc\r\n$1\r\nb\r\n$1\r\na\r\n", GoErr.EOF⟩)⟩
            (steadyWorld (.ok silentPeer))).2.2) :=
  ⟨rfl,
   (C17_ZRevRange_returns_members_in_order asciiLib (ascii "z") 0 2
     ⟨some (liveConn 0 ⟨ascii "*3\r\n$1\r\nc\r\n$1\r\nb\r\n$1\r\na\r\n", GoErr.EOF⟩)⟩ _
     (steadyWorld (.ok silentPeer)) _ _ rfl).1 [ascii "c", ascii "b", ascii "a"] rfl⟩

/-- C18: `Set` issues the command `SET` with the arguments `key`, `value`, `EX`,
`decimal(ttlSeconds)` when `ttlSeconds > 0` and with `key`, `value` alone
otherwise; the value is a `[]byte` argument and reaches the wire as the bulk
frame of its bytes, unchanged. -/
theorem C18_Set_arguments (lib : GoLib) (key value : Bytes) (ttlSeconds : Int) (c : RedisClient)
    (w : World) :
    RedisClient.Set lib key value ttlSeconds c w
      = errOnly (RedisClient.do lib (ascii "SET")
          (if ttlSeconds > 0 then
             [.str key, .bytes value, .str (ascii "EX"), .str (decimal ttlSeconds.toNat)]
           else [.str key, .bytes value]) c w) ∧
    encodeCommand lib (ascii "SET") (setArgs key value ttlSeconds)
      = commandFrame (lib.ToUpper (ascii "SET"))
          (if ttlSeconds > 0 then [key, value, ascii "EX", decimal ttlSeconds.toNat]
           else [key, value]) := by
  have hargs : setArgs key value ttlSeconds
      = (if ttlSeconds > 0 then
           [.str key, .bytes value, .str (ascii "EX"), .str (decimal ttlSeconds.toNat)]
         else [.str key, .bytes value]) := by
    unfold setArgs
    by_cases h : ttlSeconds > 0
    · have hI : Itoa ttlSeconds = decimal ttlSeconds.toNat := by
        rw [← Itoa_natCast]
        congr 1
        omega
      simp [h, hI]
    · simp [h]
  refine ⟨by rw [RedisClient.Set, hargs], ?_⟩
  rw [encodeCommand_eq, hargs]
  by_cases h : ttlSeconds > 0
  · simp [h, toString]
  · simp [h, toString]

/-- C19 fails on the code: on the header `$-2\r\n` the call `make([]byte, n)`
panics, and on `*-2\r\n` the call `make([]any, 0, n)` panics; `readResp`
returns neither a value nor an error. -/
theorem C19_readResp_panics_on_length_below_minus_one (lib : GoLib) (rest : Bytes) (fin : GoErr) :
    readResp lib ⟨[36, 45, 50] ++ CRLF ++ rest, fin⟩
      = .panic "runtime error: makeslice: len out of range" ∧
    readResp lib ⟨[42, 45, 50] ++ CRLF ++ rest, fin⟩
      = .panic "runtime error: makeslice: cap out of range" := by
  have ha : Atoi lib [45, 50] = .ok (-2) := by
    unfold Atoi
    rw [show parseIntCore [45, 50] = .ok (-2) from rfl]
  have hb := makeslice_bytes_refused (-2) (Or.inl (by decide)) (by decide) (by decide)
  have hc := makeslice_anys_refused (-2) (Or.inl (by decide)) (by decide) (by decide)
  constructor
  · have hl : (10 : Nat) ∉ [36, 45, 50] := by decide
    rw [readResp_eq]
    unfold readRespBody
    rw [readLine_line _ _ _ hl]
    simp [ha, readBulk, hb]
  · have hl : (10 : Nat) ∉ [42, 45, 50] := by decide
    rw [readResp_eq]
    unfold readRespBody
    rw [readLine_line _ _ _ hl]
    simp [ha, readArray, hc]

/-! ## Image transforms -/

theorem getPix_nat (p : List Nat) (n : Nat) : getPix p (n : Int) = p[n]? := by
  unfold getPix
  rw [if_pos (by omega)]
  rfl

theorem setPix_nat (p : List Nat) (n v : Nat) (h : n < p.length) :
    setPix p (n : Int) v = some (p.set n v) := by
  unfold setPix
  rw [if_pos ⟨by omega, by simpa using h⟩]
  rfl

theorem pixelStep_spec (f : Nat → Nat → Nat → Nat → Nat × Nat × Nat × Nat) (src dst : List Nat)
    (q : Nat) (hs : 4 * q + 4 ≤ src.length) (hd : 4 * q + 4 ≤ dst.length) :
    ∃ d, pixelStep f src dst ((4 * q : Nat) : Int) = some d ∧ d.length = dst.length ∧
      ∀ k, d[k]? = if 4 * q ≤ k ∧ k < 4 * q + 4 then expectedByte f src k else dst[k]? := by
  have e1 : ((4 * q : Nat) : Int) + 1 = ((4 * q + 1 : Nat) : Int) := by push_cast; rfl
  have e2 : ((4 * q : Nat) : Int) + 2 = ((4 * q + 2 : Nat) : Int) := by push_cast; rfl
  have e3 : ((4 * q : Nat) : Int) + 3 = ((4 * q + 3 : Nat) : Int) := by push_cast; rfl
  obtain ⟨r, hr⟩ : ∃ r, src[4 * q]? = some r := ⟨_, List.getElem?_eq_getElem (by omega)⟩
  obtain ⟨g, hg⟩ : ∃ g, src[4 * q + 1]? = some g := ⟨_, List.getElem?_eq_getElem (by omega)⟩
  obtain ⟨bl, hb⟩ : ∃ bl, src[4 * q + 2]? = some bl := ⟨_, List.getElem?_eq_getElem (by omega)⟩
  obtain ⟨a, ha⟩ : ∃ a, src[4 * q + 3]? = some a := ⟨_, List.getElem?_eq_getElem (by omega)⟩
  refine ⟨(((dst.set (4 * q) (f r g bl a).1).set (4 * q + 1) (f r g bl a).2.1).set (4 * q + 2)
    (f r g bl a).2.2.1).set (4 * q + 3) (f r g bl a).2.2.2, ?_, by simp, ?_⟩
  · unfold pixelStep
    rw [e1, e2, e3, getPix_nat, getPix_nat, getPix_nat, getPix_nat, hr, hg, hb, ha]
    simp only
    rw [setPix_nat _ _ _ (by omega)]
    simp only
    rw [setPix_nat _ _ _ (by simp; omega)]
    simp only
    rw [setPix_nat _ _ _ (by simp; omega)]
    simp only
    rw [setPix_nat _ _ _ (by simp; omega)]
  · intro k
    by_cases hk : 4 * q ≤ k ∧ k < 4 * q + 4
    · rw [if_pos hk]
      have hbase : k - k % 4 = 4 * q := by omega
      unfold expectedByte
      rw [hbase, hr, hg, hb, ha]
      simp only
      have hcases : k = 4 * q ∨ k = 4 * q + 1 ∨ k = 4 * q + 2 ∨ k = 4 * q + 3 := by omega
      rcases hcases with h | h | h | h
      · subst h
        have hm : 4 * q % 4 = 0 := by omega
        simp [List.getElem?_set, hm]
        omega
      · subst h
        have hm : (4 * q + 1) % 4 = 1 := by omega
        simp [List.getElem?_set, hm]
        omega
      · subst h
        have hm : (4 * q + 2) % 4 = 2 := by omega
        simp [List.getElem?_set, hm]
        omega
      · subst h
        have hm : (4 * q + 3) % 4 = 3 := by omega
        simp [List.getElem?_set, hm]
        omega
    · rw [if_neg hk]
      have h0 : 4 * q ≠ k := by omega
      have h1 : 4 * q + 1 ≠ k := by omega
      have h2 : 4 * q + 2 ≠ k := by omega
      have h3 : 4 * q + 3 ≠ k := by omega
      simp [List.getElem?_set, h0, h1, h2, h3]

theorem rowLoop_spec (f : Nat → Nat → Nat → Nat → Nat × Nat × Nat × Nat) (src : List Nat) :
    ∀ (n q : Nat) (dst : List Nat), 4 * (q + n) ≤ src.length → 4 * (q + n) ≤ dst.length →
    ∃ d, rowLoop f src n ((4 * q : Nat) : Int) dst = some d ∧ d.length = dst.length ∧
      ∀ k, d[k]? = if 4 * q ≤ k ∧ k < 4 * (q + n) then expectedByte f src k else dst[k]? := by
  intro n
  induction n with
  | zero =>
    intro q dst _ _
    refine ⟨dst, rfl, rfl, ?_⟩
    intro k
    rw [if_neg (by omega)]
  | succ n ih =>
    intro q dst hs hd
    obtain ⟨d1, h1, hl1, hk1⟩ := pixelStep_spec f src dst q (by omega) (by omega)
    obtain ⟨d2, h2, hl2, hk2⟩ := ih (q + 1) d1 (by omega) (by omega)
    have e : ((4 * q : Nat) : Int) + 4 = ((4 * (q + 1) : Nat) : Int) := by push_cast; ring
    refine ⟨d2, ?_, by rw [hl2, hl1], ?_⟩
    · unfold rowLoop
      rw [h1]
      simp only
      rw [e]
      exact h2
    · intro k
      rw [hk2 k, hk1 k]
      by_cases ha : 4 * (q + 1) ≤ k ∧ k < 4 * (q + 1 + n)
      · rw [if_pos ha, if_pos (by omega)]
      · rw [if_neg ha]
        by_cases hb : 4 * q ≤ k ∧ k < 4 * q + 4
        · rw [if_pos hb, if_pos (by omega)]
        · rw [if_neg hb, if_neg (by omega)]

theorem imageLoop_spec (f : Nat → Nat → Nat → Nat → Nat × Nat × Nat × Nat) (src : List Nat)
    (w : Nat) :
    ∀ (m row : Nat) (dst : List Nat), 4 * w * (row + m) ≤ src.length →
      4 * w * (row + m) ≤ dst.length →
    ∃ d, imageLoop f src ((4 * w : Nat) : Int) w m row dst = some d ∧ d.length = dst.length ∧
      ∀ k, d[k]? = if 4 * w * row ≤ k ∧ k < 4 * w * (row + m) then expectedByte f src k
                   else dst[k]? := by
  intro m
  induction m with
  | zero =>
    intro row dst _ _
    refine ⟨dst, rfl, rfl, ?_⟩
    intro k
    rw [if_neg (by simp)]
  | succ m ih =>
    intro row dst hs hd
    have hexp : 4 * w * (row + (m + 1)) = 4 * w * row + 4 * w + 4 * w * m := by ring
    have hexp2 : 4 * w * (row + 1 + m) = 4 * w * row + 4 * w + 4 * w * m := by ring
    have hexp3 : 4 * (w * row + w) = 4 * w * row + 4 * w := by ring
    have hexp4 : 4 * (w * row) = 4 * w * row := by ring
    have hexp5 : 4 * w * (row + 1) = 4 * w * row + 4 * w := by ring
    obtain ⟨d1, h1, hl1, hk1⟩ := rowLoop_spec f src w (w * row) dst (by omega) (by omega)
    obtain ⟨d2, h2, hl2, hk2⟩ := ih (row + 1) d1 (by omega) (by omega)
    have e : (row : Int) * ((4 * w : Nat) : Int) = ((4 * (w * row) : Nat) : Int) := by
      push_cast; ring
    refine ⟨d2, ?_, by rw [hl2, hl1], ?_⟩
    · unfold imageLoop
      rw [e, h1]
      exact h2
    · intro k
      rw [hk2 k, hk1 k]
      by_cases ha : 4 * w * (row + 1) ≤ k ∧ k < 4 * w * (row + 1 + m)
      · rw [if_pos ha, if_pos (by omega)]
      · rw [if_neg ha]
        by_cases hb : 4 * (w * row) ≤ k ∧ k < 4 * (w * row + w)
        · rw [if_pos hb, if_pos (by omega)]
        · rw [if_neg hb, if_neg (by omega)]

/-- On an image whose stride is four times its width, the pixel loop of
`toGrayscale` succeeds and leaves at every index the byte its transform gives. -/
theorem toGrayscale_spec (src : NRGBA) (w h : Nat)
    (hw : src.Rect.maxX - src.Rect.minX = (w : Int))
    (hh : src.Rect.maxY - src.Rect.minY = (h : Int))
    (hs : src.Stride = 4 * (w : Int))
    (hlen : 4 * w * h ≤ src.Pix.length) (hmax : src.Pix.length < 2 ^ 63) :
    ∃ out, toGrayscale src = some out ∧ out.Rect = src.Rect ∧ out.Stride = 4 * (w : Int) ∧
      out.Pix.length = 4 * w * h ∧
      ∀ k, k < 4 * w * h → out.Pix[k]? = expectedByte grayPixel src.Pix k := by
  have hnew : NewNRGBA src.Rect
      = some ⟨List.replicate (4 * w * h) 0, 4 * (w : Int), src.Rect⟩ := by
    unfold NewNRGBA
    rw [hw, hh]
    have hbig : ¬ (4 * (w : Int) * (h : Int) ≥ 2 ^ 63) := by
      have : ((4 * w * h : Nat) : Int) < 2 ^ 63 := by
        have : 4 * w * h < 2 ^ 63 := by omega
        exact_mod_cast this
      push_cast at this
      omega
    rw [if_neg (by omega)]
    simp
  have hst : src.Stride = ((4 * w : Nat) : Int) := by rw [hs]; push_cast; rfl
  obtain ⟨d, hd, hl, hk⟩ := imageLoop_spec grayPixel src.Pix w h 0 (List.replicate (4 * w * h) 0)
    (by simpa using hlen) (by simp)
  refine ⟨{ Pix := d, Stride := 4 * (w : Int), Rect := src.Rect }, ?_, rfl, rfl, ?_, ?_⟩
  · unfold toGrayscale
    rw [hnew, hw, hh, hst]
    simp only [Int.toNat_ofNat]
    rw [hd]
  · simpa using hl
  · intro k hk4
    show d[k]? = _
    rw [hk k, if_pos ⟨by omega, by simpa using hk4⟩]

theorem grayPixel_bytes (r g bl a : Nat) (hr : r < 256) (hg : g < 256) (hb : bl < 256) :
    grayPixel r g bl a = (luma r g bl, luma r g bl, luma r g bl, a) ∧ luma r g bl ≤ 255 := by
  have h1 : (299 * r + 587 * g + 114 * bl + 500) % 2 ^ 32 = 299 * r + 587 * g + 114 * bl + 500 :=
    Nat.mod_eq_of_lt (by omega)
  have h2 : (299 * r + 587 * g + 114 * bl + 500) / 1000 ≤ 255 := by omega
  have h3 : (299 * r + 587 * g + 114 * bl + 500) / 1000 % 256
      = (299 * r + 587 * g + 114 * bl + 500) / 1000 := Nat.mod_eq_of_lt (by omega)
  refine ⟨?_, h2⟩
  simp only [grayPixel, luma, h1, h3]

theorem luma_gray (l : Nat) : luma l l l = l := by
  unfold luma
  omega

/-- The four bytes of the pixel at byte offset `4 * j`, and what the grey
transform leaves at each of them. -/
theorem expectedByte_gray (src : List Nat) (j : Nat) (hj : 4 * j + 4 ≤ src.length)
    (hbytes : ∀ b ∈ src, b < 256) :
    ∃ r g bl a, src[4 * j]? = some r ∧ src[4 * j + 1]? = some g ∧ src[4 * j + 2]? = some bl ∧
      src[4 * j + 3]? = some a ∧ luma r g bl ≤ 255 ∧ a < 256 ∧
      expectedByte grayPixel src (4 * j) = some (luma r g bl) ∧
      expectedByte grayPixel src (4 * j + 1) = some (luma r g bl) ∧
      expectedByte grayPixel src (4 * j + 2) = some (luma r g bl) ∧
      expectedByte grayPixel src (4 * j + 3) = some a := by
  obtain ⟨r, hr⟩ : ∃ r, src[4 * j]? = some r := ⟨_, List.getElem?_eq_getElem (by omega)⟩
  obtain ⟨g, hg⟩ : ∃ g, src[4 * j + 1]? = some g := ⟨_, List.getElem?_eq_getElem (by omega)⟩
  obtain ⟨bl, hb⟩ : ∃ bl, src[4 * j + 2]? = some bl := ⟨_, List.getElem?_eq_getElem (by omega)⟩
  obtain ⟨a, ha⟩ : ∃ a, src[4 * j + 3]? = some a := ⟨_, List.getElem?_eq_getElem (by omega)⟩
  obtain ⟨hgp, hle⟩ := grayPixel_bytes r g bl a (hbytes _ (List.getElem?_mem hr))
    (hbytes _ (List.getElem?_mem hg)) (hbytes _ (List.getElem?_mem hb))
  have b0 : 4 * j - 4 * j % 4 = 4 * j := by omega
  have b1 : 4 * j + 1 - (4 * j + 1) % 4 = 4 * j := by omega
  have b2 : 4 * j + 2 - (4 * j + 2) % 4 = 4 * j := by omega
  have b3 : 4 * j + 3 - (4 * j + 3) % 4 = 4 * j := by omega
  have c0 : 4 * j % 4 = 0 := by omega
  have c1 : (4 * j + 1) % 4 = 1 := by omega
  have c2 : (4 * j + 2) % 4 = 2 := by omega
  have c3 : (4 * j + 3) % 4 = 3 := by omega
  refine ⟨r, g, bl, a, hr, hg, hb, ha, hle, hbytes _ (List.getElem?_mem ha), ?_, ?_, ?_, ?_⟩
  · unfold expectedByte
    rw [b0, hr, hg, hb, ha]
    simp only [c0, hgp, if_true]
  · unfold expectedByte
    rw [b1, hr, hg, hb, ha]
    simp only [c1, hgp]
    simp
  · unfold expectedByte
    rw [b2, hr, hg, hb, ha]
    simp only [c2, hgp]
    simp
  · unfold expectedByte
    rw [b3, hr, hg, hb, ha]
    simp only [c3, hgp]
    simp

/-- What `toGrayscale` leaves in the pixel at byte offset `4 * j`. -/
theorem gray_pixel_at (src out : List Nat) (n j : Nat) (hlen : 4 * n ≤ src.length)
    (hbytes : ∀ b ∈ src, b < 256)
    (hpix : ∀ k, k < 4 * n → out[k]? = expectedByte grayPixel src k) (hj : j < n) :
    ∃ r g bl a, src[4 * j]? = some r ∧ src[4 * j + 1]? = some g ∧ src[4 * j + 2]? = some bl ∧
      src[4 * j + 3]? = some a ∧
      out[4 * j]? = some (luma r g bl) ∧ out[4 * j + 1]? = some (luma r g bl) ∧
      out[4 * j + 2]? = some (luma r g bl) ∧ out[4 * j + 3]? = some a ∧
      luma r g bl ≤ 255 ∧ a < 256 := by
  obtain ⟨r, g, bl, a, hr, hg, hb, ha, hle, hlt, e0, e1, e2, e3⟩ :=
    expectedByte_gray src j (by omega) hbytes
  exact ⟨r, g, bl, a, hr, hg, hb, ha, by rw [hpix _ (by omega), e0], by rw [hpix _ (by omega), e1],
    by rw [hpix _ (by omega), e2], by rw [hpix _ (by omega), e3], hle, hlt⟩

/-- C20: on an NRGBA image whose stride is four times its width, `toGrayscale`
returns an image with the same bounds in which the pixel at column `x`, row `y`
has R = G = B = `(299*r + 587*g + 114*b + 500) / 1000` of the source pixel and
the source alpha; that value is at most 255; and `toGrayscale` of the result is
the result itself. -/
theorem C20_toGrayscale_pixels (src : NRGBA) (w h : Nat)
    (hw : src.Rect.maxX - src.Rect.minX = (w : Int))
    (hh : src.Rect.maxY - src.Rect.minY = (h : Int))
    (hs : src.Stride = 4 * (w : Int))
    (hlen : 4 * w * h ≤ src.Pix.length) (hmax : src.Pix.length < 2 ^ 63)
    (hbytes : ∀ b ∈ src.Pix, b < 256) :
    ∃ out, toGrayscale src = some out ∧ out.Rect = src.Rect ∧
      (∀ y x, y < h → x < w → ∃ r g bl a,
        src.Pix[4 * (y * w + x)]? = some r ∧ src.Pix[4 * (y * w + x) + 1]? = some g ∧
        src.Pix[4 * (y * w + x) + 2]? = some bl ∧ src.Pix[4 * (y * w + x) + 3]? = some a ∧
        out.Pix[4 * (y * w + x)]? = some ((299 * r + 587 * g + 114 * bl + 500) / 1000) ∧
        out.Pix[4 * (y * w + x) + 1]? = some ((299 * r + 587 * g + 114 * bl + 500) / 1000) ∧
        out.Pix[4 * (y * w + x) + 2]? = some ((299 * r + 587 * g + 114 * bl + 500) / 1000) ∧
        out.Pix[4 * (y * w + x) + 3]? = some a ∧
        (299 * r + 587 * g + 114 * bl + 500) / 1000 ≤ 255) ∧
      toGrayscale out = some out := by
  obtain ⟨out, hout, hrect, hstride, hlo, hpix⟩ := toGrayscale_spec src w h hw hh hs hlen hmax
  have hN : 4 * w * h = 4 * (w * h) := by ring
  rw [hN] at hlen hlo hpix
  refine ⟨out, hout, hrect, ?_, ?_⟩
  · intro y x hy hx
    have hj : y * w + x < w * h := by
      have h1 : (y + 1) * w ≤ h * w := Nat.mul_le_mul_right w hy
      have h2 : (y + 1) * w = y * w + w := by ring
      have h3 : h * w = w * h := by ring
      omega
    obtain ⟨r, g, bl, a, hr, hg, hb, ha, o0, o1, o2, o3, hle, _⟩ :=
      gray_pixel_at src.Pix out.Pix (w * h) (y * w + x) hlen hbytes hpix hj
    exact ⟨r, g, bl, a, hr, hg, hb, ha, o0, o1, o2, o3, hle⟩
  · have hob : ∀ b ∈ out.Pix, b < 256 := by
      intro b hb
      obtain ⟨k, hk, hkb⟩ := List.getElem_of_mem hb
      have hk2 : out.Pix[k]? = some b := by rw [List.getElem?_eq_getElem hk, hkb]
      have hj : k / 4 < w * h := by omega
      obtain ⟨r, g, bl, a, _, _, _, _, o0, o1, o2, o3, hle, hlt⟩ :=
        gray_pixel_at src.Pix out.Pix (w * h) (k / 4) hlen hbytes hpix hj
      have hc : k = 4 * (k / 4) ∨ k = 4 * (k / 4) + 1 ∨ k = 4 * (k / 4) + 2 ∨
          k = 4 * (k / 4) + 3 := by omega
      rcases hc with hc | hc | hc | hc
      · rw [hc, o0] at hk2
        simp only [Option.some.injEq] at hk2
        omega
      · rw [hc, o1] at hk2
        simp only [Option.some.injEq] at hk2
        omega
      · rw [hc, o2] at hk2
        simp only [Option.some.injEq] at hk2
        omega
      · rw [hc, o3] at hk2
        simp only [Option.some.injEq] at hk2
        omega
    obtain ⟨out2, hout2, hrect2, hstride2, hlo2, hpix2⟩ := toGrayscale_spec out w h
      (by rw [hrect]; exact hw) (by rw [hrect]; exact hh) hstride (by rw [hlo, hN])
      (by omega)
    rw [hN] at hlo2 hpix2
    have hsame : out2.Pix = out.Pix := by
      apply List.ext_getElem?
      intro k
      by_cases hk : k < 4 * (w * h)
      · rw [hpix2 k hk]
        have hj : k / 4 < w * h := by omega
        obtain ⟨r, g, bl, a, _, _, _, _, o0, o1, o2, o3, hle, hlt⟩ :=
          gray_pixel_at src.Pix out.Pix (w * h) (k / 4) hlen hbytes hpix hj
        obtain ⟨r2, g2, bl2, a2, p0, p1, p2, p3, _, _, e0, e1, e2, e3⟩ :=
          expectedByte_gray out.Pix (k / 4) (by omega) hob
        rw [o0] at p0
        rw [o1] at p1
        rw [o2] at p2
        rw [o3] at p3
        simp only [Option.some.injEq] at p0 p1 p2 p3
        subst p0 p1 p2 p3
        rw [luma_gray] at e0 e1 e2
        have hc : k = 4 * (k / 4) ∨ k = 4 * (k / 4) + 1 ∨ k = 4 * (k / 4) + 2 ∨
            k = 4 * (k / 4) + 3 := by omega
        rcases hc with hc | hc | hc | hc
        · rw [hc, e0, o0]
        · rw [hc, e1, o1]
        · rw [hc, e2, o2]
        · rw [hc, e3, o3]
      · rw [List.getElem?_eq_none (by omega), List.getElem?_eq_none (by omega)]
    rw [hout2]
    congr 1
    cases out2
    cases out
    simp only at hsame hrect2 hstride2 hstride
    simp only [NRGBA.mk.injEq]
    exact ⟨hsame, by rw [hstride2, hstride], hrect2⟩

theorem C20_witness :
    (7 : Int) - 5 = ((2 : Nat) : Int) ∧ (6 : Int) - 5 = ((1 : Nat) : Int) ∧
    (8 : Int) = 4 * ((2 : Nat) : Int) ∧
    4 * 2 * 1 ≤ [255, 0, 0, 255, 10, 20, 30, 40].length ∧
    [255, 0, 0, 255, 10, 20, 30, 40].length < 2 ^ 63 ∧
    (∀ b ∈ [255, 0, 0, 255, 10, 20, 30, 40], b < 256) ∧
    toGrayscale ⟨[255, 0, 0, 255, 10, 20, 30, 40], 8, ⟨5, 5, 7, 6⟩⟩
      = some ⟨[76, 76, 76, 255, 18, 18, 18, 40], 8, ⟨5, 5, 7, 6⟩⟩ ∧
    toGrayscale ⟨[76, 76, 76, 255, 18, 18, 18, 40], 8, ⟨5, 5, 7, 6⟩⟩
      = some ⟨[76, 76, 76, 255, 18, 18, 18, 40], 8, ⟨5, 5, 7, 6⟩⟩ := by
  obtain ⟨out, ho, _, _, hi⟩ := C20_toGrayscale_pixels
    ⟨[255, 0, 0, 255, 10, 20, 30, 40], 8, ⟨5, 5, 7, 6⟩⟩ 2 1 (by decide) (by decide) (by decide)
    (by decide) (by decide) (by decide)
  have hv : toGrayscale ⟨[255, 0, 0, 255, 10, 20, 30, 40], 8, ⟨5, 5, 7, 6⟩⟩
      = some ⟨[76, 76, 76, 255, 18, 18, 18, 40], 8, ⟨5, 5, 7, 6⟩⟩ := by decide
  rw [hv] at ho
  simp only [Option.some.injEq] at ho
  subst ho
  exact ⟨by decide, by decide, by decide, by decide, by decide, by decide, hv, hi⟩

/-- On an image whose stride is four times its width, the pixel loop of
`invertColors` succeeds and leaves at every index the byte its transform gives. -/
theorem invertColors_spec (src : NRGBA) (w h : Nat)
    (hw : src.Rect.maxX - src.Rect.minX = (w : Int))
    (hh : src.Rect.maxY - src.Rect.minY = (h : Int))
    (hs : src.Stride = 4 * (w : Int))
    (hlen : 4 * w * h ≤ src.Pix.length) (hmax : src.Pix.length < 2 ^ 63) :
    ∃ out, invertColors src = some out ∧ out.Rect = src.Rect ∧ out.Stride = 4 * (w : Int) ∧
      out.Pix.length = 4 * w * h ∧
      ∀ k, k < 4 * w * h → out.Pix[k]? = expectedByte invertPixel src.Pix k := by
  have hnew : NewNRGBA src.Rect
      = some ⟨List.replicate (4 * w * h) 0, 4 * (w : Int), src.Rect⟩ := by
    unfold NewNRGBA
    rw [hw, hh]
    have hbig : ¬ (4 * (w : Int) * (h : Int) ≥ 2 ^ 63) := by
      have : ((4 * w * h : Nat) : Int) < 2 ^ 63 := by
        have : 4 * w * h < 2 ^ 63 := by omega
        exact_mod_cast this
      push_cast at this
      omega
    rw [if_neg (by omega)]
    simp
  have hst : src.Stride = ((4 * w : Nat) : Int) := by rw [hs]; push_cast; rfl
  obtain ⟨d, hd, hl, hk⟩ := imageLoop_spec invertPixel src.Pix w h 0 (List.replicate (4 * w * h) 0)
    (by simpa using hlen) (by simp)
  refine ⟨⟨d, 4 * (w : Int), src.Rect⟩, ?_, rfl, rfl, ?_, ?_⟩
  · unfold invertColors
    rw [hnew, hw, hh, hst]
    simp only [Int.toNat_ofNat]
    rw [hd]
  · simpa using hl
  · intro k hk4
    show d[k]? = _
    rw [hk k, if_pos ⟨by omega, by simpa using hk4⟩]

theorem invertPixel_bytes (r g bl a : Nat) (hr : r < 256) (hg : g < 256) (hb : bl < 256) :
    invertPixel r g bl a = (255 - r, 255 - g, 255 - bl, a) := by
  have h1 : (256 + 255 - r) % 256 = 255 - r := by omega
  have h2 : (256 + 255 - g) % 256 = 255 - g := by omega
  have h3 : (256 + 255 - bl) % 256 = 255 - bl := by omega
  simp only [invertPixel, h1, h2, h3]

/-- The four bytes of the pixel at byte offset `4 * j`, and what the inverting
transform leaves at each of them. -/
theorem expectedByte_invert (src : List Nat) (j : Nat) (hj : 4 * j + 4 ≤ src.length)
    (hbytes : ∀ b ∈ src, b < 256) :
    ∃ r g bl a, src[4 * j]? = some r ∧ src[4 * j + 1]? = some g ∧ src[4 * j + 2]? = some bl ∧
      src[4 * j + 3]? = some a ∧ r < 256 ∧ g < 256 ∧ bl < 256 ∧ a < 256 ∧
      expectedByte invertPixel src (4 * j) = some (255 - r) ∧
      expectedByte invertPixel src (4 * j + 1) = some (255 - g) ∧
      expectedByte invertPixel src (4 * j + 2) = some (255 - bl) ∧
      expectedByte invertPixel src (4 * j + 3) = some a := by
  obtain ⟨r, hr⟩ : ∃ r, src[4 * j]? = some r := ⟨_, List.getElem?_eq_getElem (by omega)⟩
  obtain ⟨g, hg⟩ : ∃ g, src[4 * j + 1]? = some g := ⟨_, List.getElem?_eq_getElem (by omega)⟩
  obtain ⟨bl, hb⟩ : ∃ bl, src[4 * j + 2]? = some bl := ⟨_, List.getElem?_eq_getElem (by omega)⟩
  obtain ⟨a, ha⟩ : ∃ a, src[4 * j + 3]? = some a := ⟨_, List.getElem?_eq_getElem (by omega)⟩
  have lr := hbytes _ (List.getElem?_mem hr)
  have lg := hbytes _ (List.getElem?_mem hg)
  have lb := hbytes _ (List.getElem?_mem hb)
  have hip := invertPixel_bytes r g bl a lr lg lb
  have b0 : 4 * j - 4 * j % 4 = 4 * j := by omega
  have b1 : 4 * j + 1 - (4 * j + 1) % 4 = 4 * j := by omega
  have b2 : 4 * j + 2 - (4 * j + 2) % 4 = 4 * j := by omega
  have b3 : 4 * j + 3 - (4 * j + 3) % 4 = 4 * j := by omega
  have c0 : 4 * j % 4 = 0 := by omega
  have c1 : (4 * j + 1) % 4 = 1 := by omega
  have c2 : (4 * j + 2) % 4 = 2 := by omega
  have c3 : (4 * j + 3) % 4 = 3 := by omega
  refine ⟨r, g, bl, a, hr, hg, hb, ha, lr, lg, lb, hbytes _ (List.getElem?_mem ha), ?_, ?_, ?_, ?_⟩
  · unfold expectedByte
    rw [b0, hr, hg, hb, ha]
    simp only [c0, hip, if_true]
  · unfold expectedByte
    rw [b1, hr, hg, hb, ha]
    simp only [c1, hip]
    simp
  · unfold expectedByte
    rw [b2, hr, hg, hb, ha]
    simp only [c2, hip]
    simp
  · unfold expectedByte
    rw [b3, hr, hg, hb, ha]
    simp only [c3, hip]
    simp

/-- What `invertColors` leaves in the pixel at byte offset `4 * j`. -/
theorem invert_pixel_at (src out : List Nat) (n j : Nat) (hlen : 4 * n ≤ src.length)
    (hbytes : ∀ b ∈ src, b < 256)
    (hpix : ∀ k, k < 4 * n → out[k]? = expectedByte invertPixel src k) (hj : j < n) :
    ∃ r g bl a, src[4 * j]? = some r ∧ src[4 * j + 1]? = some g ∧ src[4 * j + 2]? = some bl ∧
      src[4 * j + 3]? = some a ∧ r < 256 ∧ g < 256 ∧ bl < 256 ∧ a < 256 ∧
      out[4 * j]? = some (255 - r) ∧ out[4 * j + 1]? = some (255 - g) ∧
      out[4 * j + 2]? = some (255 - bl) ∧ out[4 * j + 3]? = some a := by
  obtain ⟨r, g, bl, a, hr, hg, hb, ha, lr, lg, lb, la, e0, e1, e2, e3⟩ :=
    expectedByte_invert src j (by omega) hbytes
  exact ⟨r, g, bl, a, hr, hg, hb, ha, lr, lg, lb, la, by rw [hpix _ (by omega), e0],
    by rw [hpix _ (by omega), e1], by rw [hpix _ (by omega), e2], by rw [hpix _ (by omega), e3]⟩

/-- C21: on an NRGBA image whose stride is four times its width, `invertColors`
returns an image with the same bounds in which the pixel at column `x`, row `y`
has R, G and B equal to 255 minus the source channel and the source alpha; and
`invertColors` of the result has the bounds and, at every pixel, the bytes of
the source (it is the source itself when the source buffer holds exactly its
pixels). -/
theorem C21_invertColors_pixels (src : NRGBA) (w h : Nat)
    (hw : src.Rect.maxX - src.Rect.minX = (w : Int))
    (hh : src.Rect.maxY - src.Rect.minY = (h : Int))
    (hs : src.Stride = 4 * (w : Int))
    (hlen : 4 * w * h ≤ src.Pix.length) (hmax : src.Pix.length < 2 ^ 63)
    (hbytes : ∀ b ∈ src.Pix, b < 256) :
    ∃ out, invertColors src = some out ∧ out.Rect = src.Rect ∧
      (∀ y x, y < h → x < w → ∃ r g bl a,
        src.Pix[4 * (y * w + x)]? = some r ∧ src.Pix[4 * (y * w + x) + 1]? = some g ∧
        src.Pix[4 * (y * w + x) + 2]? = some bl ∧ src.Pix[4 * (y * w + x) + 3]? = some a ∧
        r ≤ 255 ∧ g ≤ 255 ∧ bl ≤ 255 ∧
        out.Pix[4 * (y * w + x)]? = some (255 - r) ∧
        out.Pix[4 * (y * w + x) + 1]? = some (255 - g) ∧
        out.Pix[4 * (y * w + x) + 2]? = some (255 - bl) ∧
        out.Pix[4 * (y * w + x) + 3]? = some a) ∧
      ∃ out2, invertColors out = some out2 ∧ out2.Rect = src.Rect ∧
        (∀ k, k < 4 * w * h → out2.Pix[k]? = src.Pix[k]?) ∧
        (src.Pix.length = 4 * w * h → out2 = src) := by
  obtain ⟨out, hout, hrect, hstride, hlo, hpix⟩ := invertColors_spec src w h hw hh hs hlen hmax
  have hN : 4 * w * h = 4 * (w * h) := by ring
  rw [hN] at hlen hlo hpix
  refine ⟨out, hout, hrect, ?_, ?_⟩
  · intro y x hy hx
    have hj : y * w + x < w * h := by
      have h1 : (y + 1) * w ≤ h * w := Nat.mul_le_mul_right w hy
      have h2 : (y + 1) * w = y * w + w := by ring
      have h3 : h * w = w * h := by ring
      omega
    obtain ⟨r, g, bl, a, hr, hg, hb, ha, lr, lg, lb, _, o0, o1, o2, o3⟩ :=
      invert_pixel_at src.Pix out.Pix (w * h) (y * w + x) hlen hbytes hpix hj
    exact ⟨r, g, bl, a, hr, hg, hb, ha, by omega, by omega, by omega, o0, o1, o2, o3⟩
  · have hob : ∀ b ∈ out.Pix, b < 256 := by
      intro b hb
      obtain ⟨k, hk, hkb⟩ := List.getElem_of_mem hb
      have hk2 : out.Pix[k]? = some b := by rw [List.getElem?_eq_getElem hk, hkb]
      have hj : k / 4 < w * h := by omega
      obtain ⟨r, g, bl, a, _, _, _, _, _, _, _, la, o0, o1, o2, o3⟩ :=
        invert_pixel_at src.Pix out.Pix (w * h) (k / 4) hlen hbytes hpix hj
      have hc : k = 4 * (k / 4) ∨ k = 4 * (k / 4) + 1 ∨ k = 4 * (k / 4) + 2 ∨
          k = 4 * (k / 4) + 3 := by omega
      rcases hc with hc | hc | hc | hc
      · rw [hc, o0] at hk2
        simp only [Option.some.injEq] at hk2
        omega
      · rw [hc, o1] at hk2
        simp only [Option.some.injEq] at hk2
        omega
      · rw [hc, o2] at hk2
        simp only [Option.some.injEq] at hk2
        omega
      · rw [hc, o3] at hk2
        simp only [Option.some.injEq] at hk2
        omega
    obtain ⟨out2, hout2, hrect2, hstride2, hlo2, hpix2⟩ := invertColors_spec out w h
      (by rw [hrect]; exact hw) (by rw [hrect]; exact hh) hstride (by rw [hlo, hN])
      (by omega)
    rw [hN] at hlo2 hpix2
    have hback : ∀ k, k < 4 * (w * h) → out2.Pix[k]? = src.Pix[k]? := by
      intro k hk
      rw [hpix2 k hk]
      have hj : k / 4 < w * h := by omega
      obtain ⟨r, g, bl, a, s0, s1, s2, s3, lr, lg, lb, _, o0, o1, o2, o3⟩ :=
        invert_pixel_at src.Pix out.Pix (w * h) (k / 4) hlen hbytes hpix hj
      obtain ⟨r2, g2, bl2, a2, p0, p1, p2, p3, _, _, _, _, e0, e1, e2, e3⟩ :=
        expectedByte_invert out.Pix (k / 4) (by omega) hob
      rw [o0] at p0
      rw [o1] at p1
      rw [o2] at p2
      rw [o3] at p3
      simp only [Option.some.injEq] at p0 p1 p2 p3
      subst p0 p1 p2 p3
      have q0 : 255 - (255 - r) = r := by omega
      have q1 : 255 - (255 - g) = g := by omega
      have q2 : 255 - (255 - bl) = bl := by omega
      rw [q0] at e0
      rw [q1] at e1
      rw [q2] at e2
      have hc : k = 4 * (k / 4) ∨ k = 4 * (k / 4) + 1 ∨ k = 4 * (k / 4) + 2 ∨
          k = 4 * (k / 4) + 3 := by omega
      rcases hc with hc | hc | hc | hc
      · rw [hc, e0, s0]
      · rw [hc, e1, s1]
      · rw [hc, e2, s2]
      · rw [hc, e3, s3]
    refine ⟨out2, hout2, by rw [hrect2, hrect], by rw [hN]; exact hback, ?_⟩
    intro hexact
    rw [hN] at hexact
    have hsame : out2.Pix = src.Pix := by
      apply List.ext_getElem?
      intro k
      by_cases hk : k < 4 * (w * h)
      · exact hback k hk
      · rw [List.getElem?_eq_none (by omega), List.getElem?_eq_none (by omega)]
    cases out2
    cases src
    simp only at hsame hrect2 hstride2 hs hrect
    simp only [NRGBA.mk.injEq]
    exact ⟨hsame, by rw [hstride2, hs], by rw [hrect2, hrect]⟩

theorem C21_witness :
    (7 : Int) - 5 = ((2 : Nat) : Int) ∧ (6 : Int) - 5 = ((1 : Nat) : Int) ∧
    (8 : Int) = 4 * ((2 : Nat) : Int) ∧
    4 * 2 * 1 ≤ [255, 0, 100, 255, 10, 20, 30, 40].length ∧
    [255, 0, 100, 255, 10, 20, 30, 40].length < 2 ^ 63 ∧
    (∀ b ∈ [255, 0, 100, 255, 10, 20, 30, 40], b < 256) ∧
    invertColors ⟨[255, 0, 100, 255, 10, 20, 30, 40], 8, ⟨5, 5, 7, 6⟩⟩
      = some ⟨[0, 255, 155, 255, 245, 235, 225, 40], 8, ⟨5, 5, 7, 6⟩⟩ ∧
    invertColors ⟨[0, 255, 155, 255, 245, 235, 225, 40], 8, ⟨5, 5, 7, 6⟩⟩
      = some ⟨[255, 0, 100, 255, 10, 20, 30, 40], 8, ⟨5, 5, 7, 6⟩⟩ := by
  obtain ⟨out, ho, _, _, out2, ho2, _, _, hsame⟩ := C21_invertColors_pixels
    ⟨[255, 0, 100, 255, 10, 20, 30, 40], 8, ⟨5, 5, 7, 6⟩⟩ 2 1 (by decide) (by decide) (by decide)
    (by decide) (by decide) (by decide)
  have hv : invertColors ⟨[255, 0, 100, 255, 10, 20, 30, 40], 8, ⟨5, 5, 7, 6⟩⟩
      = some ⟨[0, 255, 155, 255, 245, 235, 225, 40], 8, ⟨5, 5, 7, 6⟩⟩ := by decide
  rw [hv] at ho
  simp only [Option.some.injEq] at ho
  subst ho
  rw [hsame (by decide)] at ho2
  exact ⟨by decide, by decide, by decide, by decide, by decide, by decide, hv, ho2⟩

end Redis
